import Mathlib

/-!
# vibe-check: checkpoint discovery, squash planning and finalize

A shallow embedding of `internal/git` (git.go, checkpoint.go, finalize.go) and of the
finalize handler of `internal/app/handlers.go`.

* Go strings are modelled by `String` (sequences of code points; the source only ever
  handles text printed by git, assumed valid UTF-8).
* Every external process the code starts (`git ...`, `date ...`) is a `Proc`; the
  environment is a `World` that answers each process with an arbitrary output and exit
  status and records the processes run; the branch pointers of the store are those the
  successful git commands recorded so far lead to.
* A Go `error` result is an `Option String` (`none` is `nil`, `some e` carries `e.Error()`);
  a `(value, error)` result is an `Except String value`.
-/

namespace VibeCheck

/-! ## Text primitives (Go package `strings`) -/

/-- Does the character list `s` begin with `p`? -/
def startsWith : List Char → List Char → Bool
  | [], _ => true
  | _ :: _, [] => false
  | p :: ps, c :: cs => p == c && startsWith ps cs

/-- Does `sub` occur as a contiguous block of `s`? -/
def containsChars (sub : List Char) : List Char → Bool
  | [] => sub.isEmpty
  | c :: cs => startsWith sub (c :: cs) || containsChars sub cs

/-- Go `strings.Contains(s, substr)`. -/
def Contains (s substr : String) : Bool := containsChars substr.data s.data

/-- Go `unicode.IsSpace`: the code points with the Unicode White_Space property. -/
def isSpace (c : Char) : Bool :=
  let n := c.toNat
  (9 ≤ n && n ≤ 13) || n == 32 || n == 0x85 || n == 0xA0 || n == 0x1680 ||
  (0x2000 ≤ n && n ≤ 0x200A) || n == 0x2028 || n == 0x2029 || n == 0x202F ||
  n == 0x205F || n == 0x3000

/-- Go `strings.TrimSpace`: drop leading and trailing white space. -/
def TrimSpace (s : String) : String :=
  ⟨((s.data.dropWhile isSpace).reverse.dropWhile isSpace).reverse⟩

/-- Split a character list at every occurrence of `sep`; never returns the empty list. -/
def splitChars (sep : Char) : List Char → List (List Char)
  | [] => [[]]
  | c :: cs =>
    if c = sep then [] :: splitChars sep cs
    else match splitChars sep cs with
      | [] => [[c]]
      | l :: ls => (c :: l) :: ls

/-- Go `strings.Split(s, sep)` for a one-character separator (the source splits on
newline only). -/
def Split (s : String) (sep : Char) : List String :=
  (splitChars sep s.data).map String.mk

/-- Cut a character list at the first occurrence of `sep`. -/
def cutAt (sep : Char) : List Char → Option (List Char × List Char)
  | [] => none
  | c :: cs =>
    if c = sep then some ([], cs)
    else (cutAt sep cs).map (fun p => (c :: p.1, p.2))

/-- Go `strings.SplitN(s, " ", 2)`: the text before the first space and the text after
it, or the whole text alone when it has no space. -/
def SplitN2 (s : String) : List String :=
  match cutAt ' ' s.data with
  | none => [s]
  | some (a, b) => [⟨a⟩, ⟨b⟩]

/-- The tag that marks a commit subject as a checkpoint. -/
def checkpointTag : String := "CHECKPOINT:"

/-! ## Data model (`internal/models/types.go`) -/

/-- Go `models.Checkpoint`. The `Time` field is never assigned by the code embedded here
and is left out. -/
structure Checkpoint where
  Hash : String
  Message : String
deriving DecidableEq, Repr

/-- An entry is tagged when its message contains the checkpoint tag. -/
def Checkpoint.isTagged (cp : Checkpoint) : Bool := Contains cp.Message checkpointTag

/-! ## The external store -/

/-- The external processes started by `internal/git`, one constructor per distinct
argument vector in the source. -/
inductive Proc where
  /-- The call `git rev-parse --git-dir`. -/
  | revParseGitDir
  /-- The call `git rev-parse --short HEAD`. -/
  | revParseShortHead
  /-- The call `git rev-parse --abbrev-ref HEAD`. -/
  | revParseAbbrevRefHead
  /-- The call `date +%d/%m/%Y %H:%M`. -/
  | date
  /-- The call `git status --porcelain`. -/
  | statusPorcelain
  /-- The call `git add .`. -/
  | addAll
  /-- The call `git commit -m <message>`. -/
  | commit (message : String)
  /-- The call `git log --oneline --grep=CHECKPOINT --format=%h %s`. -/
  | logGrepCheckpoint
  /-- The call `git reflog --format=%h %s`. -/
  | reflog
  /-- The call `git checkout <target>`. -/
  | checkout (target : String)
  /-- The call `git log --oneline --format=%h %s`. -/
  | logShort
  /-- The call `git log --oneline -1 --format=%s`. -/
  | logLastSubject
  /-- The call `git log --oneline --format=%H %s`. -/
  | logFull
  /-- The call `git branch <name> HEAD`. -/
  | branchCreate (name : String)
  /-- The call `git branch -D <name>`. -/
  | branchDelete (name : String)
  /-- The call `git reset --soft <rev>`. -/
  | resetSoft (rev : String)
  /-- The call `git reset --hard <rev>`. -/
  | resetHard (rev : String)
  /-- The call `git diff --cached --name-only`. -/
  | diffCached
  /-- The call `git push --force-with-lease origin <branch>`. -/
  | push (branch : String)
  /-- The call `git reflog expire --expire=now --all`. -/
  | reflogExpire
  /-- The call `git gc --prune=now`. -/
  | gc
deriving DecidableEq, Repr

/-- The argument vector of a process, as written in the source. -/
def Proc.argv : Proc → List String
  | .revParseGitDir => ["git", "rev-parse", "--git-dir"]
  | .revParseShortHead => ["git", "rev-parse", "--short", "HEAD"]
  | .revParseAbbrevRefHead => ["git", "rev-parse", "--abbrev-ref", "HEAD"]
  | .date => ["date", "+%d/%m/%Y %H:%M"]
  | .statusPorcelain => ["git", "status", "--porcelain"]
  | .addAll => ["git", "add", "."]
  | .commit m => ["git", "commit", "-m", m]
  | .logGrepCheckpoint => ["git", "log", "--oneline", "--grep=CHECKPOINT", "--format=%h %s"]
  | .reflog => ["git", "reflog", "--format=%h %s"]
  | .checkout t => ["git", "checkout", t]
  | .logShort => ["git", "log", "--oneline", "--format=%h %s"]
  | .logLastSubject => ["git", "log", "--oneline", "-1", "--format=%s"]
  | .logFull => ["git", "log", "--oneline", "--format=%H %s"]
  | .branchCreate b => ["git", "branch", b, "HEAD"]
  | .branchDelete b => ["git", "branch", "-D", b]
  | .resetSoft r => ["git", "reset", "--soft", r]
  | .resetHard r => ["git", "reset", "--hard", r]
  | .diffCached => ["git", "diff", "--cached", "--name-only"]
  | .push b => ["git", "push", "--force-with-lease", "origin", b]
  | .reflogExpire => ["git", "reflog", "expire", "--expire=now", "--all"]
  | .gc => ["git", "gc", "--prune=now"]

/-- The store commands that change the repository or the remote: checkout, branch
creation and deletion, reset, add, commit, push and the event-log purge. -/
def Proc.isMutating : Proc → Bool
  | .checkout _ | .branchCreate _ | .branchDelete _ | .resetSoft _ | .resetHard _
  | .addAll | .commit _ | .push _ | .reflogExpire | .gc => true
  | _ => false

/-- The two commands that purge the event log: `reflog expire` and `gc`. -/
def Proc.isPurge : Proc → Bool
  | .reflogExpire | .gc => true
  | _ => false

/-- Is the process the push? -/
def Proc.isPush : Proc → Bool
  | .push _ => true
  | _ => false

/-- Is the process a `git checkout`? -/
def Proc.isCheckout : Proc → Bool
  | .checkout _ => true
  | _ => false

/-- Is the process a branch deletion? -/
def Proc.isBranchDelete : Proc → Bool
  | .branchDelete _ => true
  | _ => false

/-- The two steps whose failure triggers the rollback: the soft reset and the final
commit. -/
def Proc.isSquashStep : Proc → Bool
  | .resetSoft _ | .commit _ => true
  | _ => false

/-- The commands whose success moves a branch pointer, a remote-tracking branch or
HEAD. -/
def Proc.touchesRefs : Proc → Bool
  | .checkout _ | .branchCreate _ | .branchDelete _ | .resetSoft _ | .resetHard _
  | .commit _ | .push _ => true
  | _ => false

/-- What a finished process hands back: the text it printed and, when it did not exit
with status 0, the text of the error. -/
structure CmdResult where
  output : String
  err : Option String
deriving DecidableEq, Repr

/-- Where HEAD is: on a named branch, or detached at a commit. -/
inductive Head where
  | branch (name : String)
  | detached (commit : String)
deriving DecidableEq, Repr

/-- The branch pointers of the store: where HEAD is, the commit each local branch points
at, and the commit each remote-tracking branch of `origin` points at (`remotes "main"` is
where `origin/main` is). -/
structure Refs where
  head : Head
  branches : String → Option String
  remotes : String → Option String := fun _ => none

/-- The commit HEAD resolves to, if any. -/
def Refs.headCommit (r : Refs) : Option String :=
  match r.head with
  | .branch b => r.branches b
  | .detached c => some c

/-- Point branch `b` at `v` (or delete it when `v` is `none`). -/
def setBranch (f : String → Option String) (b : String) (v : Option String) :
    String → Option String :=
  fun x => if x = b then v else f x

/-- Resolve a revision argument: a branch name stands for the commit it points at,
anything else is taken as a commit id. -/
def Refs.resolveRev (r : Refs) (rev : String) : String :=
  (r.branches rev).getD rev

/-- Move the current position to commit `c`: the checked-out branch's pointer when HEAD is
on a branch, HEAD itself when it is detached. -/
def Refs.moveTo (r : Refs) (c : String) : Refs :=
  match r.head with
  | .branch b => { r with branches := setBranch r.branches b (some c) }
  | .detached _ => { r with head := .detached c }

/-- The effect a git command has on the branch pointers when it exits with status 0, as
git documents it. `checkout <name>` puts HEAD on the local branch `<name>`; when there is
none but `origin` has a branch of that name, it creates the local branch at the commit of
the remote-tracking branch and puts HEAD on it; a name that is neither is taken as a
commit, at which HEAD is detached. `branch <name> HEAD` points a new branch at the current
commit; `branch -D` removes a branch; `reset` (soft or hard) and `commit` move the current
position; a push of a local branch moves the remote-tracking branch of that name to the
commit pushed; every other command leaves the pointers alone. -/
def Refs.applyEffect (r : Refs) (p : Proc) (fresh : String) : Refs :=
  match p with
  | .checkout t =>
    match r.branches t with
    | some _ => { r with head := .branch t }
    | none =>
      match r.remotes t with
      | some c => { r with head := .branch t, branches := setBranch r.branches t (some c) }
      | none => { r with head := .detached t }
  | .push b =>
    match r.branches b with
    | some c => { r with remotes := setBranch r.remotes b (some c) }
    | none => r
  | .branchCreate b => { r with branches := setBranch r.branches b r.headCommit }
  | .branchDelete b => { r with branches := setBranch r.branches b none }
  | .resetSoft rev => r.moveTo (r.resolveRev rev)
  | .resetHard rev => r.moveTo (r.resolveRev rev)
  | .commit _ => r.moveTo fresh
  | _ => r

/-- The branch pointers after a sequence of calls, the first of which is the `n`-th
process: each call that succeeded has its effect, a failed call leaves the pointers where
they were. `fresh k` is the id of the commit a successful `git commit` creates when it is
the `k`-th process. -/
def replay (fresh : Nat → String) (r : Refs) (n : Nat) : List (Proc × CmdResult) → Refs
  | [] => r
  | c :: rest =>
    replay fresh (if c.2.err.isNone then r.applyEffect c.1 (fresh n) else r) (n + 1) rest

/-- The environment of the program.

* `respond n p` is what the `n`-th process started (counting from 0) returns when it is
  `p`: any text, any exit status.
* `unixTime` is `time.Now().Unix()`.
* `freshCommit n` is the id of the commit object a successful `git commit` creates when
  it is the `n`-th process.
* `initial` holds the branch pointers before the first process.
* `calls` lists the processes run so far with their results, oldest first. -/
structure World where
  respond : Nat → Proc → CmdResult
  unixTime : Int
  freshCommit : Nat → String
  initial : Refs
  calls : List (Proc × CmdResult)

/-- The branch pointers of the store now. -/
def World.refs (w : World) : Refs := replay w.freshCommit w.initial 0 w.calls

/-- Start process `p`: the world answers and the call is recorded. -/
def World.run (w : World) (p : Proc) : CmdResult × World :=
  let r := w.respond w.calls.length p
  (r, { w with calls := w.calls ++ [(p, r)] })

/-- The calls made between world `w` and a later world `w1`. -/
def issued (w w1 : World) : List (Proc × CmdResult) := w1.calls.drop w.calls.length

/-! ## `internal/git/git.go` -/

/-- Go `IsRepo`: `git rev-parse --git-dir` exits with status 0. -/
def IsRepo (w : World) : Bool × World :=
  let r := w.run .revParseGitDir
  (r.1.err.isNone, r.2)

/-- Go `RunCommand`: run a git command, return its combined output with surrounding
white space removed, and the error. -/
def RunCommand (p : Proc) (w : World) : (String × Option String) × World :=
  let r := w.run p
  ((TrimSpace r.1.output, r.1.err), r.2)

/-- Go `GetCurrentCommit`. -/
def GetCurrentCommit (w : World) : (String × Option String) × World :=
  RunCommand .revParseShortHead w

/-- Go `GetTimestamp`: the trimmed output of `date`, or "unknown" when it fails. -/
def GetTimestamp (w : World) : String × World :=
  let r := w.run .date
  (match r.1.err with
   | some _ => "unknown"
   | none => TrimSpace r.1.output, r.2)

/-- Go `GetCurrentBranch`. -/
def GetCurrentBranch (w : World) : (String × Option String) × World :=
  RunCommand .revParseAbbrevRefHead w

/-! ## `internal/git/checkpoint.go`: discovery -/

/-- One round of the loop over the event-log lines in `GetCheckpointsFromReflog`
(checkpoint.go 96-118). The state is the slice `checkpoints` built so far and the keys of
the map `seen`. -/
def reflogStep (st : List Checkpoint × List String) (raw : String) :
    List Checkpoint × List String :=
  let line := TrimSpace raw
  if line = "" then st
  else match SplitN2 line with
    | [hash, message] =>
      if Contains message checkpointTag && !st.2.contains hash then
        (st.1 ++ [{ Hash := hash, Message := message }], hash :: st.2)
      else st
    | _ => st

/-- The scan of the event log in `GetCheckpointsFromReflog` (checkpoint.go 91-119), before
the reversal: the tagged entries in log order, first occurrence of each hash only,
together with the hashes seen. -/
def scanReflog (reflogOutput : String) : List Checkpoint × List String :=
  if TrimSpace reflogOutput ≠ "" then
    (Split reflogOutput '\n').foldl reflogStep ([], [])
  else ([], [])

/-- The loop of `GetLastNonCheckpointCommit` (checkpoint.go 168-186): the first line that
has a hash and a subject and whose subject is not tagged. -/
def firstNonCheckpoint : List String → Option Checkpoint
  | [] => none
  | raw :: rest =>
    let line := TrimSpace raw
    if line = "" then firstNonCheckpoint rest
    else match SplitN2 line with
      | [hash, message] =>
        if !Contains message checkpointTag then some { Hash := hash, Message := message }
        else firstNonCheckpoint rest
      | _ => firstNonCheckpoint rest

/-- Go `GetLastNonCheckpointCommit`. -/
def GetLastNonCheckpointCommit (w : World) : Except String (Option Checkpoint) × World :=
  match RunCommand .logShort w with
  | ((_, some e), w1) => (.error e, w1)
  | ((output, none), w1) => (.ok (firstNonCheckpoint (Split output '\n')), w1)

/-- Go `GetCheckpointsFromReflog`: the tagged event-log entries, newest first and without
repeated hashes, followed by the last commit of the linear history that is not a
checkpoint (its message marked "[LAST COMMIT] ") when its hash is not already listed. -/
def GetCheckpointsFromReflog (w : World) : Except String (List Checkpoint) × World :=
  match RunCommand .reflog w with
  | ((_, some e), w1) => (.error e, w1)
  | ((reflogOutput, none), w1) =>
    let st := scanReflog reflogOutput
    let checkpoints := st.1.reverse
    match GetLastNonCheckpointCommit w1 with
    | (.ok (some lastNonCheckpoint), w2) =>
      if !st.2.contains lastNonCheckpoint.Hash then
        (.ok (checkpoints ++
          [{ lastNonCheckpoint with
              Message := "[LAST COMMIT] " ++ lastNonCheckpoint.Message }]), w2)
      else (.ok checkpoints, w2)
    | (_, w2) => (.ok checkpoints, w2)

/-- What both line loops of checkpoint.go do with a line before they look at the tag
(checkpoint.go 97-108 and 169-177): trim it, skip it when it is blank or has no space, and
split it at the first space into hash and message. -/
def parseLine (raw : String) : Option Checkpoint :=
  let line := TrimSpace raw
  if line = "" then none
  else match SplitN2 line with
    | [hash, message] => some { Hash := hash, Message := message }
    | _ => none

/-- The well-formed lines of a log text that carry the tag, in the order of the text. -/
def taggedEntries (output : String) : List Checkpoint :=
  ((Split output '\n').filterMap parseLine).filter Checkpoint.isTagged

/-- The first well-formed line of a log text that does not carry the tag. -/
def firstUntagged (output : String) : Option Checkpoint :=
  ((Split output '\n').filterMap parseLine).find? (fun cp => !cp.isTagged)

/-- "De-duplicate by id, first occurrence wins": of every hash the first entry only, in
the order of the list. -/
def firstOccurrences : List Checkpoint → List Checkpoint
  | [] => []
  | cp :: rest => cp :: (firstOccurrences rest).filter (fun c => c.Hash != cp.Hash)

/-- The entry appended for the last commit that is not a checkpoint (checkpoint.go
132-133). -/
def markLastCommit (cp : Checkpoint) : Checkpoint :=
  { cp with Message := "[LAST COMMIT] " ++ cp.Message }

/-- What `GetCheckpointsFromReflog` appends after the tagged entries (checkpoint.go
127-135), given the keys of `seen` and the result of `GetLastNonCheckpointCommit`. -/
def appendedEntries (seen : List String) (last : Except String (Option Checkpoint)) :
    List Checkpoint :=
  match last with
  | .ok (some lastNonCheckpoint) =>
    if !seen.contains lastNonCheckpoint.Hash then [markLastCommit lastNonCheckpoint] else []
  | _ => []

/-- The commit message of a checkpoint (checkpoint.go 32-38). -/
def checkpointMessage (timestamp customNote : String) : String :=
  if customNote ≠ "" then "CHECKPOINT: " ++ timestamp ++ " - " ++ customNote
  else "CHECKPOINT: " ++ timestamp

/-- The text of the error `CreateCheckpoint` returns on a clean working tree. -/
def errNothingToCheckpoint : String := "no changes to checkpoint"

/-- The text of the error returned outside a repository. -/
def errNotARepository : String := "not in a Git repository"

/-- Go `CreateCheckpoint`. -/
def CreateCheckpoint (customNote : String) (w : World) : Option String × World :=
  match IsRepo w with
  | (false, w1) => (some errNotARepository, w1)
  | (true, w1) =>
    match RunCommand .statusPorcelain w1 with
    | ((_, some e), w2) => (some ("failed to check git status: " ++ e), w2)
    | ((status, none), w2) =>
      if status = "" then (some errNothingToCheckpoint, w2)
      else
        match RunCommand .addAll w2 with
        | ((_, some e), w3) => (some ("failed to add changes: " ++ e), w3)
        | ((_, none), w3) =>
          match GetTimestamp w3 with
          | (timestamp, w4) =>
            match RunCommand (.commit (checkpointMessage timestamp customNote)) w4 with
            | ((_, some e), w5) => (some ("failed to create checkpoint: " ++ e), w5)
            | ((_, none), w5) => (none, w5)

/-- The text of the error `SwitchToCheckpoint` returns when HEAD is already at `hash`. -/
def errAlreadyAtTarget (hash : String) : String := "you are already on checkpoint " ++ hash

/-- Go `SwitchToCheckpoint`. -/
def SwitchToCheckpoint (hash : String) (w : World) : Option String × World :=
  match IsRepo w with
  | (false, w1) => (some errNotARepository, w1)
  | (true, w1) =>
    match GetCurrentCommit w1 with
    | ((currentCommit, err), w2) =>
      if err = none ∧ currentCommit = hash then (some (errAlreadyAtTarget hash), w2)
      else
        match RunCommand (.checkout hash) w2 with
        | ((_, some e), w3) =>
          (some ("failed to switch to checkpoint " ++ hash ++ ": " ++ e), w3)
        | ((_, none), w3) => (none, w3)

/-- Go `HasCheckpoints`: discovery succeeds and at least one discovered entry carries the
tag. -/
def HasCheckpoints (w : World) : Bool × World :=
  match GetCheckpointsFromReflog w with
  | (.error _, w1) => (false, w1)
  | (.ok checkpoints, w1) =>
    (decide (checkpoints.countP (fun cp => Contains cp.Message checkpointTag) > 0), w1)

/-! ## `internal/git/finalize.go`: failure diagnosis -/

/-- The rune map of Go `strings.ToLower` as far as ASCII text can tell: `A`-`Z` go to
`a`-`z`, and the only two code points outside ASCII whose lower case is an ASCII letter
(U+0130 and U+212A) go to `i` and `k`. Every other code point outside ASCII is mapped by
Go to a code point outside ASCII and is kept as it is here; the result is only ever
searched for ASCII phrases. -/
def toLowerRune (c : Char) : Char :=
  if 'A' ≤ c ∧ c ≤ 'Z' then Char.ofNat (c.toNat + 32)
  else if c.toNat = 0x130 then 'i'
  else if c.toNat = 0x212A then 'k'
  else c

/-- Go `strings.ToLower`. -/
def ToLower (s : String) : String := ⟨s.data.map toLowerRune⟩

/-- Go `diagnosePushError`; `err` is the text of the error. -/
def diagnosePushError (output err : String) : String :=
  let errorMsg := ToLower (output ++ " " ++ err)
  if Contains errorMsg "not a full refname" || Contains errorMsg "refs/heads" then
    "Git refname issue (HEAD push problem). Solutions:\n" ++
    "1. This should now be fixed - using branch name instead of HEAD\n" ++
    "2. Check current branch: git branch\n" ++
    "3. Make sure you\x27re on a proper branch, not detached HEAD\n" ++
    "4. Try: git checkout -b main (if no branch exists)"
  else if Contains errorMsg "permission denied" || Contains errorMsg "authentication" then
    "Authentication failed. Solutions:\n" ++
    "1. Check if you have push access to this repository\n" ++
    "2. Verify your Git credentials: git config --list | grep user\n" ++
    "3. For GitHub, check if you need a personal access token\n" ++
    "Manual push: git push --force-with-lease origin main"
  else if Contains errorMsg "no such remote" || Contains errorMsg "does not exist" then
    "Remote repository not found. Solutions:\n" ++
    "1. Check remote URL: git remote -v\n" ++
    "2. Add remote if missing: git remote add origin <your-repo-url>\n" ++
    "3. Update remote URL: git remote set-url origin <correct-url>\n" ++
    "Manual push: git push --force-with-lease origin main"
  else if Contains errorMsg "rejected" || Contains errorMsg "non-fast-forward" then
    "Push rejected (remote has newer commits). Solutions:\n" ++
    "1. Someone else pushed to the repository\n" ++
    "2. Pull latest changes: git pull origin main\n" ++
    "3. Then retry finalize and push\n" ++
    "Manual push: git push --force-with-lease origin main"
  else if Contains errorMsg "network" || Contains errorMsg "timeout" then
    "Network connection failed. Solutions:\n" ++
    "1. Check your internet connection\n" ++
    "2. Try again in a moment\n" ++
    "3. Check if GitHub/GitLab is accessible\n" ++
    "Manual push: git push --force-with-lease origin main"
  else
    "Unknown push error. Solutions:\n" ++
    "1. Check repository access and credentials\n" ++
    "2. Verify remote repository exists\n" ++
    "3. Try manual push: git push --force-with-lease origin main\n" ++
    "4. Check git status and git remote -v"

/-- Go `diagnoseCommitError`; `err` is the text of the error. -/
def diagnoseCommitError (output err : String) : String :=
  let errorMsg := ToLower (output ++ " " ++ err)
  if Contains errorMsg "nothing to commit" || Contains errorMsg "no changes" then
    "No changes to commit. This means:\n" ++
    "1. All checkpoints had identical content\n" ++
    "2. The working directory is clean after squashing\n" ++
    "Solution: This is normal - your checkpoints have been consolidated"
  else if Contains errorMsg "pre-commit" || Contains errorMsg "hook" then
    "Pre-commit hook failed. Solutions:\n" ++
    "1. Fix the issues reported by the pre-commit hook\n" ++
    "2. Or bypass hooks temporarily: git commit --no-verify -m \"your message\"\n" ++
    "3. Check what hooks are configured in .git/hooks/"
  else if Contains errorMsg "index.lock" || Contains errorMsg "unable to create" then
    "Git index locked or permission issue. Solutions:\n" ++
    "1. Remove lock file: rm .git/index.lock\n" ++
    "2. Check file permissions in .git directory\n" ++
    "3. Try the operation again"
  else if Contains errorMsg "pathspec" || Contains errorMsg "did not match" then
    "File path issue. Solutions:\n" ++
    "1. Check if all files exist\n" ++
    "2. Verify working directory is correct\n" ++
    "3. Run git status to see current state"
  else
    "Unknown commit error. Solutions:\n" ++
    "1. Check git status\n" ++
    "2. Verify repository is in good state\n" ++
    "3. Try manual commit: git commit -m \"Manual squash\"\n" ++
    "4. Check .git/hooks for problematic hooks"

/-- The categories of a push failure. -/
inductive PushCategory where
  | refName
  | authentication
  | remoteNotFound
  | rejected
  | network
  | unknown
deriving DecidableEq, Repr

/-- The categories of a commit failure. -/
inductive CommitCategory where
  | nothingToCommit
  | hook
  | lock
  | path
  | unknown
deriving DecidableEq, Repr

/-- "The first matching category in the listed order": the first category of `order` one
of whose patterns occurs in `text`, and `fallback` when there is none. -/
def firstMatching {κ : Type} (order : List κ) (patterns : κ → List String) (fallback : κ)
    (text : String) : κ :=
  match order.find? (fun c => (patterns c).any (fun p => Contains text p)) with
  | some c => c
  | none => fallback

/-- The texts that select a category of push failure. -/
def pushPatterns : PushCategory → List String
  | .refName => ["not a full refname", "refs/heads"]
  | .authentication => ["permission denied", "authentication"]
  | .remoteNotFound => ["no such remote", "does not exist"]
  | .rejected => ["rejected", "non-fast-forward"]
  | .network => ["network", "timeout"]
  | .unknown => []

/-- The order in which `diagnosePushError` tries the categories. -/
def pushOrder : List PushCategory :=
  [.refName, .authentication, .remoteNotFound, .rejected, .network]

/-- The advice `diagnosePushError` returns for a category. -/
def pushAdvice : PushCategory → String
  | .refName =>
    "Git refname issue (HEAD push problem). Solutions:\n" ++
    "1. This should now be fixed - using branch name instead of HEAD\n" ++
    "2. Check current branch: git branch\n" ++
    "3. Make sure you\x27re on a proper branch, not detached HEAD\n" ++
    "4. Try: git checkout -b main (if no branch exists)"
  | .authentication =>
    "Authentication failed. Solutions:\n" ++
    "1. Check if you have push access to this repository\n" ++
    "2. Verify your Git credentials: git config --list | grep user\n" ++
    "3. For GitHub, check if you need a personal access token\n" ++
    "Manual push: git push --force-with-lease origin main"
  | .remoteNotFound =>
    "Remote repository not found. Solutions:\n" ++
    "1. Check remote URL: git remote -v\n" ++
    "2. Add remote if missing: git remote add origin <your-repo-url>\n" ++
    "3. Update remote URL: git remote set-url origin <correct-url>\n" ++
    "Manual push: git push --force-with-lease origin main"
  | .rejected =>
    "Push rejected (remote has newer commits). Solutions:\n" ++
    "1. Someone else pushed to the repository\n" ++
    "2. Pull latest changes: git pull origin main\n" ++
    "3. Then retry finalize and push\n" ++
    "Manual push: git push --force-with-lease origin main"
  | .network =>
    "Network connection failed. Solutions:\n" ++
    "1. Check your internet connection\n" ++
    "2. Try again in a moment\n" ++
    "3. Check if GitHub/GitLab is accessible\n" ++
    "Manual push: git push --force-with-lease origin main"
  | .unknown =>
    "Unknown push error. Solutions:\n" ++
    "1. Check repository access and credentials\n" ++
    "2. Verify remote repository exists\n" ++
    "3. Try manual push: git push --force-with-lease origin main\n" ++
    "4. Check git status and git remote -v"

/-- The texts that select a category of commit failure. -/
def commitPatterns : CommitCategory → List String
  | .nothingToCommit => ["nothing to commit", "no changes"]
  | .hook => ["pre-commit", "hook"]
  | .lock => ["index.lock", "unable to create"]
  | .path => ["pathspec", "did not match"]
  | .unknown => []

/-- The order in which `diagnoseCommitError` tries the categories. -/
def commitOrder : List CommitCategory := [.nothingToCommit, .hook, .lock, .path]

/-- The order in which the specification lists the categories of commit failure. -/
def listedCommitOrder : List CommitCategory := [.hook, .lock, .path, .nothingToCommit]

/-- The advice `diagnoseCommitError` returns for a category. -/
def commitAdvice : CommitCategory → String
  | .nothingToCommit =>
    "No changes to commit. This means:\n" ++
    "1. All checkpoints had identical content\n" ++
    "2. The working directory is clean after squashing\n" ++
    "Solution: This is normal - your checkpoints have been consolidated"
  | .hook =>
    "Pre-commit hook failed. Solutions:\n" ++
    "1. Fix the issues reported by the pre-commit hook\n" ++
    "2. Or bypass hooks temporarily: git commit --no-verify -m \"your message\"\n" ++
    "3. Check what hooks are configured in .git/hooks/"
  | .lock =>
    "Git index locked or permission issue. Solutions:\n" ++
    "1. Remove lock file: rm .git/index.lock\n" ++
    "2. Check file permissions in .git directory\n" ++
    "3. Try the operation again"
  | .path =>
    "File path issue. Solutions:\n" ++
    "1. Check if all files exist\n" ++
    "2. Verify working directory is correct\n" ++
    "3. Run git status to see current state"
  | .unknown =>
    "Unknown commit error. Solutions:\n" ++
    "1. Check git status\n" ++
    "2. Verify repository is in good state\n" ++
    "3. Try manual commit: git commit -m \"Manual squash\"\n" ++
    "4. Check .git/hooks for problematic hooks"

/-! ## `internal/git/finalize.go`: planner and executor -/

/-- The search for the current position (finalize.go 52-58): the first index whose hash is
the current commit; `none` stands for the source's `-1`. -/
def findCurrentIndex : List Checkpoint → String → Option Nat
  | [], _ => none
  | cp :: rest, currentCommit =>
    if cp.Hash = currentCommit then some 0
    else (findCurrentIndex rest currentCommit).map (· + 1)

/-- The loop of finalize.go 68-74 over the entries after the current one: collect entries
until the first one whose message lacks the tag. -/
def collectTagged : List Checkpoint → List Checkpoint
  | [] => []
  | cp :: rest =>
    if !Contains cp.Message checkpointTag then []
    else cp :: collectTagged rest

/-- The slice `consecutiveCheckpoints` of finalize.go 65-74: the entry at `currentIndex`
followed by the tagged entries right after it. -/
def consecutiveCheckpoints (checkpoints : List Checkpoint) (currentIndex : Nat) :
    List Checkpoint :=
  match checkpoints[currentIndex]? with
  | none => []
  | some cp => cp :: collectTagged (checkpoints.drop (currentIndex + 1))

/-- The loop of finalize.go 89-97 over the lines of the linear history: the text before
the first space of the first line that lacks the tag, or "" when there is none. -/
def scanBase : List String → String
  | [] => ""
  | line :: rest =>
    if !Contains line checkpointTag then
      match SplitN2 line with
      | part :: _ => part
      | [] => scanBase rest
    else scanBase rest

/-- What the planner hands to the executor: the run to fold and the base to fold onto. -/
structure SquashPlan where
  run : List Checkpoint
  base : String
deriving DecidableEq, Repr

/-- The text of the error returned when the current commit is not in the list. -/
def errNotAtCheckpoint : String :=
  "current commit is not a checkpoint. Push feature only works from checkpoints"

/-- The text of the error returned when no base commit is found. -/
def errNoBase : String :=
  "cannot find base commit for squashing. All commits appear to be checkpoints"

/-- The choice of `baseCommit` (finalize.go 77-98): the hash of the entry right after the
run when there is one, else the result of scanning `git log --oneline --format=%H %s`. -/
def findBase (checkpoints : List Checkpoint) (next : Nat) (w : World) :
    Except String String × World :=
  if h : next < checkpoints.length then
    (.ok checkpoints[next].Hash, w)
  else
    match RunCommand .logFull w with
    | ((_, some e), w1) => (.error ("error getting commit history: " ++ e), w1)
    | ((output, none), w1) => (.ok (scanBase (Split output '\n')), w1)

/-- The planner part of `FinalizeAndPushWithMessage` (finalize.go 47-102). -/
def planSquash (checkpoints : List Checkpoint) (currentCommit : String) (w : World) :
    Except String SquashPlan × World :=
  if checkpoints.length = 0 then (.error "no checkpoints found", w)
  else
    match findCurrentIndex checkpoints currentCommit with
    | none => (.error errNotAtCheckpoint, w)
    | some currentIndex =>
      let run := consecutiveCheckpoints checkpoints currentIndex
      match findBase checkpoints (currentIndex + run.length) w with
      | (.error e, w1) => (.error e, w1)
      | (.ok baseCommit, w1) =>
        if baseCommit = "" then (.error errNoBase, w1)
        else (.ok { run := run, base := baseCommit }, w1)

/-- The text of the error returned when HEAD is detached and neither `main` nor `master`
can be checked out (finalize.go 30). -/
def errDetached (e : String) : String :=
  "in detached HEAD state and cannot switch to main/master branch. " ++
    "Please checkout a branch first: " ++ e

/-- The detached-HEAD fix at the start of `FinalizeAndPushWithMessage` (finalize.go
21-33): when the branch query succeeds and prints "HEAD", check out `main`, and `master`
when that fails. -/
def fixDetachedHead (w : World) : Option String × World :=
  match GetCurrentBranch w with
  | ((detectedBranch, none), w1) =>
    if detectedBranch = "HEAD" then
      match RunCommand (.checkout "main") w1 with
      | ((_, none), w2) => (none, w2)
      | ((_, some _), w2) =>
        match RunCommand (.checkout "master") w2 with
        | ((_, none), w3) => (none, w3)
        | ((_, some e), w3) =>
          (some (errDetached e), w3)
    else (none, w1)
  | ((_, some _), w1) => (none, w1)

/-- The name of the backup branch (finalize.go 112). -/
def backupBranchName (w : World) : String :=
  "vibe-check-backup-" ++ toString w.unixTime

/-- The commit message (finalize.go 127-135): the custom message when there is one, else
"Update: " followed by the timestamp. -/
def chooseCommitMessage (customMessage : String) (w : World) : String × World :=
  if customMessage ≠ "" then (customMessage, w)
  else
    let t := GetTimestamp w
    ("Update: " ++ t.1, t.2)

/-- The text of the error returned when the soft reset left nothing to commit. -/
def errNothingToCommit : String :=
  "no changes to commit after squashing checkpoints. This usually means:\n" ++
  "1. All checkpoints had identical content to the base commit\n" ++
  "2. The soft reset resulted in no differences\n" ++
  "Solution: Your checkpoints have been consolidated - no new commit was needed"

/-- The check for changes after the soft reset (finalize.go 137-154). Returns the error
to return at once, if any. -/
def checkStaged (backupBranch : String) (w : World) : Option String × World :=
  match RunCommand .diffCached w with
  | ((stagedStatus, none), w1) =>
    if TrimSpace stagedStatus = "" then
      match RunCommand .statusPorcelain w1 with
      | ((workingStatus, _), w2) =>
        if TrimSpace workingStatus = "" then
          (some errNothingToCommit, (RunCommand (.branchDelete backupBranch) w2).2)
        else (none, (RunCommand .addAll w2).2)
    else (none, w1)
  | ((_, some _), w1) => (none, w1)

/-- The text of the error returned when the final commit fails (finalize.go 163-164). -/
def errCommitFailed (output e : String) : String :=
  "failed to create final commit:\n" ++ e ++ "\n\nDiagnosis: " ++ diagnoseCommitError output e

/-- The text of the error returned when the push fails (finalize.go 180-181). -/
def errPushFailed (pushOutput e currentBranch : String) : String :=
  "commit created successfully but push failed:\nError: " ++ e ++ "\nOutput: " ++
    pushOutput ++ "\n\nDiagnosis: " ++ diagnosePushError pushOutput e ++
    "\n\nNote: You can manually push with:\ngit push --force-with-lease origin " ++
    currentBranch

/-- The commit, push and clean-up steps (finalize.go 156-193). -/
def commitAndPush (backupBranch commitMessage : String) (w : World) :
    Option String × World :=
  match RunCommand (.commit commitMessage) w with
  | ((output, some e), w1) =>
    let w2 := (RunCommand (.resetHard backupBranch) w1).2
    let w3 := (RunCommand (.branchDelete backupBranch) w2).2
    (some (errCommitFailed output e), w3)
  | ((_, none), w1) =>
    match GetCurrentBranch w1 with
    | ((detected, branchErr), w2) =>
      let currentBranch := if branchErr.isSome then "main" else detected
      match RunCommand (.push currentBranch) w2 with
      | ((pushOutput, some e), w3) =>
        let w4 := (RunCommand (.branchDelete backupBranch) w3).2
        (some (errPushFailed pushOutput e currentBranch), w4)
      | ((_, none), w3) =>
        let w4 := (RunCommand (.branchDelete backupBranch) w3).2
        let w5 := (RunCommand .reflogExpire w4).2
        let w6 := (RunCommand .gc w5).2
        (none, w6)

/-- The executor part of `FinalizeAndPushWithMessage` (finalize.go 111-193): backup, soft
reset to `baseCommit`, commit, push, clean-up. -/
def executeSquash (customMessage baseCommit : String) (w : World) : Option String × World :=
  let backupBranch := backupBranchName w
  match RunCommand (.branchCreate backupBranch) w with
  | ((_, some e), w1) => (some ("failed to create backup: " ++ e), w1)
  | ((_, none), w1) =>
    match RunCommand (.resetSoft baseCommit) w1 with
    | ((_, some e), w2) =>
      let w3 := (RunCommand (.resetHard backupBranch) w2).2
      let w4 := (RunCommand (.branchDelete backupBranch) w3).2
      (some ("failed to reset to base: " ++ e), w4)
    | ((_, none), w2) =>
      match chooseCommitMessage customMessage w2 with
      | (commitMessage, w3) =>
        match checkStaged backupBranch w3 with
        | (some e, w4) => (some e, w4)
        | (none, w4) => commitAndPush backupBranch commitMessage w4

/-- Go `FinalizeAndPushWithMessage`. The loop of finalize.go 105-109 only counts into a
variable that is never read and is left out. -/
def FinalizeAndPushWithMessage (customMessage : String) (w : World) : Option String × World :=
  match IsRepo w with
  | (false, w1) => (some "not in a Git repository", w1)
  | (true, w1) =>
    match fixDetachedHead w1 with
    | (some e, w2) => (some e, w2)
    | (none, w2) =>
      match GetCurrentCommit w2 with
      | ((_, some e), w3) => (some ("error getting current commit: " ++ e), w3)
      | ((currentCommit, none), w3) =>
        match GetCheckpointsFromReflog w3 with
        | (.error e, w4) => (some ("error getting checkpoints: " ++ e), w4)
        | (.ok checkpoints, w4) =>
          match planSquash checkpoints currentCommit w4 with
          | (.error e, w5) => (some e, w5)
          | (.ok plan, w5) => executeSquash customMessage plan.base w5

/-- Go `FinalizeAndPush`. -/
def FinalizeAndPush (w : World) : Option String × World :=
  FinalizeAndPushWithMessage "" w

/-- The loop of finalize.go 229-232 over the entries after the current one: the number of
entries before the first one whose message lacks the tag. -/
def countTagged : List Checkpoint → Nat
  | [] => 0
  | cp :: rest =>
    if Contains cp.Message checkpointTag then countTagged rest + 1 else 0

/-- One line of the list of finalize.go 242-249: the marker (`> ` for the current
position), the hash in brackets, and the message. -/
def squashLine (i : Nat) (cp : Checkpoint) : String :=
  (if i = 0 then "> " else "  ") ++ "[" ++ cp.Hash ++ "] " ++ cp.Message ++ "\n"

/-- The loop of finalize.go 242-249 from the round `i`, with `left` rounds to go before
`i` reaches `consecutiveCount`; it stops earlier when `currentIndex + i` leaves the
list. -/
def listSquashed (checkpoints : List Checkpoint) (currentIndex : Nat) :
    Nat → Nat → String
  | _, 0 => ""
  | i, left + 1 =>
    match checkpoints[currentIndex + i]? with
    | none => ""
    | some cp => squashLine i cp ++ listSquashed checkpoints currentIndex (i + 1) left

/-- The text `GetFinalizeInfo` builds from the discovered list and the current commit
(finalize.go 211-251). -/
def finalizeInfo (checkpoints : List Checkpoint) (currentCommit : String) : String :=
  if checkpoints.length = 0 then "No checkpoints found"
  else
    match findCurrentIndex checkpoints currentCommit with
    | none => "Current commit is not a checkpoint"
    | some currentIndex =>
      let consecutiveCount := 1 + countTagged (checkpoints.drop (currentIndex + 1))
      "Will squash " ++ toString consecutiveCount ++ " consecutive checkpoints\n" ++
        (if currentIndex > 0 then
          "Will remove " ++ toString currentIndex ++ " newer checkpoints\n"
        else "") ++
        "\nCheckpoints to be squashed:\n" ++
        listSquashed checkpoints currentIndex 0 consecutiveCount

/-- Go `GetFinalizeInfo`. -/
def GetFinalizeInfo (w : World) : Except String String × World :=
  match IsRepo w with
  | (false, w1) => (.error errNotARepository, w1)
  | (true, w1) =>
    match GetCurrentCommit w1 with
    | ((_, some e), w2) => (.error ("error getting current commit: " ++ e), w2)
    | ((currentCommit, none), w2) =>
      match GetCheckpointsFromReflog w2 with
      | (.error e, w3) => (.error ("error getting checkpoints: " ++ e), w3)
      | (.ok checkpoints, w3) => (.ok (finalizeInfo checkpoints currentCommit), w3)

/-- The lines that list a run, the first one marked as the current position. -/
def renderRun : Nat → List Checkpoint → String
  | _, [] => ""
  | i, cp :: rest => squashLine i cp ++ renderRun (i + 1) rest

/-- The preview of a squash, told from the run to fold and the number of newer entries:
the length of the run, the number of newer entries when there are any, and the entries of
the run in order. -/
def previewOf (newer : Nat) (run : List Checkpoint) : String :=
  "Will squash " ++ toString run.length ++ " consecutive checkpoints\n" ++
    (if newer > 0 then "Will remove " ++ toString newer ++ " newer checkpoints\n" else "") ++
    "\nCheckpoints to be squashed:\n" ++ renderRun 0 run

/-! ## `internal/app/handlers.go`: the finalize handler -/

/-- Go `resultMsg`. -/
structure resultMsg where
  Content : String
  IsError : Bool
deriving DecidableEq, Repr

/-- The command returned by Go `App.finalizeAndPushWithMessage` (handlers.go 310-337): run
finalize and turn its result into the message shown to the user. -/
def finalizeAndPushWithMessage (customMessage : String) (w : World) : resultMsg × World :=
  match FinalizeAndPushWithMessage customMessage w with
  | (some e, w1) =>
    ({ Content := "Error during finalize and push: " ++ e, IsError := true }, w1)
  | (none, w1) =>
    let successMessage :=
      if customMessage ≠ "" then
        "Successfully finalized and pushed with message: \"" ++ customMessage ++ "\""
      else "Successfully finalized and pushed checkpoints to remote!"
    ({ Content := successMessage, IsError := false }, w1)

/-! ## `internal/app`: the main menu and the text inputs -/

/-- Go `HasUncommittedChanges` (git.go 43-49): `git status --porcelain` succeeds and
prints something. -/
def HasUncommittedChanges (w : World) : Bool × World :=
  match RunCommand .statusPorcelain w with
  | ((_, some _), w1) => (false, w1)
  | ((status, none), w1) => (decide (TrimSpace status ≠ ""), w1)

/-- Go `strings.HasPrefix(s, p)`. -/
def HasPrefix (s p : String) : Bool := startsWith p.data s.data

/-- Go `models.AppState`. -/
inductive AppState where
  | StateMenu
  | StateCheckpointCreation
  | StateCheckpointNoteInput
  | StateCheckpointSelection
  | StateFinalizeOptions
  | StateFinalizeMessageInput
  | StateExecuting
  | StateResult
deriving DecidableEq, Repr

/-- Go `models.AppModel`. The two maps are functions of the key; a key that was never set
reads as the zero value (`false`, the empty text). -/
structure AppModel where
  CurrentState : AppState
  MenuCursor : Int
  MenuChoices : List String
  DisabledMenuItems : Int → Bool
  DisabledReasons : Int → String
  CheckpointOptions : List String
  CheckpointOptionsCursor : Int
  CustomNote : String
  Checkpoints : List Checkpoint
  CheckpointCursor : Int
  FinalizeOptions : List String
  FinalizeOptionsCursor : Int
  CustomCommitMessage : String
  Loading : Bool
  LoadingText : String
  Result : String
  IsError : Bool

/-- The commands (`tea.Cmd`) the handlers return. -/
inductive Cmd where
  /-- The nil command. -/
  | none
  /-- The command `tea.Quit`. -/
  | quit
  /-- The command built by `createCheckpoint(customNote)`. -/
  | createCheckpoint (customNote : String)
  /-- The command built by `loadCheckpoints()`. -/
  | loadCheckpoints
  /-- The command built by `finalizeAndPushWithMessage(customMessage)`. -/
  | finalizeAndPush (customMessage : String)
deriving DecidableEq, Repr

/-- Go `MenuOptions` (app.go 24-29). -/
def MenuOptions : List String :=
  ["Create Checkpoint", "Change Checkpoint", "Finalize and Push", "Exit"]

/-- The two assignments `a.DisabledMenuItems[i] = d; a.DisabledReasons[i] = reason`. -/
def setDisabled (a : AppModel) (i : Int) (d : Bool) (reason : String) : AppModel :=
  { a with
    DisabledMenuItems := fun k => if k = i then d else a.DisabledMenuItems k
    DisabledReasons := fun k => if k = i then reason else a.DisabledReasons k }

/-- One round of the loop of `updateDisabledItems` (app.go 72-92). -/
def updateItem (hasCheckpoints hasChanges : Bool) (a : AppModel) (i : Nat)
    (choice : String) : AppModel :=
  if choice = "Create Checkpoint" then
    if !hasChanges then setDisabled a i true "(no changes)" else setDisabled a i false ""
  else if choice = "Change Checkpoint" then setDisabled a i (!hasCheckpoints) ""
  else if choice = "Finalize and Push" then setDisabled a i (!hasCheckpoints) ""
  else setDisabled a i false ""

/-- The loop of `updateDisabledItems` over the choices from index `i` on. -/
def updateItems (hasCheckpoints hasChanges : Bool) : AppModel → Nat → List String → AppModel
  | a, _, [] => a
  | a, i, choice :: rest =>
    updateItems hasCheckpoints hasChanges (updateItem hasCheckpoints hasChanges a i choice)
      (i + 1) rest

/-- Go `updateDisabledItems`. -/
def updateDisabledItems (a : AppModel) (w : World) : AppModel × World :=
  match HasCheckpoints w with
  | (hasCheckpoints, w1) =>
    match HasUncommittedChanges w1 with
    | (hasChanges, w2) => (updateItems hasCheckpoints hasChanges a 0 a.MenuChoices, w2)

/-- The inner loop of `moveCursorUp` (handlers.go 60-62) with the cursor at `n - 1`: step
down while the cursor is not negative and its item is disabled. -/
def wrapUp (disabled : Int → Bool) : Nat → Int
  | 0 => -1
  | n + 1 => if disabled (n : Int) then wrapUp disabled n else (n : Int)

/-- The outer loop of `moveCursorUp` (handlers.go 50-65) with the cursor at `n`, not
negative: above 0 step down and stop on an enabled item; at 0 wrap to the last item. -/
def cursorUp (disabled : Int → Bool) (len : Nat) : Nat → Int
  | 0 => wrapUp disabled len
  | n + 1 => if !disabled (n : Int) then (n : Int) else cursorUp disabled len n

/-- Go `moveCursorUp`. -/
def moveCursorUp (a : AppModel) : AppModel :=
  { a with
    MenuCursor :=
      if a.MenuCursor > 0 then
        cursorUp a.DisabledMenuItems a.MenuChoices.length a.MenuCursor.toNat
      else wrapUp a.DisabledMenuItems a.MenuChoices.length }

/-- The inner loop of `moveCursorDown` (handlers.go 80-82) with the cursor at `c` and
`left` items from `c` to the end of the list: step up while the cursor is inside the list
and its item is disabled. -/
def wrapDown (disabled : Int → Bool) : Int → Nat → Int
  | c, 0 => c
  | c, left + 1 => if disabled c then wrapDown disabled (c + 1) left else c

/-- The outer loop of `moveCursorDown` (handlers.go 70-85) with the cursor at `c` and
`left` items after it before the last one: below the last item step up and stop on an
enabled item; at the last item (or beyond) wrap to the first. -/
def cursorDown (disabled : Int → Bool) (len : Nat) : Int → Nat → Int
  | _, 0 => wrapDown disabled 0 len
  | c, left + 1 =>
    if !disabled (c + 1) then c + 1 else cursorDown disabled len (c + 1) left

/-- Go `moveCursorDown`. -/
def moveCursorDown (a : AppModel) : AppModel :=
  { a with
    MenuCursor :=
      cursorDown a.DisabledMenuItems a.MenuChoices.length a.MenuCursor
        ((a.MenuChoices.length : Int) - 1 - a.MenuCursor).toNat }

/-- Go `executeMenuAction`; `none` stands for the run-time panic of an index out of
range in `a.MenuChoices[a.MenuCursor]`. -/
def executeMenuAction (a : AppModel) : Option (AppModel × Cmd) :=
  if a.DisabledMenuItems a.MenuCursor then some (a, .none)
  else
    match (if 0 ≤ a.MenuCursor then a.MenuChoices[a.MenuCursor.toNat]? else Option.none) with
    | Option.none => Option.none
    | some selected =>
      if HasPrefix selected "Create" then
        some ({ a with CurrentState := .StateCheckpointCreation,
                       CheckpointOptionsCursor := 0 }, .none)
      else if HasPrefix selected "Change" then
        some ({ a with CurrentState := .StateExecuting, Loading := true,
                       LoadingText := "Loading checkpoints..." }, .loadCheckpoints)
      else if HasPrefix selected "Finalize" then
        some ({ a with CurrentState := .StateFinalizeOptions,
                       FinalizeOptionsCursor := 0 }, .none)
      else if HasPrefix selected "Exit" then some (a, .quit)
      else some (a, .none)

/-- Go `s[:len(s)-1]` for a text whose last character takes one byte, as in every text
these handlers build (they append strings of length 1 only): the text without its last
character. -/
def dropLastByte (s : String) : String := ⟨s.data.dropLast⟩

/-- Go `handleNoteInputKeys`; `key` is `msg.String()`, and `len` counts bytes. -/
def handleNoteInputKeys (a : AppModel) (key : String) : AppModel × Cmd :=
  if key = "ctrl+c" ∨ key = "q" ∨ key = "esc" then
    ({ a with CurrentState := .StateCheckpointCreation, CustomNote := "" }, .none)
  else if key = "enter" then (a, .createCheckpoint a.CustomNote)
  else if key = "backspace" then
    if a.CustomNote.utf8ByteSize > 0 then
      ({ a with CustomNote := dropLastByte a.CustomNote }, .none)
    else (a, .none)
  else if key.utf8ByteSize = 1 ∧ a.CustomNote.utf8ByteSize < 50 then
    ({ a with CustomNote := a.CustomNote ++ key }, .none)
  else (a, .none)

/-- Go `handleFinalizeMessageInputKeys`; `key` is `msg.String()`, and `len` counts
bytes. On `enter` with a message, `finalizeAndPushWithMessage` moves to the executing state
and returns the command. -/
def handleFinalizeMessageInputKeys (a : AppModel) (key : String) : AppModel × Cmd :=
  if key = "ctrl+c" ∨ key = "q" ∨ key = "esc" then
    ({ a with CurrentState := .StateFinalizeOptions }, .none)
  else if key = "enter" then
    if a.CustomCommitMessage.utf8ByteSize > 0 then
      ({ a with CurrentState := .StateExecuting, Loading := true,
                LoadingText := "Finalizing and pushing..." },
        .finalizeAndPush a.CustomCommitMessage)
    else (a, .none)
  else if key = "backspace" then
    if a.CustomCommitMessage.utf8ByteSize > 0 then
      ({ a with CustomCommitMessage := dropLastByte a.CustomCommitMessage }, .none)
    else (a, .none)
  else if key.utf8ByteSize = 1 ∧ a.CustomCommitMessage.utf8ByteSize < 100 then
    ({ a with CustomCommitMessage := a.CustomCommitMessage ++ key }, .none)
  else (a, .none)

/-- A main menu as `InitialModel` builds it in a repository without changes and without
checkpoints: the first three items disabled, the cursor on `Exit`. -/
def exampleMenu : AppModel :=
  { CurrentState := .StateMenu, MenuCursor := 3, MenuChoices := MenuOptions,
    DisabledMenuItems := fun k => decide (k = 0 ∨ k = 1 ∨ k = 2),
    DisabledReasons := fun k => if k = 0 then "(no changes)" else "",
    CheckpointOptions :=
      ["Create Checkpoint", "Create Checkpoint with Custom Note", "Back to Main Menu"],
    CheckpointOptionsCursor := 0, CustomNote := "", Checkpoints := [],
    CheckpointCursor := 0,
    FinalizeOptions :=
      ["Finalize and Push (Auto Message)", "Finalize and Push with Custom Message",
        "Back to Main Menu"],
    FinalizeOptionsCursor := 0, CustomCommitMessage := "", Loading := false,
    LoadingText := "", Result := "", IsError := false }

/-- The note input with the text `note` typed so far. -/
def noteInput (note : String) : AppModel :=
  { exampleMenu with CurrentState := .StateCheckpointNoteInput, CustomNote := note }

/-- The finalize-message input with the text `message` typed so far. -/
def messageInput (message : String) : AppModel :=
  { exampleMenu with CurrentState := .StateFinalizeMessageInput,
                     CustomCommitMessage := message }

/-! ## Shapes of the call sequences -/

/-- World `w` after the further calls `tr`. -/
def World.extend (w : World) (tr : List (Proc × CmdResult)) : World :=
  { w with calls := w.calls ++ tr }

/-- Is the output of a call blank once trimmed by `RunCommand` and by the caller? -/
def CmdResult.isBlank (r : CmdResult) : Bool := TrimSpace (TrimSpace r.output) = ""

/-- The read-only queries made before the executor starts. -/
def Proc.isQuery : Proc → Bool
  | .revParseShortHead | .reflog | .logShort | .logFull => true
  | _ => false

/-- The processes started before the executor: the repository check, the branch query,
a checkout of `main` or `master`, and the queries. -/
def Proc.isPrefixProc : Proc → Bool
  | .revParseGitDir | .revParseAbbrevRefHead => true
  | .checkout t => t = "main" || t = "master"
  | p => p.isQuery

/-- The calls of `fixDetachedHead` and its result. -/
inductive FixShape : List (Proc × CmdResult) → Option String → Prop
  | attached (r : CmdResult) : ¬ (r.err = none ∧ TrimSpace r.output = "HEAD") →
      FixShape [(.revParseAbbrevRefHead, r)] none
  | toMain (r r1 : CmdResult) : r.err = none → TrimSpace r.output = "HEAD" → r1.err = none →
      FixShape [(.revParseAbbrevRefHead, r), (.checkout "main", r1)] none
  | toMaster (r r1 r2 : CmdResult) : r.err = none → TrimSpace r.output = "HEAD" →
      r1.err ≠ none → r2.err = none →
      FixShape [(.revParseAbbrevRefHead, r), (.checkout "main", r1), (.checkout "master", r2)]
        none
  | stuck (r r1 r2 : CmdResult) (e : String) : r.err = none → TrimSpace r.output = "HEAD" →
      r1.err ≠ none → r2.err = some e →
      FixShape [(.revParseAbbrevRefHead, r), (.checkout "main", r1), (.checkout "master", r2)]
        (some (errDetached e))

/-- The calls made before the executor starts: the repository check, the detached-HEAD fix,
then queries only. -/
inductive PrefixShape : List (Proc × CmdResult) → Prop
  | notRepo (r0 : CmdResult) : PrefixShape [(.revParseGitDir, r0)]
  | checked (r0 : CmdResult) (fixTr : List (Proc × CmdResult)) (res : Option String)
      (rest : List (Proc × CmdResult)) : FixShape fixTr res →
      (∀ c ∈ rest, c.1.isQuery = true) →
      PrefixShape ((.revParseGitDir, r0) :: (fixTr ++ rest))

/-- The calls of `chooseCommitMessage` and the message chosen. -/
inductive MsgShape (custom : String) : List (Proc × CmdResult) → String → Prop
  | given : custom ≠ "" → MsgShape custom [] custom
  | auto (r : CmdResult) : custom = "" →
      MsgShape custom [(.date, r)]
        ("Update: " ++ (match r.err with
          | some _ => "unknown"
          | none => TrimSpace r.output))

/-- The calls of `checkStaged` and its result. -/
inductive StagedShape (b : String) : List (Proc × CmdResult) → Option String → Prop
  | diffFailed (r : CmdResult) : r.err ≠ none → StagedShape b [(.diffCached, r)] none
  | staged (r : CmdResult) : r.err = none → r.isBlank = false →
      StagedShape b [(.diffCached, r)] none
  | nothing (r r1 r2 : CmdResult) : r.err = none → r.isBlank = true → r1.isBlank = true →
      StagedShape b [(.diffCached, r), (.statusPorcelain, r1), (.branchDelete b, r2)]
        (some errNothingToCommit)
  | unstaged (r r1 r2 : CmdResult) : r.err = none → r.isBlank = true → r1.isBlank = false →
      StagedShape b [(.diffCached, r), (.statusPorcelain, r1), (.addAll, r2)] none

/-- The calls of `commitAndPush` and its result. -/
inductive CommitShape (b m : String) : List (Proc × CmdResult) → Option String → Prop
  | commitFailed (r r1 r2 : CmdResult) (e : String) : r.err = some e →
      CommitShape b m [(.commit m, r), (.resetHard b, r1), (.branchDelete b, r2)]
        (some (errCommitFailed (TrimSpace r.output) e))
  | pushFailed (r r1 rp r2 : CmdResult) (br e : String) : r.err = none →
      br = (if r1.err.isSome then "main" else TrimSpace r1.output) → rp.err = some e →
      CommitShape b m
        [(.commit m, r), (.revParseAbbrevRefHead, r1), (.push br, rp), (.branchDelete b, r2)]
        (some (errPushFailed (TrimSpace rp.output) e br))
  | pushed (r r1 rp r2 r3 r4 : CmdResult) (br : String) : r.err = none →
      br = (if r1.err.isSome then "main" else TrimSpace r1.output) → rp.err = none →
      CommitShape b m
        [(.commit m, r), (.revParseAbbrevRefHead, r1), (.push br, rp), (.branchDelete b, r2),
          (.reflogExpire, r3), (.gc, r4)]
        none

/-- The calls of `executeSquash` and its result. -/
inductive ExecShape (custom base b : String) : List (Proc × CmdResult) → Option String → Prop
  | backupFailed (r : CmdResult) (e : String) : r.err = some e →
      ExecShape custom base b [(.branchCreate b, r)] (some ("failed to create backup: " ++ e))
  | resetFailed (r r1 r2 r3 : CmdResult) (e : String) : r.err = none → r1.err = some e →
      ExecShape custom base b
        [(.branchCreate b, r), (.resetSoft base, r1), (.resetHard b, r2), (.branchDelete b, r3)]
        (some ("failed to reset to base: " ++ e))
  | stopped (r r1 : CmdResult) (tm : List (Proc × CmdResult)) (m : String)
      (ts : List (Proc × CmdResult)) (e : String) : r.err = none → r1.err = none →
      MsgShape custom tm m → StagedShape b ts (some e) →
      ExecShape custom base b ([(.branchCreate b, r), (.resetSoft base, r1)] ++ tm ++ ts)
        (some e)
  | committing (r r1 : CmdResult) (tm : List (Proc × CmdResult)) (m : String)
      (ts tc : List (Proc × CmdResult)) (res : Option String) : r.err = none →
      r1.err = none → MsgShape custom tm m → StagedShape b ts none → CommitShape b m tc res →
      ExecShape custom base b
        ([(.branchCreate b, r), (.resetSoft base, r1)] ++ tm ++ ts ++ tc) res

/-- What `GetTimestamp` makes of the result of `date`. -/
def timestampOf (r : CmdResult) : String :=
  match r.err with
  | some _ => "unknown"
  | none => TrimSpace r.output

/-- The calls of `CreateCheckpoint` and its result. -/
inductive CreateShape (note : String) : List (Proc × CmdResult) → Option String → Prop
  | notRepo (r0 : CmdResult) : r0.err ≠ none →
      CreateShape note [(.revParseGitDir, r0)] (some errNotARepository)
  | statusFailed (r0 r1 : CmdResult) (e : String) : r0.err = none → r1.err = some e →
      CreateShape note [(.revParseGitDir, r0), (.statusPorcelain, r1)]
        (some ("failed to check git status: " ++ e))
  | clean (r0 r1 : CmdResult) : r0.err = none → r1.err = none → TrimSpace r1.output = "" →
      CreateShape note [(.revParseGitDir, r0), (.statusPorcelain, r1)]
        (some errNothingToCheckpoint)
  | addFailed (r0 r1 r2 : CmdResult) (e : String) : r0.err = none → r1.err = none →
      TrimSpace r1.output ≠ "" → r2.err = some e →
      CreateShape note [(.revParseGitDir, r0), (.statusPorcelain, r1), (.addAll, r2)]
        (some ("failed to add changes: " ++ e))
  | commitFailed (r0 r1 r2 rd rc : CmdResult) (e : String) : r0.err = none →
      r1.err = none → TrimSpace r1.output ≠ "" → r2.err = none → rc.err = some e →
      CreateShape note
        [(.revParseGitDir, r0), (.statusPorcelain, r1), (.addAll, r2), (.date, rd),
          (.commit (checkpointMessage (timestampOf rd) note), rc)]
        (some ("failed to create checkpoint: " ++ e))
  | created (r0 r1 r2 rd rc : CmdResult) : r0.err = none →
      r1.err = none → TrimSpace r1.output ≠ "" → r2.err = none → rc.err = none →
      CreateShape note
        [(.revParseGitDir, r0), (.statusPorcelain, r1), (.addAll, r2), (.date, rd),
          (.commit (checkpointMessage (timestampOf rd) note), rc)]
        none

/-- Is the process a commit? -/
def Proc.isCommit : Proc → Bool
  | .commit _ => true
  | _ => false

/-! ## Example stores -/

/-- A call that exits with status 0 and prints `out`. -/
def succeeded (out : String) : CmdResult := { output := out, err := none }

/-- A call that prints `out` and exits with status 1. -/
def exited1 (out : String) : CmdResult := { output := out, err := some "exit status 1" }

/-- The list of the first scenario: three checkpoints on top of commit `B`. -/
def scenarioList : List Checkpoint :=
  [⟨"C3", "CHECKPOINT: 3"⟩, ⟨"C2", "CHECKPOINT: 2"⟩, ⟨"C1", "CHECKPOINT: 1"⟩, ⟨"B", "base"⟩]

/-- Answers of a store on branch `main` whose history is commit `b0` followed by the
checkpoints `c1`, `c2`, `c3`, with HEAD at `c3`, one file staged after a soft reset, and
every command succeeding. -/
def exampleRespond (_ : Nat) : Proc → CmdResult
  | .revParseAbbrevRefHead => succeeded "main\n"
  | .revParseShortHead => succeeded "c3\n"
  | .reflog =>
    succeeded "b0 init\nc1 CHECKPOINT: one\nc2 CHECKPOINT: two\nc3 CHECKPOINT: three\n"
  | .logShort =>
    succeeded "c3 CHECKPOINT: three\nc2 CHECKPOINT: two\nc1 CHECKPOINT: one\nb0 init\n"
  | .logFull =>
    succeeded "c3ff CHECKPOINT: three\nc2ff CHECKPOINT: two\nc1ff CHECKPOINT: one\nb0ff init\n"
  | .diffCached => succeeded "file.txt\n"
  | .date => succeeded "04/11/2026 10:00\n"
  | _ => succeeded ""

/-- The branch pointers of the example store: HEAD on `main`, `main` at `c3`. -/
def exampleRefs : Refs :=
  { head := .branch "main", branches := fun b => if b = "main" then some "c3" else none }

/-- The example store before any process ran. -/
def exampleWorld : World :=
  { respond := exampleRespond, unixTime := 17, freshCommit := fun n => "new" ++ toString n,
    initial := exampleRefs, calls := [] }

/-- The example store with a commit hook that rejects every commit. -/
def hookRejectsWorld : World :=
  { exampleWorld with
    respond := fun n p =>
      match p with
      | .commit _ => exited1 "pre-commit hook failed"
      | q => exampleRespond n q }

/-- Answers of a store whose branch `main` is back at the last real commit `b0b0b0b` while
the event log still holds the abandoned checkpoints `c1c1c1c` and `c2c2c2c`; the working
tree has an unstaged change. -/
def sentinelRespond (_ : Nat) : Proc → CmdResult
  | .revParseAbbrevRefHead => succeeded "main\n"
  | .revParseShortHead => succeeded "b0b0b0b\n"
  | .reflog =>
    succeeded "b0b0b0b init\nc1c1c1c CHECKPOINT: one\nc2c2c2c CHECKPOINT: two\nb0b0b0b init\n"
  | .logShort => succeeded "b0b0b0b init\n"
  | .logFull => succeeded "b0b0b0b0b0b0b0b0b0b0b0b0b0b0b0b0b0b0b0b0 init\n"
  | .statusPorcelain => succeeded " M file.txt\n"
  | .date => succeeded "04/11/2026 10:00\n"
  | _ => succeeded ""

/-- The store of `sentinelRespond` before any process ran. -/
def sentinelWorld : World :=
  { respond := sentinelRespond, unixTime := 17, freshCommit := fun n => "new" ++ toString n,
    initial :=
      { head := .branch "main",
        branches := fun b => if b = "main" then some "b0b0b0b" else none },
    calls := [] }

/-- The list discovered in `sentinelWorld`: the two checkpoints and the sentinel. -/
def sentinelList : List Checkpoint :=
  [⟨"c2c2c2c", "CHECKPOINT: two"⟩, ⟨"c1c1c1c", "CHECKPOINT: one"⟩,
    ⟨"b0b0b0b", "[LAST COMMIT] init"⟩]

/-- The full id of the last real commit in `fullIdWorld`. -/
def fullId : String := "b0b0b0b0b0b0b0b0b0b0b0b0b0b0b0b0b0b0b0b0"

/-- Answers of the same store when git is configured to print full ids for `%h` and
`--short` (`core.abbrev` set to 40). -/
def fullIdRespond (_ : Nat) : Proc → CmdResult
  | .revParseAbbrevRefHead => succeeded "main\n"
  | .revParseShortHead => succeeded (fullId ++ "\n")
  | .reflog =>
    succeeded ("c1c1c1c1c1c1c1c1c1c1c1c1c1c1c1c1c1c1c1c1 CHECKPOINT: one\n" ++
      "c2c2c2c2c2c2c2c2c2c2c2c2c2c2c2c2c2c2c2c2 CHECKPOINT: two\n" ++ fullId ++ " init\n")
  | .logShort => succeeded (fullId ++ " init\n")
  | .logFull => succeeded (fullId ++ " init\n")
  | .statusPorcelain => succeeded " M file.txt\n"
  | .date => succeeded "04/11/2026 10:00\n"
  | _ => succeeded ""

/-- The store of `fullIdRespond` before any process ran. -/
def fullIdWorld : World :=
  { respond := fullIdRespond, unixTime := 17, freshCommit := fun n => "new" ++ toString n,
    initial :=
      { head := .branch "main", branches := fun b => if b = "main" then some fullId else none },
    calls := [] }

/-- The list discovered in `fullIdWorld`. -/
def fullIdList : List Checkpoint :=
  [⟨"c2c2c2c2c2c2c2c2c2c2c2c2c2c2c2c2c2c2c2c2", "CHECKPOINT: two"⟩,
    ⟨"c1c1c1c1c1c1c1c1c1c1c1c1c1c1c1c1c1c1c1c1", "CHECKPOINT: one"⟩,
    ⟨fullId, "[LAST COMMIT] init"⟩]

/-- The example store with a remote that rejects the push. -/
def pushRejectedWorld : World :=
  { exampleWorld with
    respond := fun n p =>
      match p with
      | .push _ => exited1 "! [rejected] main -> main (stale info)"
      | q => exampleRespond n q }

/-- Answers of a store with HEAD detached, whose branch `main` is at the checkpoint `c3`
and whose event log is empty (reference logs switched off): the discovered list holds the
sentinel `b0` only. -/
def detachedRespond (_ : Nat) : Proc → CmdResult
  | .revParseAbbrevRefHead => succeeded "HEAD\n"
  | .revParseShortHead => succeeded "c3\n"
  | .reflog => succeeded ""
  | .logShort => succeeded "c3 CHECKPOINT: three\nb0 init\n"
  | .logFull => succeeded "c3ff CHECKPOINT: three\nb0ff init\n"
  | _ => succeeded ""

/-- The store of `detachedRespond` before any process ran: HEAD detached at `c2`. -/
def detachedWorld : World :=
  { respond := detachedRespond, unixTime := 17, freshCommit := fun n => "new" ++ toString n,
    initial :=
      { head := .detached "c2", branches := fun b => if b = "main" then some "c3" else none },
    calls := [] }

/-- The example store when the soft reset leaves nothing staged and the working tree is
clean: the checkpoints being squashed changed nothing relative to the base. -/
def nothingStagedWorld : World :=
  { exampleWorld with
    respond := fun n p =>
      match p with
      | .diffCached => succeeded ""
      | .statusPorcelain => succeeded ""
      | q => exampleRespond n q }

/-- The example store outside any repository: `git rev-parse --git-dir` fails. -/
def notRepoWorld : World :=
  { exampleWorld with
    respond := fun n p =>
      match p with
      | .revParseGitDir => exited1 "fatal: not a git repository"
      | q => exampleRespond n q }

/-- Answers of a store whose history holds checkpoints only (`c1`, then `c2`, with HEAD on
branch `main` at `c2`) and whose event log is empty (its entries have expired). -/
def expiredRespond (_ : Nat) : Proc → CmdResult
  | .revParseAbbrevRefHead => succeeded "main\n"
  | .revParseShortHead => succeeded "c2\n"
  | .reflog => succeeded ""
  | .logShort => succeeded "c2 CHECKPOINT: two\nc1 CHECKPOINT: one\n"
  | .logFull => succeeded "c2ff CHECKPOINT: two\nc1ff CHECKPOINT: one\n"
  | _ => succeeded ""

/-- The store of `expiredRespond` before any process ran. -/
def expiredLogWorld : World :=
  { respond := expiredRespond, unixTime := 17, freshCommit := fun n => "new" ++ toString n,
    initial :=
      { head := .branch "main", branches := fun b => if b = "main" then some "c2" else none },
    calls := [] }

/-- Answers of a store in which the checkpoint `c1` was revisited: the event log lists the
commit `b0`, the checkpoints `c1` and `c2`, and `c1` again for the switch back to it; HEAD
is detached at `c1`, whose history is `c1`, `b0`. -/
def revisitedRespond (_ : Nat) : Proc → CmdResult
  | .revParseAbbrevRefHead => succeeded "HEAD\n"
  | .revParseShortHead => succeeded "c1\n"
  | .reflog =>
    succeeded "b0 init\nc1 CHECKPOINT: one\nc2 CHECKPOINT: two\nc1 CHECKPOINT: one\n"
  | .logShort => succeeded "c1 CHECKPOINT: one\nb0 init\n"
  | .logFull => succeeded "c1ff CHECKPOINT: one\nb0ff init\n"
  | _ => succeeded ""

/-- The store of `revisitedRespond` before any process ran. -/
def revisitedWorld : World :=
  { respond := revisitedRespond, unixTime := 17, freshCommit := fun n => "new" ++ toString n,
    initial :=
      { head := .detached "c1", branches := fun b => if b = "main" then some "c2" else none },
    calls := [] }

/-- The list discovered in `revisitedWorld`. -/
def revisitedList : List Checkpoint :=
  [⟨"c2", "CHECKPOINT: two"⟩, ⟨"c1", "CHECKPOINT: one"⟩, ⟨"b0", "[LAST COMMIT] init"⟩]

/-- Answers of a store whose history holds checkpoints only and whose event log still
lists them: `c1`, then `c2`, with HEAD on branch `main` at `c2`. -/
def onlyCheckpointsRespond (n : Nat) : Proc → CmdResult
  | .reflog => succeeded "c1 CHECKPOINT: one\nc2 CHECKPOINT: two\n"
  | q => expiredRespond n q

/-- The store of `onlyCheckpointsRespond` before any process ran. -/
def onlyCheckpointsWorld : World :=
  { expiredLogWorld with respond := onlyCheckpointsRespond }

/-- Answers of a working copy as a build server makes it: HEAD detached, no local branch,
the branch `main` of the remote fetched; the history reached after `git checkout main` is
that of the example store, and a commit hook rejects every commit. -/
def cloneRespond (n : Nat) : Proc → CmdResult
  | .revParseAbbrevRefHead => succeeded "HEAD\n"
  | .commit _ => exited1 "pre-commit hook failed"
  | q => exampleRespond n q

/-- The store of `cloneRespond` before any process ran: HEAD detached at `c2`, no local
branch, `origin/main` at `c3`. -/
def cloneWorld : World :=
  { respond := cloneRespond, unixTime := 17, freshCommit := fun n => "new" ++ toString n,
    initial :=
      { head := .detached "c2", branches := fun _ => none,
        remotes := fun b => if b = "main" then some "c3" else none },
    calls := [] }

/-- Answers of a store whose history holds the commit `dc9927e`, above it the commit
`1c36bde` made with an empty message, and above that the checkpoint `1033b24`, with HEAD
on branch `main` at the checkpoint. -/
def emptySubjectRespond (_ : Nat) : Proc → CmdResult
  | .revParseAbbrevRefHead => succeeded "main\n"
  | .revParseShortHead => succeeded "1033b24\n"
  | .reflog => succeeded "dc9927e init\n1c36bde \n1033b24 CHECKPOINT: x\n"
  | .logShort => succeeded "1033b24 CHECKPOINT: x\n1c36bde \ndc9927e init\n"
  | .logFull => succeeded "1033b24ff CHECKPOINT: x\n1c36bdeff \ndc9927eff init\n"
  | _ => succeeded ""

/-- The store of `emptySubjectRespond` before any process ran. -/
def emptySubjectWorld : World :=
  { respond := emptySubjectRespond, unixTime := 17,
    freshCommit := fun n => "new" ++ toString n,
    initial :=
      { head := .branch "main",
        branches := fun b => if b = "main" then some "1033b24" else none },
    calls := [] }

/-- A store with an empty event log whose history is the checkpoint `1033b24` on top of
the commit `1c36bde`, made with an empty message. -/
def noSubjectWorld : World :=
  { emptySubjectWorld with
    respond := fun n p =>
      match p with
      | .reflog => succeeded ""
      | .logShort => succeeded "1033b24 CHECKPOINT: x\n1c36bde \n"
      | .logFull => succeeded "1033b24ff CHECKPOINT: x\n1c36bdeff \n"
      | q => emptySubjectRespond n q }

/-- Answers of a working copy with HEAD detached and no local branch, whose remote has
`main` at the checkpoint `c2`; the history holds checkpoints only. -/
def cloneCheckpointsRespond (n : Nat) : Proc → CmdResult
  | .revParseAbbrevRefHead => succeeded "HEAD\n"
  | q => onlyCheckpointsRespond n q

/-- The store of `cloneCheckpointsRespond` before any process ran: HEAD detached at `c1`,
no local branch, `origin/main` at `c2`. -/
def cloneCheckpointsWorld : World :=
  { respond := cloneCheckpointsRespond, unixTime := 17,
    freshCommit := fun n => "new" ++ toString n,
    initial :=
      { head := .detached "c1", branches := fun _ => none,
        remotes := fun b => if b = "main" then some "c2" else none },
    calls := [] }

/-! # Theorems -/

/-! ## Planner lemmas -/

theorem findCurrentIndex_split (cps : List Checkpoint) (cur : String) (i : Nat)
    (h : findCurrentIndex cps cur = some i) :
    ∃ pre cp rest, cps = pre ++ cp :: rest ∧ pre.length = i ∧ cp.Hash = cur ∧
      ∀ c ∈ pre, c.Hash ≠ cur := by
  induction cps generalizing i with
  | nil => simp [findCurrentIndex] at h
  | cons c cs ih =>
    unfold findCurrentIndex at h
    by_cases hc : c.Hash = cur
    · simp only [hc, if_true, Option.some.injEq] at h
      exact ⟨[], c, cs, by simp, by simpa using h, hc, by simp⟩
    · simp only [hc, if_false, Option.map_eq_some'] at h
      obtain ⟨k, hk, rfl⟩ := h
      obtain ⟨pre, cp, rest, rfl, hlen, hcp, hpre⟩ := ih k hk
      refine ⟨c :: pre, cp, rest, by simp, by simp [hlen], hcp, ?_⟩
      intro x hx
      rcases List.mem_cons.mp hx with rfl | hx
      · exact hc
      · exact hpre x hx

theorem collectTagged_split (l : List Checkpoint) :
    ∃ post, l = collectTagged l ++ post ∧ (∀ c ∈ collectTagged l, c.isTagged = true) ∧
      ∀ c, post.head? = some c → c.isTagged = false := by
  induction l with
  | nil => exact ⟨[], by simp [collectTagged], by simp [collectTagged], by simp⟩
  | cons c cs ih =>
    unfold collectTagged
    by_cases hc : Contains c.Message checkpointTag = true
    · obtain ⟨post, hpost, htag, hstop⟩ := ih
      refine ⟨post, ?_, ?_, hstop⟩
      · simp only [hc, Bool.not_true, Bool.false_eq_true, if_false, List.cons_append]
        exact congrArg _ hpost
      · simp only [hc, Bool.not_true, Bool.false_eq_true, if_false]
        intro x hx
        rcases List.mem_cons.mp hx with rfl | hx
        · exact hc
        · exact htag x hx
    · have hc2 : Contains c.Message checkpointTag = false := by simpa using hc
      refine ⟨c :: cs, by simp [hc2], by simp [hc2], ?_⟩
      intro x hx
      simp only [List.head?_cons, Option.some.injEq] at hx
      subst hx
      exact hc2

theorem consecutiveCheckpoints_split (pre : List Checkpoint) (cp : Checkpoint)
    (rest : List Checkpoint) :
    consecutiveCheckpoints (pre ++ cp :: rest) pre.length = cp :: collectTagged rest := by
  have h1 : (pre ++ cp :: rest)[pre.length]? = some cp := by
    rw [List.getElem?_append_right (le_refl _)]; simp
  have h2 : (pre ++ cp :: rest).drop (pre.length + 1) = rest := by
    rw [← List.drop_drop, List.drop_left]; rfl
  simp only [consecutiveCheckpoints, h1, h2]

theorem planSquash_run (cps : List Checkpoint) (cur : String) (i : Nat)
    (h : findCurrentIndex cps cur = some i) (w : World) (plan : SquashPlan) (w1 : World)
    (hp : planSquash cps cur w = (.ok plan, w1)) :
    plan.run = consecutiveCheckpoints cps i ∧
      findBase cps (i + (consecutiveCheckpoints cps i).length) w = (.ok plan.base, w1) ∧
      plan.base ≠ "" := by
  unfold planSquash at hp
  simp only [h] at hp
  split at hp
  · simp at hp
  · split at hp
    · simp at hp
    · rename_i e b w2 hb
      split at hp
      · simp at hp
      · rename_i hne
        simp only [Prod.mk.injEq, Except.ok.injEq] at hp
        obtain ⟨rfl, rfl⟩ := hp
        exact ⟨rfl, hb, hne⟩

/-- The slice built at a found index is the block of the list that starts there and stops
right before the first later entry without the tag. -/
theorem consecutiveCheckpoints_block (checkpoints : List Checkpoint)
    (currentCommit : String) (i : Nat)
    (hfound : findCurrentIndex checkpoints currentCommit = some i) :
    ∃ j, j = i + (consecutiveCheckpoints checkpoints i).length ∧ i < j ∧
      j ≤ checkpoints.length ∧
      (∃ cp, checkpoints[i]? = some cp ∧ cp.Hash = currentCommit) ∧
      consecutiveCheckpoints checkpoints i = (checkpoints.drop i).take (j - i) ∧
      (∀ k, i < k → k < j → ∃ cp, checkpoints[k]? = some cp ∧ cp.isTagged = true) ∧
      (∀ cp, checkpoints[j]? = some cp → cp.isTagged = false) := by
  obtain ⟨pre, cp, rest, rfl, rfl, hcp, -⟩ := findCurrentIndex_split _ _ _ hfound
  obtain ⟨post, hpost, htag, hstop⟩ := collectTagged_split rest
  have hrun := consecutiveCheckpoints_split pre cp rest
  rw [hrun]
  generalize collectTagged rest = t at hpost htag ⊢
  subst hpost
  refine ⟨_, rfl, ?_, ?_, ⟨cp, ?_, hcp⟩, ?_, ?_, ?_⟩
  · simp
  · simp only [List.length_cons, List.length_append]
    omega
  · rw [List.getElem?_append_right (le_refl _)]; simp
  · rw [List.drop_left]
    simp
  · intro k hk1 hk2
    simp only [List.length_cons] at hk2
    obtain ⟨m, rfl⟩ : ∃ m, k = pre.length + 1 + m := ⟨k - pre.length - 1, by omega⟩
    have hm : m < t.length := by omega
    refine ⟨t[m], ?_, htag _ (List.getElem_mem _)⟩
    rw [List.getElem?_append_right (by omega)]
    have : pre.length + 1 + m - pre.length = m + 1 := by omega
    rw [this, List.getElem?_cons_succ, List.getElem?_append_left hm]
    simp
  · intro c hc
    apply hstop
    rw [List.getElem?_append_right (by omega)] at hc
    have : pre.length + (cp :: t).length - pre.length = t.length + 1 := by
      simp only [List.length_cons]; omega
    rw [this, List.getElem?_cons_succ, List.getElem?_append_right (le_refl _)] at hc
    simpa [List.head?_eq_getElem?] using hc

theorem cutAt_none (sep : Char) (s : List Char) (h : cutAt sep s = none) : sep ∉ s := by
  induction s with
  | nil => simp
  | cons c cs ih =>
    unfold cutAt at h
    by_cases hc : c = sep
    · simp [hc] at h
    · simp only [hc, if_false, Option.map_eq_none'] at h
      simp only [List.mem_cons, not_or]
      exact ⟨fun h2 => hc h2.symm, ih h⟩

theorem cutAt_some (sep : Char) (s a b : List Char) (h : cutAt sep s = some (a, b)) :
    s = a ++ sep :: b ∧ sep ∉ a := by
  induction s generalizing a with
  | nil => simp [cutAt] at h
  | cons c cs ih =>
    unfold cutAt at h
    by_cases hc : c = sep
    · simp only [hc, if_true, Option.some.injEq, Prod.mk.injEq] at h
      obtain ⟨rfl, rfl⟩ := h
      simp [hc]
    · simp only [hc, if_false, Option.map_eq_some', Prod.mk.injEq, Prod.exists] at h
      obtain ⟨a1, b1, h1, rfl, rfl⟩ := h
      obtain ⟨h2, h3⟩ := ih a1 h1
      refine ⟨by simp [h2], ?_⟩
      simp only [List.mem_cons, not_or]
      exact ⟨fun h4 => hc h4.symm, h3⟩

/-- The first element `SplitN2` returns has no space and is the whole text or is followed
in the text by a space. -/
theorem SplitN2_head (line : String) :
    ∃ id rest, SplitN2 line = id :: rest ∧ ' ' ∉ id.data ∧
      (line = id ∨ ∃ subject, line = id ++ " " ++ subject) := by
  unfold SplitN2
  cases h : cutAt ' ' line.data with
  | none => exact ⟨line, [], rfl, cutAt_none _ _ h, Or.inl rfl⟩
  | some p =>
    obtain ⟨a, b⟩ := p
    obtain ⟨h1, h2⟩ := cutAt_some _ _ _ _ h
    refine ⟨⟨a⟩, [⟨b⟩], rfl, h2, Or.inr ⟨⟨b⟩, ?_⟩⟩
    apply String.ext
    simp [h1]

theorem scanBase_first_untagged (pre : List String) (line : String) (post : List String)
    (hpre : ∀ l ∈ pre, Contains l checkpointTag = true)
    (hline : Contains line checkpointTag = false) :
    ∃ id rest, SplitN2 line = id :: rest ∧ scanBase (pre ++ line :: post) = id := by
  induction pre with
  | nil =>
    obtain ⟨id, rest, h, -, -⟩ := SplitN2_head line
    refine ⟨id, rest, h, ?_⟩
    simp [scanBase, hline, h]
  | cons p ps ih =>
    obtain ⟨id, rest, h, hs⟩ := ih (fun l hl => hpre l (List.mem_cons_of_mem _ hl))
    refine ⟨id, rest, h, ?_⟩
    have hp := hpre p (List.mem_cons_self _ _)
    simp [scanBase, hp, hs]

theorem findBase_next (cps : List Checkpoint) (j : Nat) (w : World) (h : j < cps.length) :
    findBase cps j w = (.ok cps[j].Hash, w) := by
  simp [findBase, h]

theorem findBase_history (cps : List Checkpoint) (j : Nat) (w : World) (h : cps.length ≤ j)
    (hok : (RunCommand .logFull w).1.2 = none) :
    findBase cps j w =
      (.ok (scanBase (Split (RunCommand .logFull w).1.1 '\n')), (RunCommand .logFull w).2) := by
  have hj : ¬ j < cps.length := by omega
  unfold findBase
  simp only [hj, dite_false]
  split
  · rename_i x e w1 heq
    rw [heq] at hok
    simp at hok
  · rename_i x out w1 heq
    rw [heq]

/-! ## The calls each step makes -/

theorem RunCommand_eq (p : Proc) (w : World) :
    RunCommand p w =
      ((TrimSpace (w.respond w.calls.length p).output, (w.respond w.calls.length p).err),
        w.extend [(p, w.respond w.calls.length p)]) := rfl

@[simp] theorem extend_extend (w : World) (a b : List (Proc × CmdResult)) :
    (w.extend a).extend b = w.extend (a ++ b) := by
  simp [World.extend, List.append_assoc]

@[simp] theorem extend_nil (w : World) : w.extend [] = w := by
  simp [World.extend]

@[simp] theorem extend_respond (w : World) (a : List (Proc × CmdResult)) :
    (w.extend a).respond = w.respond := rfl

@[simp] theorem extend_unixTime (w : World) (a : List (Proc × CmdResult)) :
    (w.extend a).unixTime = w.unixTime := rfl

@[simp] theorem extend_freshCommit (w : World) (a : List (Proc × CmdResult)) :
    (w.extend a).freshCommit = w.freshCommit := rfl

@[simp] theorem extend_initial (w : World) (a : List (Proc × CmdResult)) :
    (w.extend a).initial = w.initial := rfl

@[simp] theorem extend_calls (w : World) (a : List (Proc × CmdResult)) :
    (w.extend a).calls = w.calls ++ a := rfl

@[simp] theorem backupBranchName_extend (w : World) (a : List (Proc × CmdResult)) :
    backupBranchName (w.extend a) = backupBranchName w := rfl

theorem issued_extend (w : World) (a : List (Proc × CmdResult)) :
    issued w (w.extend a) = a := by
  simp [issued]

theorem fixDetachedHead_shape (w : World) :
    ∃ tr, (fixDetachedHead w).2 = w.extend tr ∧ FixShape tr (fixDetachedHead w).1 := by
  unfold fixDetachedHead GetCurrentBranch
  simp only [RunCommand_eq]
  generalize w.respond w.calls.length .revParseAbbrevRefHead = r
  rcases hr : r.err with _ | e
  · dsimp only
    by_cases hd : TrimSpace r.output = "HEAD"
    · simp only [hd, if_true, extend_extend, extend_respond]
      generalize w.respond _ (Proc.checkout "main") = r1
      rcases hr1 : r1.err with _ | e1
      · dsimp only
        exact ⟨_, rfl, .toMain r r1 hr hd hr1⟩
      · dsimp only
        simp only [extend_extend, extend_respond]
        generalize w.respond _ (Proc.checkout "master") = r2
        rcases hr2 : r2.err with _ | e2
        · dsimp only
          exact ⟨_, rfl, .toMaster r r1 r2 hr hd (by simp [hr1]) hr2⟩
        · dsimp only
          exact ⟨_, rfl, .stuck r r1 r2 e2 hr hd (by simp [hr1]) hr2⟩
    · simp only [hd, if_false]
      exact ⟨_, rfl, .attached r (fun h => hd h.2)⟩
  · dsimp only
    exact ⟨_, rfl, .attached r (fun h => by simp [hr] at h)⟩

theorem chooseCommitMessage_shape (custom : String) (w : World) :
    ∃ tr, (chooseCommitMessage custom w).2 = w.extend tr ∧
      MsgShape custom tr (chooseCommitMessage custom w).1 := by
  unfold chooseCommitMessage
  by_cases hc : custom = ""
  · simp only [hc, ne_eq, not_true_eq_false, if_false]
    exact ⟨[(.date, w.respond w.calls.length .date)], rfl, .auto _ rfl⟩
  · simp only [ne_eq, hc, not_false_eq_true, if_true]
    exact ⟨[], (extend_nil w).symm, .given hc⟩

theorem checkStaged_shape (b : String) (w : World) :
    ∃ tr, (checkStaged b w).2 = w.extend tr ∧ StagedShape b tr (checkStaged b w).1 := by
  unfold checkStaged
  simp only [RunCommand_eq]
  generalize w.respond w.calls.length .diffCached = r
  rcases hr : r.err with _ | e
  · dsimp only
    simp only [extend_extend, extend_respond]
    generalize w.respond _ Proc.statusPorcelain = r1
    by_cases hb : TrimSpace (TrimSpace r.output) = ""
    · simp only [hb, if_true]
      by_cases hb1 : TrimSpace (TrimSpace r1.output) = ""
      · simp only [hb1, if_true]
        exact ⟨_, rfl, .nothing r r1 _ hr (by simp [CmdResult.isBlank, hb])
          (by simp [CmdResult.isBlank, hb1])⟩
      · simp only [hb1, if_false]
        exact ⟨_, rfl, .unstaged r r1 _ hr (by simp [CmdResult.isBlank, hb])
          (by simp [CmdResult.isBlank, hb1])⟩
    · simp only [hb, if_false]
      exact ⟨_, rfl, .staged r hr (by simp [CmdResult.isBlank, hb])⟩
  · dsimp only
    exact ⟨_, rfl, .diffFailed r (by simp [hr])⟩

theorem commitAndPush_shape (b m : String) (w : World) :
    ∃ tr, (commitAndPush b m w).2 = w.extend tr ∧ CommitShape b m tr (commitAndPush b m w).1 := by
  unfold commitAndPush GetCurrentBranch
  simp only [RunCommand_eq]
  generalize w.respond w.calls.length (.commit m) = r
  rcases hr : r.err with _ | e
  · dsimp only
    simp only [extend_extend, extend_respond]
    generalize w.respond _ Proc.revParseAbbrevRefHead = r1
    generalize hbr : (if r1.err.isSome = true then "main" else TrimSpace r1.output) = br
    generalize w.respond _ (Proc.push br) = rp
    rcases hrp : rp.err with _ | e
    · dsimp only
      simp only [extend_extend, extend_respond]
      exact ⟨_, rfl, .pushed r r1 rp _ _ _ br hr hbr.symm hrp⟩
    · dsimp only
      simp only [extend_extend, extend_respond]
      exact ⟨_, rfl, .pushFailed r r1 rp _ br e hr hbr.symm hrp⟩
  · dsimp only
    simp only [extend_extend, extend_respond]
    exact ⟨_, rfl, .commitFailed r _ _ e hr⟩

theorem executeSquash_shape (custom base : String) (w : World) :
    ∃ tr, (executeSquash custom base w).2 = w.extend tr ∧
      ExecShape custom base (backupBranchName w) tr (executeSquash custom base w).1 := by
  unfold executeSquash
  simp only [RunCommand_eq]
  generalize w.respond w.calls.length (.branchCreate (backupBranchName w)) = r
  rcases hr : r.err with _ | e
  · dsimp only
    simp only [extend_extend, extend_respond]
    generalize w.respond _ (Proc.resetSoft base) = r1
    rcases hr1 : r1.err with _ | e1
    · dsimp only
      obtain ⟨tm, htm, hm⟩ := chooseCommitMessage_shape custom
        (w.extend ([(Proc.branchCreate (backupBranchName w), r)] ++ [(Proc.resetSoft base, r1)]))
      generalize chooseCommitMessage custom _ = cm at htm hm
      obtain ⟨m, w3⟩ := cm
      dsimp only at htm hm ⊢
      subst htm
      obtain ⟨ts, hts, hs⟩ := checkStaged_shape (backupBranchName w)
        ((w.extend ([(Proc.branchCreate (backupBranchName w), r)] ++
          [(Proc.resetSoft base, r1)])).extend tm)
      generalize checkStaged (backupBranchName w) _ = cs at hts hs
      obtain ⟨res, w4⟩ := cs
      dsimp only at hts hs ⊢
      subst hts
      rcases res with _ | e
      · dsimp only
        obtain ⟨tc, htc, hc⟩ := commitAndPush_shape (backupBranchName w) m
          (((w.extend ([(Proc.branchCreate (backupBranchName w), r)] ++
            [(Proc.resetSoft base, r1)])).extend tm).extend ts)
        refine ⟨_, ?_, .committing r r1 tm m ts tc _ hr hr1 hm hs hc⟩
        rw [htc]; simp
      · dsimp only
        refine ⟨_, ?_, .stopped r r1 tm m ts e hr hr1 hm hs⟩
        simp
    · dsimp only
      simp only [extend_extend, extend_respond]
      exact ⟨_, rfl, .resetFailed r r1 _ _ e1 hr hr1⟩
  · dsimp only
    exact ⟨_, rfl, .backupFailed r e hr⟩

theorem GetCheckpointsFromReflog_shape (w : World) :
    ∃ tr, (GetCheckpointsFromReflog w).2 = w.extend tr ∧ ∀ c ∈ tr, c.1.isQuery = true := by
  unfold GetCheckpointsFromReflog GetLastNonCheckpointCommit
  simp only [RunCommand_eq]
  generalize w.respond w.calls.length .reflog = r
  rcases hr : r.err with _ | e
  · dsimp only
    simp only [extend_extend, extend_respond]
    generalize w.respond _ Proc.logShort = r1
    rcases hr1 : r1.err with _ | e1
    · dsimp only
      refine ⟨[(.reflog, r), (.logShort, r1)], ?_, by simp [Proc.isQuery]⟩
      split
      · rename_i x l w2 heq
        obtain ⟨-, rfl⟩ := Prod.mk.inj heq
        split <;> rfl
      · rename_i x f w2 _ heq
        obtain ⟨-, rfl⟩ := Prod.mk.inj heq
        rfl
    · dsimp only
      exact ⟨[(.reflog, r), (.logShort, r1)], rfl, by simp [Proc.isQuery]⟩
  · dsimp only
    exact ⟨[(.reflog, r)], rfl, by simp [Proc.isQuery]⟩

theorem findBase_shape (cps : List Checkpoint) (j : Nat) (w : World) :
    ∃ tr, (findBase cps j w).2 = w.extend tr ∧ ∀ c ∈ tr, c.1.isQuery = true := by
  unfold findBase
  by_cases h : j < cps.length
  · simp only [h, dite_true]
    exact ⟨[], (extend_nil w).symm, by simp⟩
  · simp only [h, dite_false, RunCommand_eq]
    generalize w.respond w.calls.length .logFull = r
    rcases hr : r.err with _ | e
    · exact ⟨[(.logFull, r)], rfl, by simp [Proc.isQuery]⟩
    · exact ⟨[(.logFull, r)], rfl, by simp [Proc.isQuery]⟩

theorem planSquash_shape (cps : List Checkpoint) (cur : String) (w : World) :
    ∃ tr, (planSquash cps cur w).2 = w.extend tr ∧ ∀ c ∈ tr, c.1.isQuery = true := by
  unfold planSquash
  split
  · exact ⟨[], (extend_nil w).symm, by simp⟩
  · split
    · exact ⟨[], (extend_nil w).symm, by simp⟩
    · rename_i i hi
      obtain ⟨tr, htr, hq⟩ := findBase_shape cps (i + (consecutiveCheckpoints cps i).length) w
      dsimp only
      generalize findBase cps _ w = fb at htr
      obtain ⟨res, w1⟩ := fb
      dsimp only at htr
      subst htr
      rcases res with e | b
      · exact ⟨tr, rfl, hq⟩
      · dsimp only
        split
        · exact ⟨tr, rfl, hq⟩
        · exact ⟨tr, rfl, hq⟩

/-- Every run of finalize either stops before the executor, having made only the calls of
the repository check, the detached-HEAD fix and the queries, or goes through these and then
through the executor. -/
theorem FinalizeAndPushWithMessage_shape (custom : String) (w : World) :
    ∃ tr, (FinalizeAndPushWithMessage custom w).2 = w.extend tr ∧
      ((PrefixShape tr ∧ ∃ e, (FinalizeAndPushWithMessage custom w).1 = some e) ∨
       (∃ pre ex base, tr = pre ++ ex ∧ PrefixShape pre ∧
          ExecShape custom base (backupBranchName w) ex
            (FinalizeAndPushWithMessage custom w).1)) := by
  unfold FinalizeAndPushWithMessage IsRepo GetCurrentCommit
  simp only [World.run, RunCommand_eq]
  generalize w.respond w.calls.length .revParseGitDir = r0
  rcases hr0 : r0.err with _ | e0
  · simp only [Option.isNone_none]
    obtain ⟨tf, htf, hf⟩ := fixDetachedHead_shape (w.extend [(.revParseGitDir, r0)])
    change (fixDetachedHead { w with calls := w.calls ++ [(.revParseGitDir, r0)] }).2 = _ at htf
    change FixShape tf (fixDetachedHead { w with calls := w.calls ++ [(.revParseGitDir, r0)] }).1
      at hf
    generalize fixDetachedHead _ = ff at htf hf
    obtain ⟨fres, w2⟩ := ff
    dsimp only at htf hf ⊢
    subst htf
    rcases fres with _ | fe
    · dsimp only
      simp only [extend_extend, extend_respond]
      generalize w.respond _ Proc.revParseShortHead = rc
      rcases hrc : rc.err with _ | ec
      · dsimp only
        obtain ⟨tg, htg, hg⟩ := GetCheckpointsFromReflog_shape
          (w.extend ([(Proc.revParseGitDir, r0)] ++ tf ++ [(Proc.revParseShortHead, rc)]))
        generalize GetCheckpointsFromReflog _ = gg at htg
        obtain ⟨gres, w4⟩ := gg
        dsimp only at htg ⊢
        subst htg
        rcases gres with ge | cps
        · dsimp only
          refine ⟨(Proc.revParseGitDir, r0) :: (tf ++ (Proc.revParseShortHead, rc) :: tg),
            by simp [World.extend], Or.inl ⟨?_, _, rfl⟩⟩
          exact PrefixShape.checked r0 tf none ((Proc.revParseShortHead, rc) :: tg) hf
            (by simpa [Proc.isQuery] using hg)
        · dsimp only
          obtain ⟨tp, htp, hp⟩ := planSquash_shape cps (TrimSpace rc.output)
            ((w.extend ([(Proc.revParseGitDir, r0)] ++ tf ++
              [(Proc.revParseShortHead, rc)])).extend tg)
          generalize planSquash cps (TrimSpace rc.output) _ = pp at htp
          obtain ⟨pres, w5⟩ := pp
          dsimp only at htp ⊢
          subst htp
          have hpre := PrefixShape.checked r0 tf none ((Proc.revParseShortHead, rc) :: (tg ++ tp))
            hf (by
              intro c hc
              simp only [List.mem_cons, List.mem_append] at hc
              rcases hc with rfl | hc | hc
              · rfl
              · exact hg c hc
              · exact hp c hc)
          rcases pres with pe | plan
          · dsimp only
            exact ⟨(Proc.revParseGitDir, r0) ::
                (tf ++ (Proc.revParseShortHead, rc) :: (tg ++ tp)),
              by simp [World.extend], Or.inl ⟨hpre, _, rfl⟩⟩
          · dsimp only
            obtain ⟨te, hte, he⟩ := executeSquash_shape custom plan.base
              (((w.extend ([(Proc.revParseGitDir, r0)] ++ tf ++
                [(Proc.revParseShortHead, rc)])).extend tg).extend tp)
            refine ⟨((Proc.revParseGitDir, r0) ::
                (tf ++ (Proc.revParseShortHead, rc) :: (tg ++ tp))) ++ te,
              by rw [hte]; simp [World.extend],
              Or.inr ⟨_, te, plan.base, rfl, hpre, ?_⟩⟩
            simpa using he
      · dsimp only
        refine ⟨(Proc.revParseGitDir, r0) :: (tf ++ [(Proc.revParseShortHead, rc)]),
          by simp [World.extend], Or.inl ⟨?_, _, rfl⟩⟩
        exact PrefixShape.checked r0 tf none [(Proc.revParseShortHead, rc)] hf
          (by simp [Proc.isQuery])
    · dsimp only
      refine ⟨(Proc.revParseGitDir, r0) :: (tf ++ []), by simp [World.extend],
        Or.inl ⟨?_, _, rfl⟩⟩
      exact PrefixShape.checked r0 tf (some fe) [] hf (by simp)
  · simp only [Option.isNone_some]
    exact ⟨[(.revParseGitDir, r0)], rfl, Or.inl ⟨.notRepo r0, _, rfl⟩⟩

/-! ## Claims about the planner -/

/-- Claim C1: when the current commit is found at index `i` of the list, the run to squash
is the block `list[i], ..., list[j-1]` in list order, where `j` is the smallest index after
`i` whose entry is not tagged, or the length of the list when there is none; and this run
is the one a successful plan carries. -/
theorem C1_run_is_maximal_block (checkpoints : List Checkpoint) (currentCommit : String)
    (i : Nat) (hfound : findCurrentIndex checkpoints currentCommit = some i) :
    ∃ j, j = i + (consecutiveCheckpoints checkpoints i).length ∧ i < j ∧
      j ≤ checkpoints.length ∧
      (∃ cp, checkpoints[i]? = some cp ∧ cp.Hash = currentCommit) ∧
      consecutiveCheckpoints checkpoints i = (checkpoints.drop i).take (j - i) ∧
      (∀ k, i < k → k < j → ∃ cp, checkpoints[k]? = some cp ∧ cp.isTagged = true) ∧
      (∀ cp, checkpoints[j]? = some cp → cp.isTagged = false) ∧
      (∀ w plan w1, planSquash checkpoints currentCommit w = (.ok plan, w1) →
        plan.run = consecutiveCheckpoints checkpoints i) := by
  obtain ⟨j, hj, h1, h2, h3, h4, h5, h6⟩ :=
    consecutiveCheckpoints_block checkpoints currentCommit i hfound
  exact ⟨j, hj, h1, h2, h3, h4, h5, h6,
    fun w plan w1 hp => (planSquash_run _ _ _ hfound w plan w1 hp).1⟩

/-- Witness for C1: in the scenario list with current commit `C2`, found at index 1. -/
theorem C1_run_is_maximal_block_witness :
    findCurrentIndex scenarioList "C2" = some 1 ∧
    ∃ j, j = 1 + (consecutiveCheckpoints scenarioList 1).length ∧ 1 < j ∧
      j ≤ scenarioList.length ∧
      (∃ cp, scenarioList[1]? = some cp ∧ cp.Hash = "C2") ∧
      consecutiveCheckpoints scenarioList 1 = (scenarioList.drop 1).take (j - 1) ∧
      (∀ k, 1 < k → k < j → ∃ cp, scenarioList[k]? = some cp ∧ cp.isTagged = true) ∧
      (∀ cp, scenarioList[j]? = some cp → cp.isTagged = false) ∧
      (∀ w plan w1, planSquash scenarioList "C2" w = (.ok plan, w1) →
        plan.run = consecutiveCheckpoints scenarioList 1) :=
  ⟨by decide, C1_run_is_maximal_block scenarioList "C2" 1 (by decide)⟩

/-- Claim C2: when the run ends before the end of the list, the base is the hash of the
entry right after the run, which is not tagged, and no process is run; when the run
reaches the end, the base is the id (the text before the first space) of the first line of
the linear history that lacks the tag; a successful plan carries this base. In the two
scenarios of the specification the plan is run `[C3, C2, C1]` with base `B`, and run
`[C2]` with base `C1`. -/
theorem C2_base_choice :
    (∀ (checkpoints : List Checkpoint) (currentCommit : String) (i : Nat) (w : World),
      findCurrentIndex checkpoints currentCommit = some i →
      ∀ j, j = i + (consecutiveCheckpoints checkpoints i).length →
        (j < checkpoints.length →
          ∃ next, checkpoints[j]? = some next ∧ next.isTagged = false ∧
            findBase checkpoints j w = (.ok next.Hash, w)) ∧
        (checkpoints.length ≤ j → (RunCommand .logFull w).1.2 = none →
          ∀ pre line post, Split (RunCommand .logFull w).1.1 '\n' = pre ++ line :: post →
            (∀ l ∈ pre, Contains l checkpointTag = true) →
            Contains line checkpointTag = false →
            ∃ id, (findBase checkpoints j w).1 = .ok id ∧ ' ' ∉ id.data ∧
              (line = id ∨ ∃ subject, line = id ++ " " ++ subject)) ∧
        (∀ plan w1, planSquash checkpoints currentCommit w = (.ok plan, w1) →
          findBase checkpoints j w = (.ok plan.base, w1))) ∧
    (∀ w : World,
      planSquash
        [⟨"C3", "CHECKPOINT: 3"⟩, ⟨"C2", "CHECKPOINT: 2"⟩, ⟨"C1", "CHECKPOINT: 1"⟩,
          ⟨"B", "base"⟩] "C3" w =
        (.ok ⟨[⟨"C3", "CHECKPOINT: 3"⟩, ⟨"C2", "CHECKPOINT: 2"⟩, ⟨"C1", "CHECKPOINT: 1"⟩],
          "B"⟩, w)) ∧
    (∀ w : World,
      planSquash [⟨"C2", "CHECKPOINT: 2"⟩, ⟨"C1", "[LAST COMMIT] base"⟩] "C2" w =
        (.ok ⟨[⟨"C2", "CHECKPOINT: 2"⟩], "C1"⟩, w)) := by
  refine ⟨?_, fun w => rfl, fun w => rfl⟩
  intro cps cur i w hfound j hj
  obtain ⟨j2, hj2, -, hle, -, -, -, hstop⟩ := consecutiveCheckpoints_block cps cur i hfound
  obtain rfl : j = j2 := by rw [hj, hj2]
  refine ⟨?_, ?_, ?_⟩
  · intro hlt
    refine ⟨cps[j], List.getElem?_eq_getElem hlt, hstop _ (List.getElem?_eq_getElem hlt), ?_⟩
    exact findBase_next cps j w hlt
  · intro hge hok pre line post hsplit hpre hline
    obtain ⟨id, rest, hid, hscan⟩ := scanBase_first_untagged pre line post hpre hline
    obtain ⟨id2, rest2, hid2, hsp, hform⟩ := SplitN2_head line
    rw [hid] at hid2
    simp only [List.cons.injEq] at hid2
    obtain ⟨rfl, -⟩ := hid2
    refine ⟨id, ?_, hsp, hform⟩
    rw [findBase_history cps j w hge hok, hsplit, hscan]
  · intro plan w1 hp
    rw [hj]
    exact (planSquash_run cps cur i hfound w plan w1 hp).2.1

/-- Witness for C2: in the example store, a current commit at the only entry of a list
makes the run reach the end, and the base is the id of the first untagged line of the
history, `b0ff`. -/
theorem C2_base_choice_witness :
    findCurrentIndex [⟨"c3", "CHECKPOINT: three"⟩] "c3" = some 0 ∧
    (findBase [⟨"c3", "CHECKPOINT: three"⟩] 1 exampleWorld).1 = .ok "b0ff" ∧
    (∃ id, (findBase [⟨"c3", "CHECKPOINT: three"⟩] 1 exampleWorld).1 = .ok id ∧
      ' ' ∉ id.data ∧ ("b0ff init" = id ∨ ∃ subject, "b0ff init" = id ++ " " ++ subject)) :=
  ⟨by decide, rfl,
    (C2_base_choice.1 [⟨"c3", "CHECKPOINT: three"⟩] "c3" 0 exampleWorld (by decide) 1
      (by decide)).2.1 (by decide) (by decide)
      ["c3ff CHECKPOINT: three", "c2ff CHECKPOINT: two", "c1ff CHECKPOINT: one"]
      "b0ff init" [] (by decide) (by decide) (by decide)⟩

/-! ## Branch pointers along a run -/

theorem replay_append (fresh : Nat → String) (r : Refs) (n : Nat)
    (a b : List (Proc × CmdResult)) :
    replay fresh r n (a ++ b) = replay fresh (replay fresh r n a) (n + a.length) b := by
  induction a generalizing r n with
  | nil => rfl
  | cons c cs ih =>
    rw [List.cons_append]
    simp only [replay, List.length_cons]
    rw [ih]
    congr 1
    omega

theorem refs_extend (w : World) (tr : List (Proc × CmdResult)) :
    (w.extend tr).refs = replay w.freshCommit w.refs w.calls.length tr := by
  simp only [World.refs, extend_calls, extend_freshCommit, extend_initial, replay_append,
    Nat.zero_add]

theorem applyEffect_untouched (r : Refs) (p : Proc) (f : String)
    (h : p.touchesRefs = false) : r.applyEffect p f = r := by
  cases p <;> simp_all [Refs.applyEffect, Proc.touchesRefs]

theorem replay_untouched (fresh : Nat → String) (r : Refs) (n : Nat)
    (l : List (Proc × CmdResult)) (h : ∀ c ∈ l, c.1.touchesRefs = false) :
    replay fresh r n l = r := by
  induction l generalizing n with
  | nil => rfl
  | cons c cs ih =>
    simp only [replay]
    rw [applyEffect_untouched r c.1 _ (h c (List.mem_cons_self _ _))]
    simp only [ite_self]
    exact ih _ (fun x hx => h x (List.mem_cons_of_mem _ hx))

theorem PrefixShape.allowed {tr : List (Proc × CmdResult)} (h : PrefixShape tr) :
    ∀ c ∈ tr, c.1.isPrefixProc = true := by
  cases h with
  | notRepo r0 => simp [Proc.isPrefixProc]
  | checked r0 fixTr res rest hf hq =>
    intro c hc
    simp only [List.mem_cons, List.mem_append] at hc
    rcases hc with rfl | hc | hc
    · rfl
    · cases hf <;> simp only [List.mem_cons, List.mem_singleton, List.not_mem_nil, or_false] at hc <;>
        rcases hc with rfl | rfl | rfl <;> simp [Proc.isPrefixProc]
    · have := hq c hc
      revert this
      cases c.1 <;> simp [Proc.isPrefixProc, Proc.isQuery]

/-- What a successful `git checkout t` does to the pointers: the remote-tracking branches
and every local branch other than `t` stay, a local branch that existed keeps its commit,
HEAD goes onto `t` when a local or a remote-tracking branch carries the name (else it is
detached at `t`), and a local branch `t` that was missing is created at the commit of the
remote-tracking branch. -/
theorem checkout_effect (r : Refs) (t f : String) :
    (r.applyEffect (.checkout t) f).remotes = r.remotes ∧
    (∀ x, x ≠ t → (r.applyEffect (.checkout t) f).branches x = r.branches x) ∧
    (∀ x c, r.branches x = some c → (r.applyEffect (.checkout t) f).branches x = some c) ∧
    (r.applyEffect (.checkout t) f).head =
      (if ((r.branches t).isSome || (r.remotes t).isSome) = true then .branch t
        else .detached t) ∧
    (r.applyEffect (.checkout t) f).branches t =
      (match r.branches t with
        | some v => some v
        | none => r.remotes t) ∧
    (r.applyEffect (.checkout t) f).headCommit.isSome = true := by
  have e : r.applyEffect (.checkout t) f =
      (match r.branches t with
        | some _ => { r with head := .branch t }
        | none =>
          match r.remotes t with
          | some c => { r with head := .branch t, branches := setBranch r.branches t (some c) }
          | none => { r with head := .detached t }) := rfl
  rw [e]
  cases hb : r.branches t with
  | some v =>
    refine ⟨rfl, fun _ _ => rfl, fun _ _ h => h, by simp, hb, ?_⟩
    simp [Refs.headCommit, hb]
  | none =>
    cases hr : r.remotes t with
    | some c =>
      refine ⟨rfl, fun x hx => by simp [setBranch, hx], ?_, by simp, by simp [setBranch], ?_⟩
      · intro x v hx
        have hxt : x ≠ t := by
          rintro rfl
          rw [hb] at hx
          cases hx
        simp [setBranch, hxt, hx]
      · simp [Refs.headCommit, setBranch]
    | none =>
      refine ⟨rfl, fun _ _ => rfl, fun _ _ h => h, by simp, hb, ?_⟩
      simp [Refs.headCommit]

/-- The pointers after the calls made before the executor: where they were when no
checkout succeeded, and else what the one successful checkout, of `main` or of `master`,
made of them. -/
theorem PrefixShape.refs {tr : List (Proc × CmdResult)} (h : PrefixShape tr)
    (fresh : Nat → String) (r : Refs) (n : Nat) :
    ((∀ c ∈ tr, c.1.isCheckout = true → c.2.err ≠ none) ∧ replay fresh r n tr = r) ∨
    ∃ t, (t = "main" ∨ t = "master") ∧
      (∀ c ∈ tr, ∀ t2, c.1 = .checkout t2 → c.2.err = none → t2 = t) ∧
      (∃ c ∈ tr, c.1 = .checkout t ∧ c.2.err = none) ∧
      replay fresh r n tr = r.applyEffect (.checkout t) "" := by
  cases h with
  | notRepo r0 =>
    left
    refine ⟨by simp [Proc.isCheckout], ?_⟩
    simp [replay, Refs.applyEffect]
  | checked r0 fixTr res rest hf hq =>
    have hrest : ∀ c ∈ rest, c.1.touchesRefs = false := by
      intro c hc
      have := hq c hc
      revert this
      cases c.1 <;> simp [Proc.isQuery, Proc.touchesRefs]
    have hnc : ∀ c ∈ rest, c.1.isCheckout = false := by
      intro c hc
      have := hq c hc
      revert this
      cases c.1 <;> simp [Proc.isQuery, Proc.isCheckout]
    rw [show (Proc.revParseGitDir, r0) :: (fixTr ++ rest)
      = ((Proc.revParseGitDir, r0) :: fixTr) ++ rest from rfl, replay_append,
      replay_untouched _ _ _ rest hrest]
    have hmem : ∀ c ∈ (Proc.revParseGitDir, r0) :: fixTr ++ rest,
        c.1.isCheckout = true → c ∈ fixTr := by
      intro c hc hck
      simp only [List.cons_append, List.mem_cons, List.mem_append] at hc
      rcases hc with rfl | hc | hc
      · simp [Proc.isCheckout] at hck
      · exact hc
      · rw [hnc c hc] at hck
        cases hck
    have e0 : ∀ (X : Refs) (f : String), X.applyEffect .revParseGitDir f = X := fun _ _ => rfl
    have e1 : ∀ (X : Refs) (f : String), X.applyEffect .revParseAbbrevRefHead f = X :=
      fun _ _ => rfl
    have e2 : ∀ (X : Refs) (t f : String),
        X.applyEffect (.checkout t) f = X.applyEffect (.checkout t) "" := fun _ _ _ => rfl
    cases hf with
    | attached r1 h1 =>
      left
      refine ⟨?_, by simp only [replay, e0, e1, ite_self]⟩
      intro c hc hck
      have := hmem c hc hck
      simp only [List.mem_singleton] at this
      subst this
      simp [Proc.isCheckout] at hck
    | toMain r1 r2 h1 h2 h3 =>
      right
      refine ⟨"main", Or.inl rfl, ?_, ⟨(.checkout "main", r2), by simp, rfl, h3⟩, ?_⟩
      · intro c hc t2 ht2 hok
        have := hmem c hc (by rw [ht2]; rfl)
        simp only [List.mem_cons, List.mem_singleton, List.not_mem_nil, or_false] at this
        rcases this with rfl | rfl
        · simp at ht2
        · simp only [Proc.checkout.injEq] at ht2
          exact ht2.symm
      · simp only [replay, e0, e1, ite_self, h3, Option.isNone_none, if_true]
        exact e2 _ _ _
    | toMaster r1 r2 r3 h1 h2 h3 h4 =>
      have h3b : r2.err.isNone = false := by
        cases h : r2.err with
        | none => exact absurd h h3
        | some _ => rfl
      right
      refine ⟨"master", Or.inr rfl, ?_, ⟨(.checkout "master", r3), by simp, rfl, h4⟩, ?_⟩
      · intro c hc t2 ht2 hok
        have := hmem c hc (by rw [ht2]; rfl)
        simp only [List.mem_cons, List.mem_singleton, List.not_mem_nil, or_false] at this
        rcases this with rfl | rfl | rfl
        · simp at ht2
        · exact absurd hok h3
        · simp only [Proc.checkout.injEq] at ht2
          exact ht2.symm
      · simp only [replay, e0, e1, ite_self, h3b, h4, Option.isNone_none, if_true,
          Bool.false_eq_true, if_false]
        exact e2 _ _ _
    | stuck r1 r2 r3 e h1 h2 h3 h4 =>
      have h3b : r2.err.isNone = false := by
        cases h : r2.err with
        | none => exact absurd h h3
        | some _ => rfl
      left
      refine ⟨?_, by simp only [replay, e0, e1, ite_self, h3b, h4, Option.isNone_some,
        Bool.false_eq_true, if_false]⟩
      intro c hc hck
      have := hmem c hc hck
      simp only [List.mem_cons, List.mem_singleton, List.not_mem_nil, or_false] at this
      rcases this with rfl | rfl | rfl
      · simp [Proc.isCheckout] at hck
      · exact h3
      · simp [h4]

/-! ## The executor and the branch pointers -/

theorem MsgShape.only_date {custom : String} {tm : List (Proc × CmdResult)} {m : String}
    (h : MsgShape custom tm m) : ∀ c ∈ tm, c.1 = .date := by
  cases h <;> simp

theorem StagedShape.staged_procs {b : String} {ts : List (Proc × CmdResult)} {res : Option String}
    (h : StagedShape b ts res) :
    ∀ c ∈ ts, c.1 = .diffCached ∨ c.1 = .statusPorcelain ∨ c.1 = .addAll ∨
      (c.1 = .branchDelete b ∧ res = some errNothingToCommit) := by
  cases h <;> simp

theorem StagedShape.untouched {b : String} {ts : List (Proc × CmdResult)}
    (h : StagedShape b ts none) : ∀ c ∈ ts, c.1.touchesRefs = false := by
  intro c hc
  rcases h.staged_procs c hc with h1 | h1 | h1 | ⟨-, h1⟩
  · rw [h1]; rfl
  · rw [h1]; rfl
  · rw [h1]; rfl
  · simp at h1

theorem backupBranchName_ne_main (w : World) :
    backupBranchName w ≠ "main" ∧ backupBranchName w ≠ "master" := by
  constructor <;>
  · intro h
    have := congrArg String.data h
    simp [backupBranchName, String.data_append] at this

/-- The pointers after backup, soft reset (when it succeeded), hard reset to the backup and
deletion of the backup are the pointers before, without the backup branch. -/
theorem rollback_core (R : Refs) (b base : String) (softOk : Bool) (f1 f2 f3 f4 : String)
    (h : R.headCommit.isSome = true) :
    (((if softOk then (R.applyEffect (.branchCreate b) f1).applyEffect (.resetSoft base) f2
        else R.applyEffect (.branchCreate b) f1).applyEffect (.resetHard b) f3).applyEffect
        (.branchDelete b) f4).head = R.head ∧
    (∀ x, x ≠ b →
      (((if softOk then (R.applyEffect (.branchCreate b) f1).applyEffect (.resetSoft base) f2
        else R.applyEffect (.branchCreate b) f1).applyEffect (.resetHard b) f3).applyEffect
        (.branchDelete b) f4).branches x = R.branches x) ∧
    (((if softOk then (R.applyEffect (.branchCreate b) f1).applyEffect (.resetSoft base) f2
        else R.applyEffect (.branchCreate b) f1).applyEffect (.resetHard b) f3).applyEffect
        (.branchDelete b) f4).branches b = none ∧
    (((if softOk then (R.applyEffect (.branchCreate b) f1).applyEffect (.resetSoft base) f2
        else R.applyEffect (.branchCreate b) f1).applyEffect (.resetHard b) f3).applyEffect
        (.branchDelete b) f4).remotes = R.remotes := by
  obtain ⟨hd, br, rm⟩ := R
  cases hd with
  | detached c0 =>
    cases softOk <;>
      simp [Refs.applyEffect, Refs.moveTo, Refs.resolveRev, Refs.headCommit, setBranch]
    all_goals (intro x hx; simp [hx])
  | branch c =>
    simp only [Refs.headCommit] at h
    obtain ⟨v, hv⟩ := Option.isSome_iff_exists.mp h
    by_cases hcb : c = b
    · subst hcb
      cases softOk <;>
        simp [Refs.applyEffect, Refs.moveTo, Refs.resolveRev, Refs.headCommit, setBranch, hv]
      all_goals (intro x hx; simp [hx])
    · have hbc : b ≠ c := fun h => hcb h.symm
      cases softOk <;>
        simp [Refs.applyEffect, Refs.moveTo, Refs.resolveRev, Refs.headCommit, setBranch, hv,
          hcb, hbc]
      all_goals (intro x hx; by_cases hxc : x = c <;> simp [hx, hxc, hv, hcb])
theorem replay_noEffect (fresh : Nat → String) (r : Refs) (n : Nat)
    (l : List (Proc × CmdResult))
    (h : ∀ c ∈ l, c.1.touchesRefs = false ∨ c.2.err ≠ none) :
    replay fresh r n l = r := by
  induction l generalizing n with
  | nil => rfl
  | cons c cs ih =>
    simp only [replay]
    have hc : (if c.2.err.isNone = true then r.applyEffect c.1 (fresh n) else r) = r := by
      rcases h c (List.mem_cons_self _ _) with h1 | h1
      · rw [applyEffect_untouched r c.1 _ h1]; simp
      · cases he : c.2.err with
        | none => exact absurd he h1
        | some e => simp
    rw [hc]
    exact ih _ (fun x hx => h x (List.mem_cons_of_mem _ hx))

theorem headCommit_congr (X Y : Refs) (b : String) (hh : X.head = Y.head)
    (hb : ∀ x, x ≠ b → X.branches x = Y.branches x) (hne : Y.head ≠ .branch b) :
    X.headCommit = Y.headCommit := by
  unfold Refs.headCommit
  rw [hh]
  cases hY : Y.head with
  | detached c => rfl
  | branch x =>
    have hx : x ≠ b := fun h => hne (by rw [hY, h])
    exact hb x hx

/-- The branch pointers at the end of a run that took the backup, made the soft reset,
then calls without effect on the pointers, and finally restored and deleted the backup:
the pointers the calls before the executor left, without the backup branch. -/
theorem rollback_refs (w : World) (pre mid tr : List (Proc × CmdResult)) (b base : String)
    (r r1 r2 r3 : CmdResult) (hpre : PrefixShape pre)
    (htr : tr = pre ++ (.branchCreate b, r) :: (.resetSoft base, r1) ::
        (mid ++ [(.resetHard b, r2), (.branchDelete b, r3)]))
    (hhead : w.refs.headCommit.isSome = true) (hr : r.err = none) (hr2 : r2.err = none)
    (hr3 : r3.err = none)
    (hmid : ∀ c ∈ mid, c.1.touchesRefs = false ∨ ((∃ m, c.1 = .commit m) ∧ c.2.err ≠ none))
    (hm : b ≠ "main") (hms : b ≠ "master") :
    (∀ x c, x ≠ b → w.refs.branches x = some c → (w.extend tr).refs.branches x = some c) ∧
    (∀ x, x ≠ b → x ≠ "main" → x ≠ "master" →
      (w.extend tr).refs.branches x = w.refs.branches x) ∧
    (w.extend tr).refs.branches b = none ∧
    (w.extend tr).refs.remotes = w.refs.remotes ∧
    ((∀ c ∈ tr, c.1.isCheckout = true → c.2.err ≠ none) →
      (w.extend tr).refs.head = w.refs.head ∧
      (∀ x, x ≠ b → (w.extend tr).refs.branches x = w.refs.branches x) ∧
      (w.refs.head ≠ .branch b → (w.extend tr).refs.headCommit = w.refs.headCommit)) ∧
    (∀ c ∈ tr, ∀ t, c.1 = .checkout t → c.2.err = none →
      (w.extend tr).refs.head =
        (if ((w.refs.branches t).isSome || (w.refs.remotes t).isSome) = true then .branch t
          else .detached t) ∧
      (w.extend tr).refs.branches t =
        (match w.refs.branches t with
          | some v => some v
          | none => w.refs.remotes t)) := by
  subst htr
  have hmid2 : ∀ c ∈ mid, c.1.touchesRefs = false ∨ c.2.err ≠ none := by
    intro c hc
    rcases hmid c hc with h | ⟨-, h⟩
    · exact Or.inl h
    · exact Or.inr h
  have hfinal : (w.extend (pre ++ (.branchCreate b, r) :: (.resetSoft base, r1) ::
        (mid ++ [(.resetHard b, r2), (.branchDelete b, r3)]))).refs =
      (((if r1.err.isNone then
          ((replay w.freshCommit w.refs w.calls.length pre).applyEffect (.branchCreate b)
            (w.freshCommit (w.calls.length + pre.length))).applyEffect (.resetSoft base)
            (w.freshCommit (w.calls.length + pre.length + 1))
        else (replay w.freshCommit w.refs w.calls.length pre).applyEffect (.branchCreate b)
            (w.freshCommit (w.calls.length + pre.length))).applyEffect (.resetHard b)
          (w.freshCommit (w.calls.length + pre.length + 1 + 1 + mid.length))).applyEffect
        (.branchDelete b)
          (w.freshCommit (w.calls.length + pre.length + 1 + 1 + mid.length + 1))) := by
    rw [refs_extend, replay_append]
    simp only [replay, hr, Option.isNone_none, if_true]
    rw [replay_append, replay_noEffect _ _ _ mid hmid2]
    simp only [replay, hr2, hr3, Option.isNone_none, if_true]
  have hck : ∀ c ∈ pre ++ (Proc.branchCreate b, r) :: (Proc.resetSoft base, r1) ::
        (mid ++ [(Proc.resetHard b, r2), (Proc.branchDelete b, r3)]),
        c.1.isCheckout = true → c ∈ pre := by
    intro c hc hchk
    simp only [List.mem_append, List.mem_cons, List.mem_singleton, List.not_mem_nil,
      or_false] at hc
    rcases hc with hc | rfl | rfl | hc | rfl | rfl
    · exact hc
    · simp [Proc.isCheckout] at hchk
    · simp [Proc.isCheckout] at hchk
    · rcases hmid c hc with h | ⟨⟨m, hm2⟩, -⟩
      · revert h hchk
        cases c.1 <;> simp [Proc.touchesRefs, Proc.isCheckout]
      · rw [hm2] at hchk
        simp [Proc.isCheckout] at hchk
    · simp [Proc.isCheckout] at hchk
    · simp [Proc.isCheckout] at hchk
  rw [hfinal]
  rcases hpre.refs w.freshCommit w.refs w.calls.length with ⟨hno, hX⟩ |
      ⟨t, ht, honly, ⟨c0, hc0, hc0t, hc0ok⟩, hX⟩
  · rw [hX]
    obtain ⟨c1, c2, c3, c4⟩ := rollback_core w.refs
      b base r1.err.isNone (w.freshCommit (w.calls.length + pre.length))
      (w.freshCommit (w.calls.length + pre.length + 1))
      (w.freshCommit (w.calls.length + pre.length + 1 + 1 + mid.length))
      (w.freshCommit (w.calls.length + pre.length + 1 + 1 + mid.length + 1)) hhead
    refine ⟨fun x c hx hc => (c2 x hx).trans hc, fun x hx _ _ => c2 x hx, c3, c4, ?_, ?_⟩
    · intro _
      exact ⟨c1, c2, fun hne => headCommit_congr _ _ b c1 c2 hne⟩
    · intro c hc t ht2 hok
      exact absurd hok (hno c (hck c hc (by rw [ht2]; rfl)) (by rw [ht2]; rfl))
  · obtain ⟨e1, e2, e3, e4, e5, e6⟩ := checkout_effect w.refs t ""
    rw [hX]
    obtain ⟨c1, c2, c3, c4⟩ := rollback_core (w.refs.applyEffect (.checkout t) "")
      b base r1.err.isNone (w.freshCommit (w.calls.length + pre.length))
      (w.freshCommit (w.calls.length + pre.length + 1))
      (w.freshCommit (w.calls.length + pre.length + 1 + 1 + mid.length))
      (w.freshCommit (w.calls.length + pre.length + 1 + 1 + mid.length + 1)) e6
    have htb : t ≠ b := by
      rcases ht with rfl | rfl
      · exact fun h => hm h.symm
      · exact fun h => hms h.symm
    refine ⟨fun x c hx hc => (c2 x hx).trans (e3 x c hc), ?_, c3, c4.trans e1, ?_, ?_⟩
    · intro x hx hxm hxms
      have hxt : x ≠ t := by
        rcases ht with rfl | rfl
        · exact hxm
        · exact hxms
      exact (c2 x hx).trans (e2 x hxt)
    · intro hno
      exact absurd hc0ok (hno c0 (List.mem_append_left _ hc0) (by rw [hc0t]; rfl))
    · intro c hc t2 ht2 hok
      have hcp := hck c hc (by rw [ht2]; rfl)
      have := honly c hcp t2 ht2 hok
      subst this
      exact ⟨c1.trans e4, (c2 t2 htb).trans e5⟩

/-! ## Claims about the executor -/

set_option maxRecDepth 20000 in
/-- Claim C5 as stated fails: in a store with HEAD detached at `c2` and no local branch,
whose remote has `main` at `c3`, the detached-HEAD fix checks out `main`; the final commit
then fails, the two restore commands succeed, and the run ends with HEAD on the new local
branch `main` at `c3`, not at the position it had before finalize started. -/
theorem C5_rollback_after_detached_head :
    cloneWorld.refs.head = .detached "c2" ∧
    cloneWorld.refs.headCommit = some "c2" ∧
    cloneWorld.refs.branches "main" = none ∧
    (∃ c ∈ issued cloneWorld (FinalizeAndPushWithMessage "" cloneWorld).2,
      c.1.isSquashStep = true ∧ c.2.err ≠ none) ∧
    (∀ c ∈ issued cloneWorld (FinalizeAndPushWithMessage "" cloneWorld).2,
      (c.1 = .resetHard (backupBranchName cloneWorld) ∨
        c.1 = .branchDelete (backupBranchName cloneWorld)) → c.2.err = none) ∧
    (FinalizeAndPushWithMessage "" cloneWorld).2.refs.head = .branch "main" ∧
    (FinalizeAndPushWithMessage "" cloneWorld).2.refs.headCommit = some "c3" ∧
    (FinalizeAndPushWithMessage "" cloneWorld).2.refs.branches "main" = some "c3" := by
  refine ⟨by decide, by decide, by decide, by decide, by decide, by decide, by decide,
    by decide⟩

/-- Claim C5, amended: when the soft reset or the final commit fails and the two restore
commands (hard reset to the backup, deletion of the backup) succeed, every branch that
existed before finalize started points where it did, every branch other than `main`,
`master` and the backup is as it was, the backup is gone and the remote-tracking branches
are as they were. When no checkout succeeded (HEAD was on a branch), HEAD, every branch
other than the backup and the current commit are what they were before finalize started.
When the detached-HEAD fix checked a branch out, HEAD ends on that branch, which is where
it was if it existed and else stands, newly created, at the commit of its remote-tracking
branch. The store is assumed to have HEAD on a commit when finalize starts. -/
theorem C5_rollback_restores_existing_branches (customMessage : String) (w : World)
    (hhead : w.refs.headCommit.isSome = true)
    (hfail : ∃ c ∈ issued w (FinalizeAndPushWithMessage customMessage w).2,
      c.1.isSquashStep = true ∧ c.2.err ≠ none)
    (hrestore : ∀ c ∈ issued w (FinalizeAndPushWithMessage customMessage w).2,
      (c.1 = .resetHard (backupBranchName w) ∨ c.1 = .branchDelete (backupBranchName w)) →
        c.2.err = none) :
    (∀ b c, b ≠ backupBranchName w → w.refs.branches b = some c →
      (FinalizeAndPushWithMessage customMessage w).2.refs.branches b = some c) ∧
    (∀ b, b ≠ backupBranchName w → b ≠ "main" → b ≠ "master" →
      (FinalizeAndPushWithMessage customMessage w).2.refs.branches b = w.refs.branches b) ∧
    (FinalizeAndPushWithMessage customMessage w).2.refs.branches (backupBranchName w) = none ∧
    (FinalizeAndPushWithMessage customMessage w).2.refs.remotes = w.refs.remotes ∧
    ((∀ c ∈ issued w (FinalizeAndPushWithMessage customMessage w).2,
        c.1.isCheckout = true → c.2.err ≠ none) →
      (FinalizeAndPushWithMessage customMessage w).2.refs.head = w.refs.head ∧
      (∀ b, b ≠ backupBranchName w →
        (FinalizeAndPushWithMessage customMessage w).2.refs.branches b = w.refs.branches b) ∧
      (w.refs.head ≠ .branch (backupBranchName w) →
        (FinalizeAndPushWithMessage customMessage w).2.refs.headCommit =
          w.refs.headCommit)) ∧
    (∀ c ∈ issued w (FinalizeAndPushWithMessage customMessage w).2,
        ∀ t, c.1 = .checkout t → c.2.err = none →
      (FinalizeAndPushWithMessage customMessage w).2.refs.head =
        (if ((w.refs.branches t).isSome || (w.refs.remotes t).isSome) = true then .branch t
          else .detached t) ∧
      (FinalizeAndPushWithMessage customMessage w).2.refs.branches t =
        (match w.refs.branches t with
          | some v => some v
          | none => w.refs.remotes t)) ∧
    (FinalizeAndPushWithMessage customMessage w).1 ≠ none := by
  obtain ⟨tr, htr, hshape⟩ := FinalizeAndPushWithMessage_shape customMessage w
  rw [htr] at hfail hrestore ⊢
  rw [issued_extend] at hfail hrestore ⊢
  obtain ⟨cf, hcf, hsq, herr⟩ := hfail
  rcases hshape with ⟨hpre, e, he⟩ | ⟨pre, ex, base, rfl, hpre, hex⟩
  · have := hpre.allowed cf hcf
    revert hsq this
    cases cf.1 <;> simp [Proc.isSquashStep, Proc.isPrefixProc, Proc.isQuery]
  · have hcf2 : cf ∈ ex := by
      rcases List.mem_append.mp hcf with h | h
      · have := hpre.allowed cf h
        revert hsq this
        cases cf.1 <;> simp [Proc.isSquashStep, Proc.isPrefixProc, Proc.isQuery]
      · exact h
    generalize (FinalizeAndPushWithMessage customMessage w).1 = res at hex ⊢
    cases hex with
    | backupFailed r e hr =>
      simp only [List.mem_singleton] at hcf2
      subst hcf2
      simp [Proc.isSquashStep] at hsq
    | resetFailed r r1 r2 r3 e hr hr1 =>
      have h2 : r2.err = none :=
        hrestore (.resetHard (backupBranchName w), r2) (by simp) (Or.inl rfl)
      have h3 : r3.err = none :=
        hrestore (.branchDelete (backupBranchName w), r3) (by simp) (Or.inr rfl)
      have hall := rollback_refs w pre [] _ (backupBranchName w) base r r1 r2 r3 hpre rfl
        hhead hr h2 h3 (by simp) (backupBranchName_ne_main w).1 (backupBranchName_ne_main w).2
      simp only [List.nil_append] at hall
      exact ⟨hall.1, hall.2.1, hall.2.2.1, hall.2.2.2.1, hall.2.2.2.2.1, hall.2.2.2.2.2,
        by simp⟩
    | stopped r r1 tm m ts e hr hr1 hm hs =>
      exfalso
      simp only [List.mem_append, List.mem_cons, List.mem_singleton, List.not_mem_nil,
        or_false] at hcf2
      rcases hcf2 with ((rfl | rfl) | h) | h
      · simp [Proc.isSquashStep] at hsq
      · exact herr hr1
      · rw [hm.only_date cf h] at hsq
        simp [Proc.isSquashStep] at hsq
      · rcases hs.staged_procs cf h with h1 | h1 | h1 | ⟨h1, -⟩ <;> rw [h1] at hsq <;>
          simp [Proc.isSquashStep] at hsq
    | committing r r1 tm m ts tc res hr hr1 hm hs hc =>
      have hmid0 : ∀ c ∈ tm ++ ts, c.1.touchesRefs = false := by
        intro c hc
        rcases List.mem_append.mp hc with h | h
        · rw [hm.only_date c h]; rfl
        · exact hs.untouched c h
      cases hc with
      | commitFailed rc r2 r3 e hrc =>
        have h2 : r2.err = none :=
          hrestore (.resetHard (backupBranchName w), r2) (by simp) (Or.inl rfl)
        have h3 : r3.err = none :=
          hrestore (.branchDelete (backupBranchName w), r3) (by simp) (Or.inr rfl)
        have hall := rollback_refs w pre (tm ++ ts ++ [(.commit m, rc)]) _
          (backupBranchName w) base r r1 r2 r3 hpre rfl hhead hr h2 h3 (by
            intro c hc
            rcases List.mem_append.mp hc with h | h
            · exact Or.inl (hmid0 c h)
            · simp only [List.mem_singleton] at h
              subst h
              exact Or.inr ⟨⟨m, rfl⟩, by simp [hrc]⟩)
          (backupBranchName_ne_main w).1 (backupBranchName_ne_main w).2
        simp only [List.append_assoc, List.cons_append, List.nil_append] at hall ⊢
        exact ⟨hall.1, hall.2.1, hall.2.2.1, hall.2.2.2.1, hall.2.2.2.2.1, hall.2.2.2.2.2,
          by simp⟩
      | pushFailed rc r1b rp r2 br e hrc hbr hrp =>
        exfalso
        simp only [List.mem_append, List.mem_cons, List.mem_singleton, List.not_mem_nil,
          or_false] at hcf2
        rcases hcf2 with (((rfl | rfl) | h) | h) | rfl | rfl | rfl | rfl
        · simp [Proc.isSquashStep] at hsq
        · exact herr hr1
        · rw [hm.only_date cf h] at hsq
          simp [Proc.isSquashStep] at hsq
        · rcases hs.staged_procs cf h with h1 | h1 | h1 | ⟨h1, -⟩ <;> rw [h1] at hsq <;>
            simp [Proc.isSquashStep] at hsq
        · exact herr hrc
        · simp [Proc.isSquashStep] at hsq
        · simp [Proc.isSquashStep] at hsq
        · simp [Proc.isSquashStep] at hsq
      | pushed rc r1b rp r2 r3 r4 br hrc hbr hrp =>
        exfalso
        simp only [List.mem_append, List.mem_cons, List.mem_singleton, List.not_mem_nil,
          or_false] at hcf2
        rcases hcf2 with (((rfl | rfl) | h) | h) | rfl | rfl | rfl | rfl | rfl | rfl
        · simp [Proc.isSquashStep] at hsq
        · exact herr hr1
        · rw [hm.only_date cf h] at hsq
          simp [Proc.isSquashStep] at hsq
        · rcases hs.staged_procs cf h with h1 | h1 | h1 | ⟨h1, -⟩ <;> rw [h1] at hsq <;>
            simp [Proc.isSquashStep] at hsq
        · exact herr hrc
        all_goals simp [Proc.isSquashStep] at hsq
/-- Witness for C5 (amended): in the example store with a rejecting commit hook, the
commit step fails, the restore commands succeed, no checkout was made, and `main` and HEAD
end where they started; in the store without a local branch, HEAD ends on the `main` that
the checkout created at the commit of `origin/main`. -/
theorem C5_rollback_restores_existing_branches_witness :
    hookRejectsWorld.refs.headCommit.isSome = true ∧
    (∃ c ∈ issued hookRejectsWorld (FinalizeAndPushWithMessage "" hookRejectsWorld).2,
      c.1.isSquashStep = true ∧ c.2.err ≠ none) ∧
    (∀ c ∈ issued hookRejectsWorld (FinalizeAndPushWithMessage "" hookRejectsWorld).2,
      (c.1 = .resetHard (backupBranchName hookRejectsWorld) ∨
        c.1 = .branchDelete (backupBranchName hookRejectsWorld)) → c.2.err = none) ∧
    (FinalizeAndPushWithMessage "" hookRejectsWorld).2.refs.branches "main" = some "c3" ∧
    (FinalizeAndPushWithMessage "" hookRejectsWorld).2.refs.head = .branch "main" ∧
    (FinalizeAndPushWithMessage "" hookRejectsWorld).2.refs.headCommit = some "c3" ∧
    (FinalizeAndPushWithMessage "" cloneWorld).2.refs.branches "main" = some "c3" :=
  ⟨by decide, by decide, by decide,
    (C5_rollback_restores_existing_branches "" hookRejectsWorld (by decide) (by decide)
      (by decide)).1 "main" "c3" (by decide) (by decide),
    ((C5_rollback_restores_existing_branches "" hookRejectsWorld (by decide) (by decide)
      (by decide)).2.2.2.2.1 (by decide)).1.trans (by decide),
    (((C5_rollback_restores_existing_branches "" hookRejectsWorld (by decide) (by decide)
      (by decide)).2.2.2.2.1 (by decide)).2.2 (by decide)).trans (by decide),
    ((C5_rollback_restores_existing_branches "" cloneWorld (by decide) (by decide)
      (by decide)).2.2.2.2.2.1 (.checkout "main", succeeded "") (by decide) "main" rfl
      rfl).2.trans (by decide)⟩

/-- Claim C3, evaluated where the code departs from it: when the current commit is the
sentinel (the last real commit) and git prints full ids, the discovered list contains the
current commit, the planner succeeds, and the base it returns is the hash of the only
entry of the run. -/
theorem C3_base_in_run_at_sentinel :
    (GetCheckpointsFromReflog fullIdWorld).1 = .ok fullIdList ∧
    findCurrentIndex fullIdList fullId = some 2 ∧
    ∃ plan, (planSquash fullIdList fullId fullIdWorld).1 = .ok plan ∧
      plan.run = [⟨fullId, "[LAST COMMIT] init"⟩] ∧ plan.base = fullId ∧
      plan.base ∈ plan.run.map Checkpoint.Hash :=
  ⟨rfl, by decide, ⟨[⟨fullId, "[LAST COMMIT] init"⟩], fullId⟩, rfl, rfl, rfl, by decide⟩

/-- Claim C4, evaluated where the code departs from it: when the current commit is the
untagged sentinel, finalize does not fail with the "current commit is not a checkpoint"
error; the planner builds a run whose only entry is the untagged sentinel, and finalize
goes on to reset, commit, push and purge the event log. -/
theorem C4_untagged_sentinel_is_squashed :
    (GetCheckpointsFromReflog sentinelWorld).1 = .ok sentinelList ∧
    (∃ plan, (planSquash sentinelList "b0b0b0b" sentinelWorld).1 = .ok plan ∧
      plan.run = [⟨"b0b0b0b", "[LAST COMMIT] init"⟩] ∧
      ∃ cp ∈ plan.run, cp.isTagged = false) ∧
    (FinalizeAndPushWithMessage "" sentinelWorld).1 ≠ some errNotAtCheckpoint ∧
    (FinalizeAndPushWithMessage "" sentinelWorld).1 = none ∧
    (∃ c ∈ (FinalizeAndPushWithMessage "" sentinelWorld).2.calls, c.1 = .reflogExpire) :=
  ⟨rfl, ⟨⟨[⟨"b0b0b0b", "[LAST COMMIT] init"⟩], "b0b0b0b0b0b0b0b0b0b0b0b0b0b0b0b0b0b0b0b0"⟩,
    rfl, rfl, by decide⟩, by decide, by decide, by decide⟩

theorem applyEffect_head_branch (r : Refs) (p : Proc) (f b : String)
    (hp : p.isCheckout = false) :
    (r.applyEffect p f).head = .branch b ↔ r.head = .branch b := by
  obtain ⟨hd, br, rm⟩ := r
  cases p <;> simp [Proc.isCheckout] at hp <;>
    cases hd <;> simp [Refs.applyEffect, Refs.moveTo] <;> split <;> simp

theorem replay_head_branch (fresh : Nat → String) (r : Refs) (n : Nat)
    (l : List (Proc × CmdResult)) (b : String) (h : ∀ c ∈ l, c.1.isCheckout = false) :
    (replay fresh r n l).head = .branch b ↔ r.head = .branch b := by
  induction l generalizing r n with
  | nil => rfl
  | cons c cs ih =>
    simp only [replay]
    rw [ih _ _ (fun x hx => h x (List.mem_cons_of_mem _ hx))]
    split
    · exact applyEffect_head_branch r c.1 _ b (h c (List.mem_cons_self _ _))
    · rfl

/-- After the calls made before the executor, HEAD is on a branch `b` other than `main` and
`master` only if it was on `b` before. -/
theorem PrefixShape.head_branch {tr : List (Proc × CmdResult)} (h : PrefixShape tr)
    (fresh : Nat → String) (r : Refs) (n : Nat) (b : String) (hm : b ≠ "main")
    (hms : b ≠ "master") (hr : r.head ≠ .branch b) :
    (replay fresh r n tr).head ≠ .branch b := by
  rcases h.refs fresh r n with ⟨-, hX⟩ | ⟨t, ht, -, -, hX⟩
  · rw [hX]
    exact hr
  · rw [hX]
    obtain ⟨-, -, -, e4, -, -⟩ := checkout_effect r t ""
    rw [e4]
    split
    · intro heq
      simp only [Head.branch.injEq] at heq
      rcases ht with h1 | h1
      · exact hm (heq ▸ h1)
      · exact hms (heq ▸ h1)
    · simp

theorem headCommit_moveTo (X : Refs) (c : String) : (X.moveTo c).headCommit = some c := by
  obtain ⟨hd, br⟩ := X
  cases hd <;> simp [Refs.moveTo, Refs.headCommit, setBranch]

theorem headCommit_commit_delete (X : Refs) (b c f : String) (hX : X.head ≠ .branch b) :
    ((X.moveTo c).applyEffect (.branchDelete b) f).headCommit = some c := by
  obtain ⟨hd, br⟩ := X
  cases hd with
  | detached d => simp [Refs.moveTo, Refs.headCommit, Refs.applyEffect]
  | branch x =>
    have hxb : x ≠ b := fun h => hX (by rw [h])
    simp [Refs.moveTo, Refs.headCommit, Refs.applyEffect, setBranch, hxb]

/-- The commit HEAD is on at the end of a run whose push failed: the commit the final
commit step created. -/
theorem pushFailed_refs (w : World) (pre mid : List (Proc × CmdResult)) (b base m br : String)
    (r r1 rc ra rp r2 : CmdResult) (hpre : PrefixShape pre)
    (hnot : w.refs.head ≠ .branch b) (hm : b ≠ "main") (hms : b ≠ "master")
    (hmid : ∀ c ∈ mid, c.1.touchesRefs = false) (hrc : rc.err = none)
    (hrp : rp.err ≠ none) :
    (w.extend (pre ++ (.branchCreate b, r) :: (.resetSoft base, r1) ::
      (mid ++ [(.commit m, rc), (.revParseAbbrevRefHead, ra), (.push br, rp),
        (.branchDelete b, r2)]))).refs.headCommit
      = some (w.freshCommit (w.calls.length +
          (pre ++ (.branchCreate b, r) :: (.resetSoft base, r1) :: mid).length)) := by
  have hX : (replay w.freshCommit w.refs w.calls.length
      (pre ++ (.branchCreate b, r) :: (.resetSoft base, r1) :: mid)).head ≠ .branch b := by
    rw [replay_append]
    intro h
    rw [replay_head_branch] at h
    · exact hpre.head_branch w.freshCommit w.refs w.calls.length b hm hms hnot h
    · intro c hc
      simp only [List.mem_cons] at hc
      rcases hc with rfl | rfl | hc
      · rfl
      · rfl
      · have := hmid c hc
        revert this
        cases c.1 <;> simp [Proc.touchesRefs, Proc.isCheckout]
  have hsplit : pre ++ (Proc.branchCreate b, r) :: (Proc.resetSoft base, r1) ::
      (mid ++ [(Proc.commit m, rc), (Proc.revParseAbbrevRefHead, ra), (Proc.push br, rp),
        (Proc.branchDelete b, r2)]) =
      (pre ++ (Proc.branchCreate b, r) :: (Proc.resetSoft base, r1) :: mid) ++
        [(Proc.commit m, rc), (Proc.revParseAbbrevRefHead, ra), (Proc.push br, rp),
          (Proc.branchDelete b, r2)] := by simp
  rw [hsplit, refs_extend, replay_append]
  generalize replay w.freshCommit w.refs w.calls.length
    (pre ++ (.branchCreate b, r) :: (.resetSoft base, r1) :: mid) = X at hX ⊢
  have hrp2 : rp.err.isNone = false := by
    cases h : rp.err with
    | none => exact absurd h hrp
    | some _ => rfl
  have e1 : ∀ (Y : Refs) (f : String), Y.applyEffect (.commit m) f = Y.moveTo f :=
    fun _ _ => rfl
  have e2 : ∀ (Y : Refs) (f : String), Y.applyEffect .revParseAbbrevRefHead f = Y :=
    fun _ _ => rfl
  simp only [replay, hrc, hrp2, Option.isNone_none, if_true, Bool.false_eq_true, if_false,
    ite_self, e1, e2]
  split
  · exact headCommit_commit_delete X b _ _ hX
  · exact headCommit_moveTo X _
theorem errPushFailed_text (pushOutput e currentBranch : String) :
    "commit created successfully but push failed:".data <+:
      (errPushFailed pushOutput e currentBranch).data ∧
    ("git push --force-with-lease origin " ++ currentBranch).data <:+
      (errPushFailed pushOutput e currentBranch).data := by
  constructor
  · refine ⟨("\nError: " ++ e ++ "\nOutput: " ++ pushOutput ++ "\n\nDiagnosis: " ++
      diagnosePushError pushOutput e ++
      "\n\nNote: You can manually push with:\ngit push --force-with-lease origin " ++
      currentBranch).data, ?_⟩
    simp [errPushFailed, String.data_append]
  · refine ⟨("commit created successfully but push failed:\nError: " ++ e ++ "\nOutput: " ++
      pushOutput ++ "\n\nDiagnosis: " ++ diagnosePushError pushOutput e ++
      "\n\nNote: You can manually push with:\n").data, ?_⟩
    simp [errPushFailed, String.data_append]

/-- Claim C6: when the push fails (the final commit having succeeded), the calls after the
commit are the branch query, the push and the deletion of the backup, no hard reset is
issued anywhere, HEAD is on the commit the final commit step created, and the error
returned starts "commit created successfully but push failed:" and ends with the manual
command "git push --force-with-lease origin <branch>" for the branch that was pushed.
HEAD is assumed not to be on a branch that carries the backup's name. -/
theorem C6_push_failure_keeps_commit (customMessage : String) (w : World)
    (hnot : w.refs.head ≠ .branch (backupBranchName w))
    (hpush : ∃ c ∈ issued w (FinalizeAndPushWithMessage customMessage w).2,
      c.1.isPush = true ∧ c.2.err ≠ none) :
    ∃ before m rc ra br rp r2 e,
      issued w (FinalizeAndPushWithMessage customMessage w).2 =
        before ++ [(.commit m, rc), (.revParseAbbrevRefHead, ra), (.push br, rp),
          (.branchDelete (backupBranchName w), r2)] ∧
      rc.err = none ∧ rp.err = some e ∧
      (∀ c ∈ issued w (FinalizeAndPushWithMessage customMessage w).2,
        ∀ rev, c.1 ≠ .resetHard rev) ∧
      (FinalizeAndPushWithMessage customMessage w).2.refs.headCommit =
        some (w.freshCommit (w.calls.length + before.length)) ∧
      (FinalizeAndPushWithMessage customMessage w).1 =
        some (errPushFailed (TrimSpace rp.output) e br) ∧
      "commit created successfully but push failed:".data <+:
        (errPushFailed (TrimSpace rp.output) e br).data ∧
      ("git push --force-with-lease origin " ++ br).data <:+
        (errPushFailed (TrimSpace rp.output) e br).data := by
  obtain ⟨tr, htr, hshape⟩ := FinalizeAndPushWithMessage_shape customMessage w
  rw [htr] at hpush ⊢
  rw [issued_extend] at hpush ⊢
  obtain ⟨cf, hcf, hsq, herr⟩ := hpush
  have hnopre : ∀ pre, PrefixShape pre → cf ∈ pre → False := by
    intro pre hpre h
    have := hpre.allowed cf h
    revert hsq this
    cases cf.1 <;> simp [Proc.isPush, Proc.isPrefixProc, Proc.isQuery]
  rcases hshape with ⟨hpre, e, he⟩ | ⟨pre, ex, base, rfl, hpre, hex⟩
  · exact (hnopre tr hpre hcf).elim
  · have hcf2 : cf ∈ ex := by
      rcases List.mem_append.mp hcf with h | h
      · exact (hnopre pre hpre h).elim
      · exact h
    generalize (FinalizeAndPushWithMessage customMessage w).1 = res at hex ⊢
    cases hex with
    | backupFailed r e hr =>
      simp only [List.mem_singleton] at hcf2
      subst hcf2
      simp [Proc.isPush] at hsq
    | resetFailed r r1 r2 r3 e hr hr1 =>
      simp only [List.mem_cons, List.mem_singleton, List.not_mem_nil, or_false] at hcf2
      rcases hcf2 with rfl | rfl | rfl | rfl <;> simp [Proc.isPush] at hsq
    | stopped r r1 tm m ts e hr hr1 hm hs =>
      exfalso
      simp only [List.mem_append, List.mem_cons, List.mem_singleton, List.not_mem_nil,
        or_false] at hcf2
      rcases hcf2 with ((rfl | rfl) | h) | h
      · simp [Proc.isPush] at hsq
      · simp [Proc.isPush] at hsq
      · rw [hm.only_date cf h] at hsq
        simp [Proc.isPush] at hsq
      · rcases hs.staged_procs cf h with h1 | h1 | h1 | ⟨h1, -⟩ <;> rw [h1] at hsq <;>
          simp [Proc.isPush] at hsq
    | committing r r1 tm m ts tc res hr hr1 hm hs hc =>
      have hmid0 : ∀ c ∈ tm ++ ts, c.1.touchesRefs = false := by
        intro c hc
        rcases List.mem_append.mp hc with h | h
        · rw [hm.only_date c h]; rfl
        · exact hs.untouched c h
      have hcf3 : cf ∈ tc := by
        simp only [List.mem_append, List.mem_cons, List.mem_singleton, List.not_mem_nil,
          or_false] at hcf2
        rcases hcf2 with (((rfl | rfl) | h) | h) | h
        · simp [Proc.isPush] at hsq
        · simp [Proc.isPush] at hsq
        · rw [hm.only_date cf h] at hsq
          simp [Proc.isPush] at hsq
        · rcases hs.staged_procs cf h with h1 | h1 | h1 | ⟨h1, -⟩ <;> rw [h1] at hsq <;>
            simp [Proc.isPush] at hsq
        · exact h
      cases hc with
      | commitFailed rc r2 r3 e hrc =>
        simp only [List.mem_cons, List.mem_singleton, List.not_mem_nil, or_false] at hcf3
        rcases hcf3 with rfl | rfl | rfl <;> simp [Proc.isPush] at hsq
      | pushed rc ra rp r2 r3 r4 br hrc hbr hrp =>
        simp only [List.mem_cons, List.mem_singleton, List.not_mem_nil, or_false] at hcf3
        rcases hcf3 with rfl | rfl | rfl | rfl | rfl | rfl <;>
          first
            | (simp [Proc.isPush] at hsq; done)
            | exact absurd hrp herr
      | pushFailed rc ra rp r2 br e hrc hbr hrp =>
        refine ⟨pre ++ ([(.branchCreate (backupBranchName w), r), (.resetSoft base, r1)] ++
          tm ++ ts), m, rc, ra, br, rp, r2, e, by simp, hrc, hrp, ?_, ?_, rfl,
          (errPushFailed_text _ _ _).1, (errPushFailed_text _ _ _).2⟩
        · intro c hc rev hrev
          simp only [List.mem_append, List.mem_cons, List.mem_singleton, List.not_mem_nil,
            or_false] at hc
          rcases hc with h | (((rfl | rfl) | h) | h) | rfl | rfl | rfl | rfl
          · have := hpre.allowed c h
            rw [hrev] at this
            simp [Proc.isPrefixProc, Proc.isQuery] at this
          · simp at hrev
          · simp at hrev
          · rw [hm.only_date c h] at hrev
            simp at hrev
          · rcases hs.staged_procs c h with h1 | h1 | h1 | ⟨h1, -⟩ <;> rw [h1] at hrev <;>
              simp at hrev
          all_goals simp at hrev
        · have := pushFailed_refs w pre (tm ++ ts) (backupBranchName w) base m br r r1 rc ra
            rp r2 hpre hnot (backupBranchName_ne_main w).1 (backupBranchName_ne_main w).2
            hmid0 hrc (by simp [hrp])
          simpa using this
/-- Witness for C6: in the example store with a remote that rejects the push. -/
theorem C6_push_failure_keeps_commit_witness :
    pushRejectedWorld.refs.head ≠ .branch (backupBranchName pushRejectedWorld) ∧
    (∃ c ∈ issued pushRejectedWorld (FinalizeAndPushWithMessage "" pushRejectedWorld).2,
      c.1.isPush = true ∧ c.2.err ≠ none) ∧
    (FinalizeAndPushWithMessage "" pushRejectedWorld).2.refs.headCommit = some "new9" ∧
    ∃ before m rc ra br rp r2 e,
      issued pushRejectedWorld (FinalizeAndPushWithMessage "" pushRejectedWorld).2 =
        before ++ [(.commit m, rc), (.revParseAbbrevRefHead, ra), (.push br, rp),
          (.branchDelete (backupBranchName pushRejectedWorld), r2)] ∧
      rc.err = none ∧ rp.err = some e ∧
      (∀ c ∈ issued pushRejectedWorld (FinalizeAndPushWithMessage "" pushRejectedWorld).2,
        ∀ rev, c.1 ≠ .resetHard rev) ∧
      (FinalizeAndPushWithMessage "" pushRejectedWorld).2.refs.headCommit =
        some (pushRejectedWorld.freshCommit (pushRejectedWorld.calls.length + before.length)) ∧
      (FinalizeAndPushWithMessage "" pushRejectedWorld).1 =
        some (errPushFailed (TrimSpace rp.output) e br) ∧
      "commit created successfully but push failed:".data <+:
        (errPushFailed (TrimSpace rp.output) e br).data ∧
      ("git push --force-with-lease origin " ++ br).data <:+
        (errPushFailed (TrimSpace rp.output) e br).data :=
  ⟨by decide, by decide, by decide,
    C6_push_failure_keeps_commit "" pushRejectedWorld (by decide) (by decide)⟩

/-- A run of finalize either fails, with no purge call and no successful push among its
calls, or succeeds, and then its calls end with the successful push, the deletion of the
backup and the two purge calls, with no purge and no push before. -/
theorem purge_cases (customMessage : String) (w : World) :
    ((FinalizeAndPushWithMessage customMessage w).1 ≠ none ∧
      ∀ c ∈ issued w (FinalizeAndPushWithMessage customMessage w).2,
        c.1.isPurge = false ∧ (c.1.isPush = true → c.2.err ≠ none)) ∨
    ((FinalizeAndPushWithMessage customMessage w).1 = none ∧
      ∃ before br rp r2 r3 r4,
        issued w (FinalizeAndPushWithMessage customMessage w).2 =
          before ++ [(.push br, rp), (.branchDelete (backupBranchName w), r2),
            (.reflogExpire, r3), (.gc, r4)] ∧
        rp.err = none ∧ ∀ c ∈ before, c.1.isPurge = false ∧ c.1.isPush = false) := by
  obtain ⟨tr, htr, hshape⟩ := FinalizeAndPushWithMessage_shape customMessage w
  rw [htr, issued_extend]
  have hpre0 : ∀ pre, PrefixShape pre → ∀ c ∈ pre, c.1.isPurge = false ∧ c.1.isPush = false := by
    intro pre hpre c hc
    have := hpre.allowed c hc
    revert this
    cases c.1 <;> simp [Proc.isPush, Proc.isPurge, Proc.isPrefixProc, Proc.isQuery]
  rcases hshape with ⟨hpre, e, he⟩ | ⟨pre, ex, base, rfl, hpre, hex⟩
  · left
    refine ⟨by simp [he], fun c hc => ?_⟩
    have := hpre0 tr hpre c hc
    exact ⟨this.1, fun h => by simp [this.2] at h⟩
  · generalize (FinalizeAndPushWithMessage customMessage w).1 = res at hex ⊢
    have hclean : ∀ (l : List (Proc × CmdResult)),
        (∀ c ∈ l, c.1.isPurge = false ∧ c.1.isPush = false) →
        ∀ c ∈ pre ++ l, c.1.isPurge = false ∧ (c.1.isPush = true → c.2.err ≠ none) := by
      intro l hl c hc
      rcases List.mem_append.mp hc with h | h
      · have := hpre0 pre hpre c h
        exact ⟨this.1, fun h => by simp [this.2] at h⟩
      · have := hl c h
        exact ⟨this.1, fun h => by simp [this.2] at h⟩
    cases hex with
    | backupFailed r e hr =>
      left
      exact ⟨by simp, hclean _ (by simp [Proc.isPurge, Proc.isPush])⟩
    | resetFailed r r1 r2 r3 e hr hr1 =>
      left
      exact ⟨by simp, hclean _ (by simp [Proc.isPurge, Proc.isPush])⟩
    | stopped r r1 tm m ts e hr hr1 hm hs =>
      left
      refine ⟨by simp, hclean _ ?_⟩
      intro c hc
      simp only [List.mem_append, List.mem_cons, List.mem_singleton, List.not_mem_nil,
        or_false] at hc
      rcases hc with ((rfl | rfl) | h) | h
      · simp [Proc.isPurge, Proc.isPush]
      · simp [Proc.isPurge, Proc.isPush]
      · rw [hm.only_date c h]; simp [Proc.isPurge, Proc.isPush]
      · rcases hs.staged_procs c h with h1 | h1 | h1 | ⟨h1, -⟩ <;> rw [h1] <;>
          simp [Proc.isPurge, Proc.isPush]
    | committing r r1 tm m ts tc res hr hr1 hm hs hc =>
      have hhead : ∀ c ∈ [(Proc.branchCreate (backupBranchName w), r),
          (Proc.resetSoft base, r1)] ++ tm ++ ts, c.1.isPurge = false ∧ c.1.isPush = false := by
        intro c hc
        simp only [List.mem_append, List.mem_cons, List.mem_singleton, List.not_mem_nil,
          or_false] at hc
        rcases hc with ((rfl | rfl) | h) | h
        · simp [Proc.isPurge, Proc.isPush]
        · simp [Proc.isPurge, Proc.isPush]
        · rw [hm.only_date c h]; simp [Proc.isPurge, Proc.isPush]
        · rcases hs.staged_procs c h with h1 | h1 | h1 | ⟨h1, -⟩ <;> rw [h1] <;>
            simp [Proc.isPurge, Proc.isPush]
      cases hc with
      | commitFailed rc r2 r3 e hrc =>
        left
        refine ⟨by simp, hclean _ ?_⟩
        intro c hc
        rcases List.mem_append.mp hc with h | h
        · exact hhead c h
        · simp only [List.mem_cons, List.mem_singleton, List.not_mem_nil, or_false] at h
          rcases h with rfl | rfl | rfl <;> simp [Proc.isPurge, Proc.isPush]
      | pushFailed rc ra rp r2 br e hrc hbr hrp =>
        left
        refine ⟨by simp, ?_⟩
        intro c hc
        rw [← List.append_assoc] at hc
        rcases List.mem_append.mp hc with h | h
        · exact hclean _ hhead c h
        · simp only [List.mem_cons, List.mem_singleton, List.not_mem_nil, or_false] at h
          rcases h with rfl | rfl | rfl | rfl <;> simp [Proc.isPurge, Proc.isPush, hrp]
      | pushed rc ra rp r2 r3 r4 br hrc hbr hrp =>
        right
        refine ⟨rfl, pre ++ ([(Proc.branchCreate (backupBranchName w), r),
          (Proc.resetSoft base, r1)] ++ tm ++ ts) ++ [(.commit m, rc),
          (.revParseAbbrevRefHead, ra)], br, rp, r2, r3, r4, by simp, hrp, ?_⟩
        intro c hc
        rcases List.mem_append.mp hc with h | h
        · rcases List.mem_append.mp h with h | h
          · exact hpre0 pre hpre c h
          · exact hhead c h
        · simp only [List.mem_cons, List.mem_singleton, List.not_mem_nil, or_false] at h
          rcases h with rfl | rfl <;> simp [Proc.isPurge, Proc.isPush]
/-- Claim C7: every purge call (`reflog expire`, `gc`) finalize issues comes after a push
call that succeeded; finalize returns no error exactly when its push succeeded, and then
the purge calls it issued are one `reflog expire` followed by one `gc`; on every run that
returns an error no purge call is issued. -/
theorem C7_purge_only_after_successful_push (customMessage : String) (w : World) :
    (∀ (i : Nat) (c : Proc × CmdResult), (issued w (FinalizeAndPushWithMessage customMessage w).2)[i]? = some c →
      c.1.isPurge = true →
      ∃ (j : Nat) (q : Proc × CmdResult), j < i ∧ (issued w (FinalizeAndPushWithMessage customMessage w).2)[j]? = some q ∧
        q.1.isPush = true ∧ q.2.err = none) ∧
    ((FinalizeAndPushWithMessage customMessage w).1 = none ↔
      ∃ q ∈ issued w (FinalizeAndPushWithMessage customMessage w).2,
        q.1.isPush = true ∧ q.2.err = none) ∧
    ((FinalizeAndPushWithMessage customMessage w).1 = none →
      ((issued w (FinalizeAndPushWithMessage customMessage w).2).filter
        (fun c => c.1.isPurge)).map Prod.fst = [.reflogExpire, .gc]) ∧
    ((FinalizeAndPushWithMessage customMessage w).1 ≠ none →
      ∀ c ∈ issued w (FinalizeAndPushWithMessage customMessage w).2, c.1.isPurge = false) := by
  rcases purge_cases customMessage w with ⟨hres, hall⟩ | ⟨hres, A, br, rp, r2, r3, r4, htr, hrp, hA⟩
  · refine ⟨?_, ?_, fun h => absurd h hres, fun _ c hc => (hall c hc).1⟩
    · intro i c hi hp
      have := (hall c (List.getElem?_mem hi)).1
      rw [hp] at this
      simp at this
    · constructor
      · intro h
        exact absurd h hres
      · rintro ⟨q, hq, hp, hok⟩
        exact absurd hok ((hall q hq).2 hp)
  · rw [htr]
    refine ⟨?_, ?_, ?_, fun h => absurd hres h⟩
    · intro i c hi hp
      by_cases hlt : i < A.length
      · rw [List.getElem?_append_left hlt] at hi
        have := (hA c (List.getElem?_mem hi)).1
        rw [hp] at this
        simp at this
      · refine ⟨A.length, (.push br, rp), ?_, ?_, rfl, hrp⟩
        · rcases Nat.lt_or_ge A.length i with h | h
          · exact h
          · have hi0 : i = A.length := by omega
            subst hi0
            rw [List.getElem?_append_right (le_refl _)] at hi
            simp only [Nat.sub_self, List.getElem?_cons_zero, Option.some.injEq] at hi
            subst hi
            simp [Proc.isPurge] at hp
        · rw [List.getElem?_append_right (le_refl _)]
          simp
    · constructor
      · intro _
        exact ⟨(.push br, rp), by simp, rfl, hrp⟩
      · intro _
        exact hres
    · intro _
      rw [List.filter_append]
      have : A.filter (fun c => c.1.isPurge) = [] := by
        rw [List.filter_eq_nil_iff]
        intro c hc
        simp [(hA c hc).1]
      rw [this]
      simp [Proc.isPurge]

/-! ## Claims about the failures of the planner -/

theorem startsWith_append (p s : List Char) : startsWith p (p ++ s) = true := by
  induction p with
  | nil => cases s <;> rfl
  | cons c cs ih => simp [startsWith, ih]

theorem append_ne_of_not_startsWith (p x t : String)
    (h : startsWith p.data t.data = false) : p ++ x ≠ t := by
  intro heq
  subst heq
  rw [String.data_append, startsWith_append] at h
  exact Bool.noConfusion h

/-- The errors of the executor are not the two errors of the planner. -/
theorem ExecShape.not_planner_error {custom base b : String} {ex : List (Proc × CmdResult)}
    {res : Option String} (h : ExecShape custom base b ex res) :
    res ≠ some errNotAtCheckpoint ∧ res ≠ some errNoBase := by
  have key : ∀ (p x : String), startsWith p.data errNotAtCheckpoint.data = false →
      startsWith p.data errNoBase.data = false →
      some (p ++ x) ≠ some errNotAtCheckpoint ∧ some (p ++ x) ≠ some errNoBase := by
    intro p x h1 h2
    constructor
    · intro h
      exact append_ne_of_not_startsWith p x _ h1 (Option.some.inj h)
    · intro h
      exact append_ne_of_not_startsWith p x _ h2 (Option.some.inj h)
  cases h with
  | backupFailed r e hr => exact key _ _ (by decide) (by decide)
  | resetFailed r r1 r2 r3 e hr hr1 => exact key _ _ (by decide) (by decide)
  | stopped r r1 tm m ts e hr hr1 hm hs =>
    cases hs
    exact ⟨by decide, by decide⟩
  | committing r r1 tm m ts tc res hr hr1 hm hs hc =>
    cases hc with
    | commitFailed rc r2 r3 e hrc =>
      simp only [errCommitFailed, String.append_assoc]
      exact key _ _ (by decide) (by decide)
    | pushFailed rc ra rp r2 br e hrc hbr hrp =>
      simp only [errPushFailed, String.append_assoc]
      exact key _ _ (by decide) (by decide)
    | pushed rc ra rp r2 r3 r4 br hrc hbr hrp => simp
/-- Claim C8 as stated fails: in a store with HEAD detached whose current commit is not in
the discovered list, finalize returns the "current commit is not a checkpoint" error after
it has issued `git checkout main`, which moved HEAD. -/
theorem C8_checkout_before_planner_failure :
    (FinalizeAndPushWithMessage "" detachedWorld).1 = some errNotAtCheckpoint ∧
    (∃ c ∈ issued detachedWorld (FinalizeAndPushWithMessage "" detachedWorld).2,
      c.1 = .checkout "main" ∧ c.1.isMutating = true ∧ c.2.err = none) ∧
    detachedWorld.refs.head = .detached "c2" ∧
    (FinalizeAndPushWithMessage "" detachedWorld).2.refs.head = .branch "main" := by
  refine ⟨by decide, by decide, by decide, by decide⟩

/-- What the calls made before the executor leave of the pointers: the remote-tracking
branches, every branch that existed and every branch other than `main` and `master` stay;
without a successful checkout nothing moves; a successful checkout puts HEAD on the branch
checked out, created at the commit of its remote-tracking branch when it was missing. -/
theorem PrefixShape.pointers {tr : List (Proc × CmdResult)} (h : PrefixShape tr)
    (fresh : Nat → String) (r : Refs) (n : Nat) :
    (replay fresh r n tr).remotes = r.remotes ∧
    (∀ b c, r.branches b = some c → (replay fresh r n tr).branches b = some c) ∧
    (∀ b, b ≠ "main" → b ≠ "master" → (replay fresh r n tr).branches b = r.branches b) ∧
    ((∀ c ∈ tr, c.1.isCheckout = true → c.2.err ≠ none) →
      (replay fresh r n tr).head = r.head ∧ (replay fresh r n tr).branches = r.branches) ∧
    (∀ c ∈ tr, ∀ t, c.1 = .checkout t → c.2.err = none →
      (replay fresh r n tr).head =
        (if ((r.branches t).isSome || (r.remotes t).isSome) = true then .branch t
          else .detached t) ∧
      (replay fresh r n tr).branches t =
        (match r.branches t with
          | some v => some v
          | none => r.remotes t)) := by
  rcases h.refs fresh r n with ⟨hno, hX⟩ | ⟨t, ht, honly, ⟨c0, hc0, hc0t, hc0ok⟩, hX⟩
  · rw [hX]
    refine ⟨rfl, fun _ _ hc => hc, fun _ _ _ => rfl, fun _ => ⟨rfl, rfl⟩, ?_⟩
    intro c hc t ht hok
    exact absurd hok (hno c hc (by rw [ht]; rfl))
  · rw [hX]
    obtain ⟨e1, e2, e3, e4, e5, -⟩ := checkout_effect r t ""
    refine ⟨e1, e3, ?_, ?_, ?_⟩
    · intro b hm hms
      have hbt : b ≠ t := by
        rcases ht with rfl | rfl
        · exact hm
        · exact hms
      exact e2 b hbt
    · intro hno
      exact absurd hc0ok (hno c0 hc0 (by rw [hc0t]; rfl))
    · intro c hc t2 ht2 hok
      have := honly c hc t2 ht2 hok
      subst this
      exact ⟨e4, e5⟩

/-- Claim C8, amended: when finalize fails with the "current commit is not a checkpoint"
or the "cannot find base commit" error, the only mutating store commands it has issued are
checkouts of `main` or `master`, and it has issued one only if the branch query succeeded
and printed "HEAD" (the detached-HEAD fix); it has issued no branch creation or deletion,
reset, add, commit, push or purge. No branch that existed has moved, no branch other than
`main` and `master` has changed, and the remote-tracking branches stay; without a
successful checkout HEAD and every branch are where they were, and a successful checkout
leaves HEAD on the branch checked out, created at the commit of its remote-tracking branch
when the store had no such local branch. -/
theorem C8_planner_failure_only_fixes_head (customMessage : String) (w : World)
    (herr : (FinalizeAndPushWithMessage customMessage w).1 = some errNotAtCheckpoint ∨
      (FinalizeAndPushWithMessage customMessage w).1 = some errNoBase) :
    (∀ c ∈ issued w (FinalizeAndPushWithMessage customMessage w).2, c.1.isMutating = true →
      c.1 = .checkout "main" ∨ c.1 = .checkout "master") ∧
    ((∃ c ∈ issued w (FinalizeAndPushWithMessage customMessage w).2, c.1.isMutating = true) →
      ∃ r, (Proc.revParseAbbrevRefHead, r) ∈
          issued w (FinalizeAndPushWithMessage customMessage w).2 ∧
        r.err = none ∧ TrimSpace r.output = "HEAD") ∧
    (FinalizeAndPushWithMessage customMessage w).2.refs.remotes = w.refs.remotes ∧
    (∀ b c, w.refs.branches b = some c →
      (FinalizeAndPushWithMessage customMessage w).2.refs.branches b = some c) ∧
    (∀ b, b ≠ "main" → b ≠ "master" →
      (FinalizeAndPushWithMessage customMessage w).2.refs.branches b = w.refs.branches b) ∧
    ((∀ c ∈ issued w (FinalizeAndPushWithMessage customMessage w).2,
        c.1.isCheckout = true → c.2.err ≠ none) →
      (FinalizeAndPushWithMessage customMessage w).2.refs.head = w.refs.head ∧
      (FinalizeAndPushWithMessage customMessage w).2.refs.branches = w.refs.branches) ∧
    (∀ c ∈ issued w (FinalizeAndPushWithMessage customMessage w).2,
        ∀ t, c.1 = .checkout t → c.2.err = none →
      (FinalizeAndPushWithMessage customMessage w).2.refs.head =
        (if ((w.refs.branches t).isSome || (w.refs.remotes t).isSome) = true then .branch t
          else .detached t) ∧
      (FinalizeAndPushWithMessage customMessage w).2.refs.branches t =
        (match w.refs.branches t with
          | some v => some v
          | none => w.refs.remotes t)) := by
  obtain ⟨tr, htr, hshape⟩ := FinalizeAndPushWithMessage_shape customMessage w
  rw [htr, issued_extend]
  rcases hshape with ⟨hpre, e, he⟩ | ⟨pre, ex, base, rfl, hpre, hex⟩
  · have hmut : ∀ c ∈ tr, c.1.isMutating = true →
        c.1 = .checkout "main" ∨ c.1 = .checkout "master" := by
      intro c hc hm
      have := hpre.allowed c hc
      revert hm this
      cases c.1 <;> simp [Proc.isMutating, Proc.isPrefixProc, Proc.isQuery]
    refine ⟨hmut, ?_, ?_⟩
    · rintro ⟨c, hc, hm⟩
      cases hpre with
      | notRepo r0 =>
        simp only [List.mem_singleton] at hc
        subst hc
        simp [Proc.isMutating] at hm
      | checked r0 fixTr res rest hf hq =>
        have hrest : ∀ x ∈ rest, x.1.isMutating = false := by
          intro x hx
          have := hq x hx
          revert this
          cases x.1 <;> simp [Proc.isQuery, Proc.isMutating]
        cases hf with
        | attached r1 h1 =>
          exfalso
          simp only [List.mem_cons, List.mem_append, List.mem_singleton, List.not_mem_nil,
            or_false] at hc
          rcases hc with rfl | rfl | h
          · simp [Proc.isMutating] at hm
          · simp [Proc.isMutating] at hm
          · simp [hrest c h] at hm
        | toMain r1 r2 h1 h2 h3 => exact ⟨r1, by simp, h1, h2⟩
        | toMaster r1 r2 r3 h1 h2 h3 h4 => exact ⟨r1, by simp, h1, h2⟩
        | stuck r1 r2 r3 e h1 h2 h3 h4 => exact ⟨r1, by simp, h1, h2⟩
    · rw [refs_extend]
      exact hpre.pointers w.freshCommit w.refs w.calls.length
  · exfalso
    have := hex.not_planner_error
    rcases herr with h | h
    · exact this.1 h
    · exact this.2 h

/-- Witness for C8 (amended): the run in the store with HEAD detached, whose branch `main`
exists and stays at `c3` while HEAD moves onto it; and the run in the working copy without
a local branch, where the checkout creates `main` at the commit of `origin/main` before
the no-base error is returned. -/
theorem C8_planner_failure_only_fixes_head_witness :
    ((FinalizeAndPushWithMessage "" detachedWorld).1 = some errNotAtCheckpoint ∨
      (FinalizeAndPushWithMessage "" detachedWorld).1 = some errNoBase) ∧
    (∀ c ∈ issued detachedWorld (FinalizeAndPushWithMessage "" detachedWorld).2,
      c.1.isMutating = true → c.1 = .checkout "main" ∨ c.1 = .checkout "master") ∧
    (FinalizeAndPushWithMessage "" detachedWorld).2.refs.branches "main" = some "c3" ∧
    (FinalizeAndPushWithMessage "" detachedWorld).2.refs.head = .branch "main" ∧
    (FinalizeAndPushWithMessage "" cloneCheckpointsWorld).1 = some errNoBase ∧
    cloneCheckpointsWorld.refs.branches "main" = none ∧
    (FinalizeAndPushWithMessage "" cloneCheckpointsWorld).2.refs.branches "main" =
      some "c2" :=
  ⟨by decide,
    (C8_planner_failure_only_fixes_head "" detachedWorld (by decide)).1,
    (C8_planner_failure_only_fixes_head "" detachedWorld (by decide)).2.2.2.1 "main" "c3"
      (by decide),
    ((C8_planner_failure_only_fixes_head "" detachedWorld (by decide)).2.2.2.2.2.2
      (.checkout "main", succeeded "") (by decide) "main" rfl rfl).1.trans (by decide),
    by decide, by decide,
    ((C8_planner_failure_only_fixes_head "" cloneCheckpointsWorld (by decide)).2.2.2.2.2.2
      (.checkout "main", succeeded "") (by decide) "main" rfl rfl).2.trans (by decide)⟩

/-! ## Claims about the backup branch -/

theorem replay_delete_last (fresh : Nat → String) (R : Refs) (n : Nat)
    (l tail : List (Proc × CmdResult)) (b : String) (r : CmdResult) (hr : r.err = none)
    (htail : ∀ c ∈ tail, c.1.touchesRefs = false) :
    (replay fresh R n (l ++ (.branchDelete b, r) :: tail)).branches b = none := by
  rw [replay_append]
  simp only [replay, hr, Option.isNone_none, if_true]
  rw [replay_untouched _ _ _ tail htail]
  simp [Refs.applyEffect, setBranch]

/-- Every run of finalize in which the creation of the backup succeeded consists of calls
that delete no branch, the creation of the backup, more calls that delete no branch, the
deletion of the backup, and at the end calls that touch no branch pointer. -/
theorem backup_normal_form (customMessage : String) (w : World)
    (hcreated : ∃ c ∈ issued w (FinalizeAndPushWithMessage customMessage w).2,
      c.1 = .branchCreate (backupBranchName w) ∧ c.2.err = none) :
    ∃ A rb M rd tail,
      issued w (FinalizeAndPushWithMessage customMessage w).2 =
        A ++ (.branchCreate (backupBranchName w), rb) ::
          (M ++ (.branchDelete (backupBranchName w), rd) :: tail) ∧
      (∀ c ∈ A, c.1.isBranchDelete = false) ∧ (∀ c ∈ M, c.1.isBranchDelete = false) ∧
      (∀ c ∈ tail, c.1.touchesRefs = false) := by
  obtain ⟨tr, htr, hshape⟩ := FinalizeAndPushWithMessage_shape customMessage w
  rw [htr, issued_extend] at hcreated ⊢
  obtain ⟨cf, hcf, hbc, hok⟩ := hcreated
  have hpre0 : ∀ pre, PrefixShape pre → ∀ c ∈ pre,
      c.1.isBranchDelete = false ∧ c.1 ≠ .branchCreate (backupBranchName w) := by
    intro pre hpre c hc
    have := hpre.allowed c hc
    revert this
    cases c.1 <;> simp [Proc.isBranchDelete, Proc.isPrefixProc, Proc.isQuery]
  have hmsg : ∀ {custom tm m}, MsgShape custom tm m → ∀ c ∈ tm, c.1.isBranchDelete = false := by
    intro custom tm m hm c hc
    rw [hm.only_date c hc]; rfl
  have hst : ∀ {ts}, StagedShape (backupBranchName w) ts none →
      ∀ c ∈ ts, c.1.isBranchDelete = false := by
    intro ts hs c hc
    rcases hs.staged_procs c hc with h1 | h1 | h1 | ⟨-, h1⟩
    · rw [h1]; rfl
    · rw [h1]; rfl
    · rw [h1]; rfl
    · simp at h1
  rcases hshape with ⟨hpre, e, he⟩ | ⟨pre, ex, base, rfl, hpre, hex⟩
  · exact absurd hbc (hpre0 tr hpre cf hcf).2
  · generalize (FinalizeAndPushWithMessage customMessage w).1 = res at hex
    have hA := fun c hc => (hpre0 pre hpre c hc).1
    cases hex with
    | backupFailed r e hr =>
      exfalso
      rcases List.mem_append.mp hcf with h | h
      · exact absurd hbc (hpre0 pre hpre cf h).2
      · simp only [List.mem_singleton] at h
        subst h
        simp [hr] at hok
    | resetFailed r r1 r2 r3 e hr hr1 =>
      exact ⟨pre, r, [(.resetSoft base, r1), (.resetHard (backupBranchName w), r2)], r3, [],
        by simp, hA, by simp [Proc.isBranchDelete], by simp⟩
    | stopped r r1 tm m ts e hr hr1 hm hs =>
      cases hs with
      | nothing rd r1d r2d h1 h2 h3 =>
        refine ⟨pre, r, (.resetSoft base, r1) :: (tm ++ [(.diffCached, rd),
          (.statusPorcelain, r1d)]), r2d, [], by simp, hA, ?_, by simp⟩
        intro c hc
        simp only [List.mem_cons, List.mem_append, List.mem_singleton, List.not_mem_nil,
          or_false] at hc
        rcases hc with rfl | h | rfl | rfl
        · rfl
        · exact hmsg hm c h
        · rfl
        · rfl
    | committing r r1 tm m ts tc res hr hr1 hm hs hc =>
      have hmid : ∀ c ∈ (Proc.resetSoft base, r1) :: (tm ++ ts),
          c.1.isBranchDelete = false := by
        intro c hc
        simp only [List.mem_cons, List.mem_append] at hc
        rcases hc with rfl | h | h
        · rfl
        · exact hmsg hm c h
        · exact hst hs c h
      cases hc with
      | commitFailed rc r2 r3 e hrc =>
        refine ⟨pre, r, (.resetSoft base, r1) :: (tm ++ ts) ++ [(.commit m, rc),
          (.resetHard (backupBranchName w), r2)], r3, [], by simp, hA, ?_, by simp⟩
        intro c hc
        rcases List.mem_append.mp hc with h | h
        · exact hmid c h
        · simp only [List.mem_cons, List.mem_singleton, List.not_mem_nil, or_false] at h
          rcases h with rfl | rfl <;> rfl
      | pushFailed rc ra rp r2 br e hrc hbr hrp =>
        refine ⟨pre, r, (.resetSoft base, r1) :: (tm ++ ts) ++ [(.commit m, rc),
          (.revParseAbbrevRefHead, ra), (.push br, rp)], r2, [], by simp, hA, ?_, by simp⟩
        intro c hc
        rcases List.mem_append.mp hc with h | h
        · exact hmid c h
        · simp only [List.mem_cons, List.mem_singleton, List.not_mem_nil, or_false] at h
          rcases h with rfl | rfl | rfl <;> rfl
      | pushed rc ra rp r2 r3 r4 br hrc hbr hrp =>
        refine ⟨pre, r, (.resetSoft base, r1) :: (tm ++ ts) ++ [(.commit m, rc),
          (.revParseAbbrevRefHead, ra), (.push br, rp)], r2,
          [(.reflogExpire, r3), (.gc, r4)], by simp, hA, ?_, by simp [Proc.touchesRefs]⟩
        intro c hc
        rcases List.mem_append.mp hc with h | h
        · exact hmid c h
        · simp only [List.mem_cons, List.mem_singleton, List.not_mem_nil, or_false] at h
          rcases h with rfl | rfl | rfl <;> rfl

/-- Claim C9: on every run in which the backup branch was created, finalize issues exactly
one branch deletion, that of the backup, after the creation; and when that deletion
succeeds no backup branch remains when finalize returns. -/
theorem C9_backup_deleted_exactly_once (customMessage : String) (w : World)
    (hcreated : ∃ c ∈ issued w (FinalizeAndPushWithMessage customMessage w).2,
      c.1 = .branchCreate (backupBranchName w) ∧ c.2.err = none) :
    ((issued w (FinalizeAndPushWithMessage customMessage w).2).filter
        (fun c => c.1.isBranchDelete)).map Prod.fst = [.branchDelete (backupBranchName w)] ∧
    (∃ (i j : Nat) (rb rd : CmdResult), i < j ∧
      (issued w (FinalizeAndPushWithMessage customMessage w).2)[i]? =
        some (.branchCreate (backupBranchName w), rb) ∧
      (issued w (FinalizeAndPushWithMessage customMessage w).2)[j]? =
        some (.branchDelete (backupBranchName w), rd)) ∧
    ((∀ c ∈ issued w (FinalizeAndPushWithMessage customMessage w).2,
        c.1.isBranchDelete = true → c.2.err = none) →
      (FinalizeAndPushWithMessage customMessage w).2.refs.branches (backupBranchName w) = none) := by
  obtain ⟨A, rb, M, rd, tail, htr, hA, hM, htail⟩ := backup_normal_form customMessage w hcreated
  have hw : (FinalizeAndPushWithMessage customMessage w).2 =
      w.extend (issued w (FinalizeAndPushWithMessage customMessage w).2) := by
    obtain ⟨tr, htr2, -⟩ := FinalizeAndPushWithMessage_shape customMessage w
    rw [htr2, issued_extend]
  have htaild : ∀ c ∈ tail, c.1.isBranchDelete = false := by
    intro c hc
    have := htail c hc
    revert this
    cases c.1 <;> simp [Proc.touchesRefs, Proc.isBranchDelete]
  have hnil : ∀ l : List (Proc × CmdResult), (∀ c ∈ l, c.1.isBranchDelete = false) →
      l.filter (fun c => c.1.isBranchDelete) = [] := by
    intro l hl
    rw [List.filter_eq_nil_iff]
    intro c hc
    simp [hl c hc]
  refine ⟨?_, ?_, ?_⟩
  · rw [htr]
    have e1 : (Proc.branchCreate (backupBranchName w)).isBranchDelete = false := rfl
    have e2 : (Proc.branchDelete (backupBranchName w)).isBranchDelete = true := rfl
    simp only [List.filter_append, List.filter_cons, hnil A hA, hnil M hM, hnil tail htaild,
      e1, e2, List.nil_append, if_true, Bool.false_eq_true, if_false, List.map_cons,
      List.map_nil]
  · refine ⟨A.length, A.length + 1 + M.length, rb, rd, by omega, ?_, ?_⟩
    · rw [htr, List.getElem?_append_right (le_refl _)]
      simp
    · rw [htr, List.getElem?_append_right (by omega)]
      have : A.length + 1 + M.length - A.length = M.length + 1 := by omega
      rw [this, List.getElem?_cons_succ, List.getElem?_append_right (le_refl _)]
      simp
  · intro hdel
    have hrd : rd.err = none := by
      apply hdel (.branchDelete (backupBranchName w), rd)
      · rw [htr]; simp
      · rfl
    rw [hw, refs_extend, htr]
    have : A ++ (Proc.branchCreate (backupBranchName w), rb) ::
        (M ++ (Proc.branchDelete (backupBranchName w), rd) :: tail) =
        (A ++ (Proc.branchCreate (backupBranchName w), rb) :: M) ++
          (Proc.branchDelete (backupBranchName w), rd) :: tail := by simp
    rw [this]
    exact replay_delete_last _ _ _ _ tail _ rd hrd htail

/-- Witness for C9: the successful run in the example store. -/
theorem C9_backup_deleted_exactly_once_witness :
    (∃ c ∈ issued exampleWorld (FinalizeAndPushWithMessage "" exampleWorld).2,
      c.1 = .branchCreate (backupBranchName exampleWorld) ∧ c.2.err = none) ∧
    ((issued exampleWorld (FinalizeAndPushWithMessage "" exampleWorld).2).filter
        (fun c => c.1.isBranchDelete)).map Prod.fst =
      [.branchDelete (backupBranchName exampleWorld)] ∧
    (FinalizeAndPushWithMessage "" exampleWorld).2.refs.branches
      (backupBranchName exampleWorld) = none :=
  ⟨by decide, (C9_backup_deleted_exactly_once "" exampleWorld (by decide)).1,
    (C9_backup_deleted_exactly_once "" exampleWorld (by decide)).2.2 (by decide)⟩

/-! ## Claims about the outcome with nothing to commit -/

theorem CommitShape.no_status {b m : String} {tc : List (Proc × CmdResult)}
    {res : Option String} (h : CommitShape b m tc res) :
    ∀ c ∈ tc, c.1 ≠ .diffCached ∧ c.1 ≠ .statusPorcelain ∧ c.1.isMutating = true ∨
      c.1 = .revParseAbbrevRefHead := by
  cases h <;> simp [Proc.isMutating]

set_option maxRecDepth 20000 in
/-- Claim C10 as stated fails: with nothing staged and a clean working tree after the soft
reset, finalize returns a non-nil error, and the handler shows it as an error. -/
theorem C10_nothing_to_commit_is_an_error :
    (∃ c ∈ issued nothingStagedWorld (FinalizeAndPushWithMessage "" nothingStagedWorld).2,
      c.1 = .diffCached ∧ c.2.err = none ∧ c.2.isBlank = true) ∧
    (∃ c ∈ issued nothingStagedWorld (FinalizeAndPushWithMessage "" nothingStagedWorld).2,
      c.1 = .statusPorcelain ∧ c.2.isBlank = true) ∧
    (FinalizeAndPushWithMessage "" nothingStagedWorld).1 = some errNothingToCommit ∧
    (finalizeAndPushWithMessage "" nothingStagedWorld).1.IsError = true ∧
    (finalizeAndPushWithMessage "" nothingStagedWorld).1.Content =
      "Error during finalize and push: " ++ errNothingToCommit := by
  refine ⟨by decide, by decide, by decide, by decide, by decide⟩

/-- Claim C10, amended: when after the soft reset the staged diff is blank and the status
of the working tree is blank, finalize deletes the backup as its last call, issues no
commit, push or purge, and returns the "no changes to commit after squashing checkpoints"
error: an outcome distinct from success, which the handler reports as an error. -/
theorem C10_nothing_to_commit_outcome (customMessage : String) (w : World)
    (hdiff : ∃ c ∈ issued w (FinalizeAndPushWithMessage customMessage w).2,
      c.1 = .diffCached ∧ c.2.err = none ∧ c.2.isBlank = true)
    (hstatus : ∃ c ∈ issued w (FinalizeAndPushWithMessage customMessage w).2,
      c.1 = .statusPorcelain ∧ c.2.isBlank = true) :
    (FinalizeAndPushWithMessage customMessage w).1 = some errNothingToCommit ∧
    (FinalizeAndPushWithMessage customMessage w).1 ≠ none ∧
    (∃ before r, issued w (FinalizeAndPushWithMessage customMessage w).2 =
      before ++ [(.branchDelete (backupBranchName w), r)] ∧
      ∀ c ∈ before, c.1.isSquashStep = true ∨ c.1.isPush = true ∨ c.1.isPurge = true →
        ∃ rev, c.1 = .resetSoft rev) ∧
    (finalizeAndPushWithMessage customMessage w).1 =
      { Content := "Error during finalize and push: " ++ errNothingToCommit, IsError := true } := by
  have hmain : (FinalizeAndPushWithMessage customMessage w).1 = some errNothingToCommit ∧
      ∃ before r, issued w (FinalizeAndPushWithMessage customMessage w).2 =
        before ++ [(.branchDelete (backupBranchName w), r)] ∧
        ∀ c ∈ before, c.1.isSquashStep = true ∨ c.1.isPush = true ∨ c.1.isPurge = true →
          ∃ rev, c.1 = .resetSoft rev := by
    obtain ⟨tr, htr, hshape⟩ := FinalizeAndPushWithMessage_shape customMessage w
    rw [htr, issued_extend] at hdiff hstatus ⊢
    obtain ⟨cd, hcd, hd1, hd2, hd3⟩ := hdiff
    obtain ⟨cs, hcs, hs1, hs2⟩ := hstatus
    have hpre0 : ∀ pre, PrefixShape pre → ∀ c ∈ pre, c.1 ≠ .diffCached ∧
        c.1 ≠ .statusPorcelain ∧ c.1.isSquashStep = false ∧ c.1.isPush = false ∧
        c.1.isPurge = false := by
      intro pre hpre c hc
      have := hpre.allowed c hc
      revert this
      cases c.1 <;> simp [Proc.isPrefixProc, Proc.isQuery, Proc.isSquashStep, Proc.isPush,
        Proc.isPurge]
    rcases hshape with ⟨hpre, e, he⟩ | ⟨pre, ex, base, rfl, hpre, hex⟩
    · exact absurd hd1 (hpre0 tr hpre cd hcd).1
    · generalize (FinalizeAndPushWithMessage customMessage w).1 = res at hex ⊢
      have hcd2 : cd ∈ ex := by
        rcases List.mem_append.mp hcd with h | h
        · exact absurd hd1 (hpre0 pre hpre cd h).1
        · exact h
      have hcs2 : cs ∈ ex := by
        rcases List.mem_append.mp hcs with h | h
        · exact absurd hs1 (hpre0 pre hpre cs h).2.1
        · exact h
      cases hex with
      | backupFailed r e hr =>
        simp only [List.mem_singleton] at hcd2
        subst hcd2
        simp at hd1
      | resetFailed r r1 r2 r3 e hr hr1 =>
        simp only [List.mem_cons, List.mem_singleton, List.not_mem_nil, or_false] at hcd2
        rcases hcd2 with rfl | rfl | rfl | rfl <;> simp at hd1
      | stopped r r1 tm m ts e hr hr1 hm hs =>
        cases hs with
        | nothing rd r1d r2d h1 h2 h3 =>
          refine ⟨rfl, pre ++ ([(.branchCreate (backupBranchName w), r),
            (.resetSoft base, r1)] ++ tm ++ [(.diffCached, rd), (.statusPorcelain, r1d)]),
            r2d, by simp, ?_⟩
          intro c hc hbad
          simp only [List.mem_append, List.mem_cons, List.mem_singleton, List.not_mem_nil,
            or_false] at hc
          rcases hc with h | ((rfl | rfl) | h) | rfl | rfl
          · have := hpre0 pre hpre c h
            simp [this.2.2.1, this.2.2.2.1, this.2.2.2.2] at hbad
          · simp [Proc.isSquashStep, Proc.isPush, Proc.isPurge] at hbad
          · exact ⟨base, rfl⟩
          · rw [hm.only_date c h] at hbad
            simp [Proc.isSquashStep, Proc.isPush, Proc.isPurge] at hbad
          · simp [Proc.isSquashStep, Proc.isPush, Proc.isPurge] at hbad
          · simp [Proc.isSquashStep, Proc.isPush, Proc.isPurge] at hbad
      | committing r r1 tm m ts tc res hr hr1 hm hs hc =>
        exfalso
        have hin : ∀ c ∈ [(Proc.branchCreate (backupBranchName w), r),
            (Proc.resetSoft base, r1)] ++ tm ++ ts ++ tc,
            c.1 = .diffCached ∨ c.1 = .statusPorcelain → c ∈ ts := by
          intro c hc0 hk
          simp only [List.mem_append, List.mem_cons, List.mem_singleton, List.not_mem_nil,
            or_false] at hc0
          rcases hc0 with (((rfl | rfl) | h) | h) | h
          · simp at hk
          · simp at hk
          · rw [hm.only_date c h] at hk
            simp at hk
          · exact h
          · rcases hc.no_status c h with ⟨h1, h2, -⟩ | h1
            · rcases hk with hk | hk
              · exact absurd hk h1
              · exact absurd hk h2
            · rw [h1] at hk
              simp at hk
        have hcd3 := hin cd hcd2 (Or.inl hd1)
        have hcs3 := hin cs hcs2 (Or.inr hs1)
        cases hs with
        | diffFailed rd hrd =>
          simp only [List.mem_singleton] at hcd3
          subst hcd3
          exact hrd hd2
        | staged rd hrd hb =>
          simp only [List.mem_singleton] at hcd3
          subst hcd3
          simp [hb] at hd3
        | unstaged rd r1d r2d h1 h2 h3 =>
          simp only [List.mem_cons, List.mem_singleton, List.not_mem_nil, or_false] at hcs3
          rcases hcs3 with rfl | rfl | rfl
          · simp at hs1
          · simp [h3] at hs2
          · simp at hs1
  refine ⟨hmain.1, by simp [hmain.1], hmain.2, ?_⟩
  unfold finalizeAndPushWithMessage
  have h1 := hmain.1
  generalize FinalizeAndPushWithMessage customMessage w = p at h1 ⊢
  obtain ⟨res, w1⟩ := p
  simp only at h1
  subst h1
  rfl

/-- Witness for C10 (amended): the run in the store with nothing to commit. -/
theorem C10_nothing_to_commit_outcome_witness :
    (∃ c ∈ issued nothingStagedWorld (FinalizeAndPushWithMessage "" nothingStagedWorld).2,
      c.1 = .diffCached ∧ c.2.err = none ∧ c.2.isBlank = true) ∧
    (∃ c ∈ issued nothingStagedWorld (FinalizeAndPushWithMessage "" nothingStagedWorld).2,
      c.1 = .statusPorcelain ∧ c.2.isBlank = true) ∧
    (FinalizeAndPushWithMessage "" nothingStagedWorld).1 = some errNothingToCommit ∧
    (finalizeAndPushWithMessage "" nothingStagedWorld).1 =
      { Content := "Error during finalize and push: " ++ errNothingToCommit, IsError := true } :=
  ⟨by decide, by decide,
    (C10_nothing_to_commit_outcome "" nothingStagedWorld (by decide) (by decide)).1,
    (C10_nothing_to_commit_outcome "" nothingStagedWorld (by decide) (by decide)).2.2.2⟩

/-! ## Claims about the checkpoint lifecycle -/

theorem IsRepo_snd (w : World) :
    (IsRepo w).2 = w.extend [(.revParseGitDir, w.respond w.calls.length .revParseGitDir)] := rfl

theorem RunCommand_snd (p : Proc) (w : World) :
    (RunCommand p w).2 = w.extend [(p, w.respond w.calls.length p)] := rfl

theorem CreateCheckpoint_notRepo (customNote : String) (w : World)
    (h : (IsRepo w).1 = false) :
    CreateCheckpoint customNote w = (some errNotARepository, (IsRepo w).2) := by
  unfold CreateCheckpoint
  generalize IsRepo w = p at h ⊢
  obtain ⟨b, w1⟩ := p
  simp only at h
  subst h
  rfl

theorem CreateCheckpoint_clean (customNote : String) (w : World)
    (h : (IsRepo w).1 = true)
    (hs : (RunCommand .statusPorcelain (IsRepo w).2).1 = ("", none)) :
    CreateCheckpoint customNote w =
      (some errNothingToCheckpoint, (RunCommand .statusPorcelain (IsRepo w).2).2) := by
  unfold CreateCheckpoint
  generalize IsRepo w = p at h hs ⊢
  obtain ⟨b, w1⟩ := p
  simp only at h hs
  subst h
  dsimp only
  generalize RunCommand .statusPorcelain w1 = q at hs ⊢
  obtain ⟨⟨s, e⟩, w2⟩ := q
  simp only [Prod.mk.injEq] at hs
  obtain ⟨rfl, rfl⟩ := hs
  simp

/-- Claim C19: for every note, outside a repository `CreateCheckpoint` returns the
"not in a Git repository" error after the repository check alone, without querying the
status; in a repository whose status query succeeds and prints nothing it returns the
"no changes to checkpoint" error after the repository check and the status query alone,
so that no staging and no commit command is issued and no branch pointer moves. -/
theorem C19_clean_tree_is_not_checkpointed (customNote : String) (w : World) :
    ((IsRepo w).1 = false →
      (CreateCheckpoint customNote w).1 = some errNotARepository ∧
      (issued w (CreateCheckpoint customNote w).2).map Prod.fst = [.revParseGitDir]) ∧
    ((IsRepo w).1 = true → (RunCommand .statusPorcelain (IsRepo w).2).1 = ("", none) →
      (CreateCheckpoint customNote w).1 = some errNothingToCheckpoint ∧
      (issued w (CreateCheckpoint customNote w).2).map Prod.fst =
        [.revParseGitDir, .statusPorcelain] ∧
      (∀ c ∈ issued w (CreateCheckpoint customNote w).2, c.1.isMutating = false) ∧
      (CreateCheckpoint customNote w).2.refs = w.refs) := by
  constructor
  · intro h
    rw [CreateCheckpoint_notRepo customNote w h, IsRepo_snd, issued_extend]
    exact ⟨rfl, rfl⟩
  · intro h hs
    rw [CreateCheckpoint_clean customNote w h hs, RunCommand_snd, IsRepo_snd, extend_extend,
      issued_extend, refs_extend]
    refine ⟨rfl, rfl, ?_, ?_⟩
    · simp [Proc.isMutating]
    · exact replay_untouched _ _ _ _ (by simp [Proc.touchesRefs])

/-- Witness for C19: outside a repository, and in the example store, whose working tree is
clean. -/
theorem C19_clean_tree_is_not_checkpointed_witness :
    (IsRepo notRepoWorld).1 = false ∧
    (CreateCheckpoint "note" notRepoWorld).1 = some errNotARepository ∧
    (IsRepo exampleWorld).1 = true ∧
    (RunCommand .statusPorcelain (IsRepo exampleWorld).2).1 = ("", none) ∧
    (CreateCheckpoint "" exampleWorld).1 = some errNothingToCheckpoint ∧
    (issued exampleWorld (CreateCheckpoint "" exampleWorld).2).map Prod.fst =
      [.revParseGitDir, .statusPorcelain] :=
  ⟨by decide,
    ((C19_clean_tree_is_not_checkpointed "note" notRepoWorld).1 (by decide)).1,
    by decide, by decide,
    ((C19_clean_tree_is_not_checkpointed "" exampleWorld).2 (by decide) (by decide)).1,
    ((C19_clean_tree_is_not_checkpointed "" exampleWorld).2 (by decide) (by decide)).2.1⟩

theorem SwitchToCheckpoint_already (hash : String) (w : World)
    (h : (IsRepo w).1 = true) (hat : (GetCurrentCommit (IsRepo w).2).1 = (hash, none)) :
    SwitchToCheckpoint hash w =
      (some (errAlreadyAtTarget hash), (GetCurrentCommit (IsRepo w).2).2) := by
  unfold SwitchToCheckpoint
  generalize IsRepo w = p at h hat ⊢
  obtain ⟨b, w1⟩ := p
  simp only at h hat
  subst h
  dsimp only
  generalize GetCurrentCommit w1 = q at hat ⊢
  obtain ⟨⟨s, e⟩, w2⟩ := q
  simp only [Prod.mk.injEq] at hat
  obtain ⟨rfl, rfl⟩ := hat
  simp

/-- Claim C20: in a repository whose current position (`git rev-parse --short HEAD`) is
`id`, `SwitchToCheckpoint id` returns the "you are already on checkpoint" error after the
repository check and the position query alone: no checkout and no other mutating command
is issued, and no branch pointer moves. -/
theorem C20_switch_to_current_is_refused (hash : String) (w : World)
    (hrepo : (IsRepo w).1 = true)
    (hat : (GetCurrentCommit (IsRepo w).2).1 = (hash, none)) :
    (SwitchToCheckpoint hash w).1 = some ("you are already on checkpoint " ++ hash) ∧
    (issued w (SwitchToCheckpoint hash w).2).map Prod.fst =
      [.revParseGitDir, .revParseShortHead] ∧
    (∀ c ∈ issued w (SwitchToCheckpoint hash w).2,
      c.1.isMutating = false ∧ c.1.isCheckout = false) ∧
    (SwitchToCheckpoint hash w).2.refs = w.refs := by
  rw [SwitchToCheckpoint_already hash w hrepo hat]
  unfold GetCurrentCommit
  rw [RunCommand_snd, IsRepo_snd, extend_extend, issued_extend, refs_extend]
  refine ⟨rfl, rfl, ?_, ?_⟩
  · simp [Proc.isMutating, Proc.isCheckout]
  · exact replay_untouched _ _ _ _ (by simp [Proc.touchesRefs])

/-- Witness for C20: in the example store HEAD is at `c3`. -/
theorem C20_switch_to_current_is_refused_witness :
    (IsRepo exampleWorld).1 = true ∧
    (GetCurrentCommit (IsRepo exampleWorld).2).1 = ("c3", none) ∧
    (SwitchToCheckpoint "c3" exampleWorld).1 = some "you are already on checkpoint c3" ∧
    (issued exampleWorld (SwitchToCheckpoint "c3" exampleWorld).2).map Prod.fst =
      [.revParseGitDir, .revParseShortHead] :=
  ⟨by decide, by decide,
    (C20_switch_to_current_is_refused "c3" exampleWorld (by decide) (by decide)).1,
    (C20_switch_to_current_is_refused "c3" exampleWorld (by decide) (by decide)).2.1⟩

/-! ## Claims about `HasCheckpoints` -/

theorem countP_pos_iff_tagged (cps : List Checkpoint) :
    decide (cps.countP (fun cp => Contains cp.Message checkpointTag) > 0) = true ↔
      ∃ cp ∈ cps, cp.isTagged = true := by
  simp [List.countP_pos_iff, Checkpoint.isTagged]

/-- Claim C18: `HasCheckpoints` returns true exactly when discovery succeeds and the
discovered list has an entry tagged "CHECKPOINT:"; it returns false for the empty list,
for a list holding one untagged entry (the sentinel) only, and when discovery fails. -/
theorem C18_has_checkpoints_counts_tagged (w : World) :
    ((HasCheckpoints w).1 = true ↔
      ∃ cps, (GetCheckpointsFromReflog w).1 = .ok cps ∧ ∃ cp ∈ cps, cp.isTagged = true) ∧
    ((GetCheckpointsFromReflog w).1 = .ok [] → (HasCheckpoints w).1 = false) ∧
    (∀ c, c.isTagged = false → (GetCheckpointsFromReflog w).1 = .ok [c] →
      (HasCheckpoints w).1 = false) ∧
    (∀ e, (GetCheckpointsFromReflog w).1 = .error e → (HasCheckpoints w).1 = false) := by
  unfold HasCheckpoints
  generalize GetCheckpointsFromReflog w = p
  obtain ⟨res, w1⟩ := p
  cases res with
  | error e => simp
  | ok cps =>
    simp only [countP_pos_iff_tagged, Except.ok.injEq, exists_eq_left', true_and]
    refine ⟨?_, ?_, ?_⟩
    · rintro rfl
      simp
    · rintro c hc rfl
      simpa [Checkpoint.isTagged] using hc
    · intro e h
      cases h

/-- Witness for C18: the example store has tagged entries; the store with an empty event
log discovers the sentinel only. -/
theorem C18_has_checkpoints_counts_tagged_witness :
    (HasCheckpoints exampleWorld).1 = true ∧
    (GetCheckpointsFromReflog detachedWorld).1 = .ok [⟨"b0", "[LAST COMMIT] init"⟩] ∧
    (HasCheckpoints detachedWorld).1 = false ∧
    (GetCheckpointsFromReflog expiredLogWorld).1 = .ok [] ∧
    (HasCheckpoints expiredLogWorld).1 = false :=
  ⟨(C18_has_checkpoints_counts_tagged exampleWorld).1.2
      ⟨[⟨"c3", "CHECKPOINT: three"⟩, ⟨"c2", "CHECKPOINT: two"⟩, ⟨"c1", "CHECKPOINT: one"⟩,
          ⟨"b0", "[LAST COMMIT] init"⟩], rfl, ⟨"c3", "CHECKPOINT: three"⟩, by simp, by decide⟩,
    rfl,
    (C18_has_checkpoints_counts_tagged detachedWorld).2.2.1 ⟨"b0", "[LAST COMMIT] init"⟩
      (by decide) rfl,
    rfl,
    (C18_has_checkpoints_counts_tagged expiredLogWorld).2.1 rfl⟩

/-! ## Claims about the current commit and the list -/

theorem findCurrentIndex_eq_none (cps : List Checkpoint) (cur : String) :
    findCurrentIndex cps cur = none ↔ ∀ cp ∈ cps, cp.Hash ≠ cur := by
  induction cps with
  | nil => simp [findCurrentIndex]
  | cons c cs ih =>
    unfold findCurrentIndex
    by_cases hc : c.Hash = cur
    · simp [hc]
    · simp [hc, ih]

theorem findBase_error (cps : List Checkpoint) (j : Nat) (w : World) (e : String)
    (w1 : World) (h : findBase cps j w = (.error e, w1)) :
    ∃ e1, e = "error getting commit history: " ++ e1 := by
  unfold findBase at h
  split at h
  · simp at h
  · split at h
    · simp only [Prod.mk.injEq, Except.error.injEq] at h
      exact ⟨_, h.1.symm⟩
    · simp at h

/-- Counterexample for C12: in the store whose event log is empty and whose history holds
checkpoints only, the discovered list is empty, the current commit `c2` does not appear in
it, and the planner fails with "no checkpoints found", not with the not-at-checkpoint
error. -/
theorem C12_empty_list_fails_otherwise :
    (GetCheckpointsFromReflog
      (GetCurrentCommit (fixDetachedHead (IsRepo expiredLogWorld).2).2).2).1 = .ok [] ∧
    (∀ cp ∈ ([] : List Checkpoint), cp.Hash ≠ "c2") ∧
    (planSquash [] "c2" expiredLogWorld).1 = .error "no checkpoints found" ∧
    (FinalizeAndPushWithMessage "" expiredLogWorld).1 = some "no checkpoints found" ∧
    (FinalizeAndPushWithMessage "" expiredLogWorld).1 ≠ some errNotAtCheckpoint := by
  refine ⟨rfl, by simp, rfl, by decide, by decide⟩

/-- Claim C12, amended: for every non-empty list and every current commit id that does
not appear in it the planner fails with the not-at-checkpoint error, without running any
process; for the empty list it fails with "no checkpoints found" instead; and when the id
appears in the list the planner does not fail with the not-at-checkpoint error. -/
theorem C12_absent_current_commit (checkpoints : List Checkpoint) (currentCommit : String)
    (w : World) :
    (checkpoints ≠ [] → (∀ cp ∈ checkpoints, cp.Hash ≠ currentCommit) →
      planSquash checkpoints currentCommit w = (.error errNotAtCheckpoint, w)) ∧
    (checkpoints = [] →
      planSquash checkpoints currentCommit w = (.error "no checkpoints found", w)) ∧
    ((∃ cp ∈ checkpoints, cp.Hash = currentCommit) →
      (planSquash checkpoints currentCommit w).1 ≠ .error errNotAtCheckpoint) := by
  refine ⟨?_, ?_, ?_⟩
  · intro hne habs
    have hlen : checkpoints.length ≠ 0 := by
      simpa [List.length_eq_zero] using hne
    simp [planSquash, hlen, (findCurrentIndex_eq_none checkpoints currentCommit).2 habs]
  · rintro rfl
    simp [planSquash]
  · rintro ⟨cp, hmem, hcp⟩
    have hlen : checkpoints.length ≠ 0 := by
      intro h0
      rw [List.length_eq_zero] at h0
      subst h0
      cases hmem
    cases hidx : findCurrentIndex checkpoints currentCommit with
    | none => exact absurd hcp ((findCurrentIndex_eq_none _ _).1 hidx cp hmem)
    | some i =>
      unfold planSquash
      simp only [hlen, if_false, hidx]
      have herr := findBase_error checkpoints
        (i + (consecutiveCheckpoints checkpoints i).length) w
      generalize findBase checkpoints (i + (consecutiveCheckpoints checkpoints i).length) w = fb
        at herr
      obtain ⟨res, w1⟩ := fb
      cases res with
      | error e =>
        intro h
        obtain ⟨e1, rfl⟩ := herr e w1 rfl
        exact append_ne_of_not_startsWith _ e1 _ (by decide) (Except.error.inj h)
      | ok base =>
        dsimp only
        split
        · intro h
          exact absurd (Except.error.inj h) (by decide)
        · intro h
          cases h

/-- Witness for C12: in the list of the first scenario the id `X` is absent and the id
`C3` is present. -/
theorem C12_absent_current_commit_witness :
    scenarioList ≠ [] ∧ (∀ cp ∈ scenarioList, cp.Hash ≠ "X") ∧
    (planSquash scenarioList "X" exampleWorld).1 = .error errNotAtCheckpoint ∧
    (planSquash [] "X" exampleWorld).1 = .error "no checkpoints found" ∧
    (∃ cp ∈ scenarioList, cp.Hash = "C3") ∧
    (planSquash scenarioList "C3" exampleWorld).1 ≠ .error errNotAtCheckpoint :=
  ⟨by decide, by decide,
    congrArg Prod.fst
      ((C12_absent_current_commit scenarioList "X" exampleWorld).1 (by decide) (by decide)),
    congrArg Prod.fst ((C12_absent_current_commit [] "X" exampleWorld).2.1 rfl),
    by decide,
    (C12_absent_current_commit scenarioList "C3" exampleWorld).2.2 (by decide)⟩

/-! ## Lines of a log -/

theorem cutAt_append (sep : Char) (a b : List Char) (h : sep ∉ a) :
    cutAt sep (a ++ sep :: b) = some (a, b) := by
  induction a with
  | nil => simp [cutAt]
  | cons c cs ih =>
    simp only [List.mem_cons, not_or] at h
    have hc : c ≠ sep := fun h1 => h.1 h1.symm
    simp [cutAt, hc, ih h.2]

theorem SplitN2_eq_pair (line hash message : String) :
    SplitN2 line = [hash, message] ↔
      line = hash ++ " " ++ message ∧ ' ' ∉ hash.data := by
  unfold SplitN2
  constructor
  · intro h
    cases hc : cutAt ' ' line.data with
    | none => simp [hc] at h
    | some p =>
      obtain ⟨a, b⟩ := p
      simp only [hc, List.cons.injEq, and_true] at h
      obtain ⟨rfl, rfl⟩ := h
      obtain ⟨h1, h2⟩ := cutAt_some _ _ _ _ hc
      refine ⟨?_, h2⟩
      apply String.ext
      simp [h1]
  · rintro ⟨rfl, h2⟩
    have : (hash ++ " " ++ message).data = hash.data ++ ' ' :: message.data := by
      simp [String.data_append]
    rw [this, cutAt_append _ _ _ h2]

theorem parseLine_eq_some (raw : String) (cp : Checkpoint) :
    parseLine raw = some cp ↔
      TrimSpace raw = cp.Hash ++ " " ++ cp.Message ∧ ' ' ∉ cp.Hash.data := by
  obtain ⟨hash, message⟩ := cp
  unfold parseLine
  dsimp only
  constructor
  · intro h
    split at h
    · cases h
    · split at h
      · rename_i h1 m1 heq
        simp only [Option.some.injEq, Checkpoint.mk.injEq] at h
        obtain ⟨rfl, rfl⟩ := h
        exact (SplitN2_eq_pair _ _ _).1 heq
      · cases h
  · rintro ⟨h1, h2⟩
    have hsplit := (SplitN2_eq_pair _ _ _).2 ⟨h1, h2⟩
    have hne : TrimSpace raw ≠ "" := by
      rw [h1]
      intro h
      have := congrArg String.data h
      simp [String.data_append] at this
    simp [hne, hsplit]

theorem reflogStep_eq (st : List Checkpoint × List String) (raw : String) :
    reflogStep st raw =
      match parseLine raw with
      | none => st
      | some cp =>
        if cp.isTagged && !st.2.contains cp.Hash then (st.1 ++ [cp], cp.Hash :: st.2)
        else st := by
  unfold reflogStep parseLine
  dsimp only
  split
  · rfl
  · split <;> rfl

theorem firstNonCheckpoint_eq (lines : List String) :
    firstNonCheckpoint lines = (lines.filterMap parseLine).find? (fun cp => !cp.isTagged) := by
  induction lines with
  | nil => rfl
  | cons raw rest ih =>
    unfold firstNonCheckpoint
    dsimp only
    by_cases hb : TrimSpace raw = ""
    · have hp : parseLine raw = none := by simp [parseLine, hb]
      simp [hb, hp, List.filterMap_cons, ih]
    · simp only [hb, if_false]
      split
      · rename_i hash message heq
        have hp : parseLine raw = some ⟨hash, message⟩ := by simp [parseLine, hb, heq]
        rw [List.filterMap_cons, hp]
        by_cases ht : Contains message checkpointTag = true
        · simp [ht, Checkpoint.isTagged, ih]
        · have ht2 : Contains message checkpointTag = false := by simpa using ht
          simp [ht2, Checkpoint.isTagged]
      · rename_i hno
        have hp : parseLine raw = none := by
          unfold parseLine
          dsimp only
          simp only [hb, if_false]
        simp [hp, List.filterMap_cons, ih]

/-! ## The scan of the event log -/

theorem dropWhile_all {α : Type} (p : α → Bool) (l : List α)
    (h : ∀ c ∈ l.dropWhile p, p c = true) : ∀ c ∈ l, p c = true := by
  induction l with
  | nil => simp
  | cons a as ih =>
    by_cases ha : p a = true
    · rw [List.dropWhile_cons_of_pos ha] at h
      intro c hc
      rcases List.mem_cons.mp hc with rfl | hc
      · exact ha
      · exact ih h c hc
    · rw [List.dropWhile_cons_of_neg ha] at h
      exact absurd (h a (List.mem_cons_self _ _)) ha

theorem TrimSpace_eq_empty (s : String) :
    TrimSpace s = "" ↔ ∀ c ∈ s.data, isSpace c = true := by
  unfold TrimSpace
  constructor
  · intro h
    have h1 : ((s.data.dropWhile isSpace).reverse.dropWhile isSpace).reverse = [] :=
      congrArg String.data h
    rw [List.reverse_eq_nil_iff, List.dropWhile_eq_nil_iff] at h1
    exact dropWhile_all _ _ (fun c hc => h1 c (List.mem_reverse.mpr hc))
  · intro h
    have h1 : s.data.dropWhile isSpace = [] := List.dropWhile_eq_nil_iff.mpr h
    rw [h1]
    rfl

theorem splitChars_mem (sep : Char) (s l : List Char) (h : l ∈ splitChars sep s) :
    ∀ c ∈ l, c ∈ s := by
  induction s generalizing l with
  | nil =>
    simp only [splitChars, List.mem_singleton] at h
    subst h
    simp
  | cons a as ih =>
    unfold splitChars at h
    by_cases ha : a = sep
    · simp only [ha, if_true, List.mem_cons] at h
      rcases h with rfl | h
      · simp
      · intro c hc
        exact List.mem_cons_of_mem _ (ih l h c hc)
    · simp only [ha, if_false] at h
      cases hs : splitChars sep as with
      | nil =>
        simp only [hs, List.mem_singleton] at h
        subst h
        simp
      | cons x xs =>
        simp only [hs, List.mem_cons] at h
        rcases h with rfl | h
        · intro c hc
          rcases List.mem_cons.mp hc with rfl | hc
          · exact List.mem_cons_self _ _
          · exact List.mem_cons_of_mem _ (ih x (by simp [hs]) c hc)
        · intro c hc
          exact List.mem_cons_of_mem _ (ih l (by simp [hs, h]) c hc)

/-- A text of white space only has blank lines only. -/
theorem blank_lines (output : String) (h : TrimSpace output = "") :
    (Split output '\n').filterMap parseLine = [] := by
  rw [List.filterMap_eq_nil_iff]
  intro l hl
  simp only [Split, List.mem_map] at hl
  obtain ⟨cs, hcs, rfl⟩ := hl
  have hall := (TrimSpace_eq_empty output).1 h
  have : TrimSpace ⟨cs⟩ = "" :=
    (TrimSpace_eq_empty _).2 (fun c hc => hall c (splitChars_mem _ _ _ hcs c hc))
  simp [parseLine, this]

theorem foldl_reflogStep (lines : List String) (acc : List Checkpoint) :
    lines.foldl reflogStep (acc, (acc.map Checkpoint.Hash).reverse) =
      (acc ++ (firstOccurrences ((lines.filterMap parseLine).filter Checkpoint.isTagged)).filter
          (fun c => decide (c.Hash ∉ acc.map Checkpoint.Hash)),
        ((acc ++ (firstOccurrences
          ((lines.filterMap parseLine).filter Checkpoint.isTagged)).filter
            (fun c => decide (c.Hash ∉ acc.map Checkpoint.Hash))).map Checkpoint.Hash).reverse) := by
  induction lines generalizing acc with
  | nil => simp [firstOccurrences]
  | cons raw rest ih =>
    rw [List.foldl_cons, reflogStep_eq]
    cases hp : parseLine raw with
    | none =>
      simp only [List.filterMap_cons, hp]
      exact ih acc
    | some cp =>
      simp only [List.filterMap_cons, hp]
      by_cases ht : cp.isTagged = true
      · by_cases hs : cp.Hash ∈ acc.map Checkpoint.Hash
        · have hc : ((acc.map Checkpoint.Hash).reverse.contains cp.Hash) = true := by
            simpa using hs
          simp only [ht, hc, Bool.not_true, Bool.and_false, Bool.false_eq_true, if_false]
          rw [ih acc, List.filter_cons_of_pos ht]
          have key : (firstOccurrences (cp :: List.filter Checkpoint.isTagged
              (List.filterMap parseLine rest))).filter
                (fun c => decide (c.Hash ∉ acc.map Checkpoint.Hash)) =
              (firstOccurrences (List.filter Checkpoint.isTagged
                (List.filterMap parseLine rest))).filter
                (fun c => decide (c.Hash ∉ acc.map Checkpoint.Hash)) := by
            rw [firstOccurrences, List.filter_cons_of_neg (by simpa using hs),
              List.filter_filter]
            apply List.filter_congr
            intro c _
            by_cases hcc : c.Hash = cp.Hash
            · simp [hcc, hs]
            · simp [hcc]
          rw [key]
        · have hc : ((acc.map Checkpoint.Hash).reverse.contains cp.Hash) = false := by
            simpa using hs
          simp only [ht, hc, Bool.not_false, Bool.and_true, if_true]
          have hacc : cp.Hash :: (acc.map Checkpoint.Hash).reverse =
              ((acc ++ [cp]).map Checkpoint.Hash).reverse := by simp
          rw [hacc, ih (acc ++ [cp]), List.filter_cons_of_pos ht]
          have key : acc ++ (firstOccurrences (cp :: List.filter Checkpoint.isTagged
              (List.filterMap parseLine rest))).filter
                (fun c => decide (c.Hash ∉ acc.map Checkpoint.Hash)) =
              acc ++ [cp] ++ (firstOccurrences (List.filter Checkpoint.isTagged
                (List.filterMap parseLine rest))).filter
                (fun c => decide (c.Hash ∉ (acc ++ [cp]).map Checkpoint.Hash)) := by
            rw [firstOccurrences, List.filter_cons_of_pos (by simpa using hs),
              List.filter_filter, List.append_assoc, List.singleton_append]
            congr 2
            apply List.filter_congr
            intro c _
            by_cases hcc : c.Hash = cp.Hash
            · simp [hcc]
            · simp [hcc]
          rw [key]
      · have ht2 : cp.isTagged = false := by simpa using ht
        simp only [ht2, Bool.false_and, Bool.false_eq_true, if_false]
        rw [ih acc, List.filter_cons_of_neg ht]

/-- The scan keeps, of the tagged well-formed lines of the event log, the first one of
every hash, in the order of the log; the second component lists the hashes kept. -/
theorem scanReflog_eq (reflogOutput : String) :
    scanReflog reflogOutput =
      (firstOccurrences (taggedEntries reflogOutput),
        ((firstOccurrences (taggedEntries reflogOutput)).map Checkpoint.Hash).reverse) := by
  unfold scanReflog taggedEntries
  by_cases hb : TrimSpace reflogOutput = ""
  · simp [hb, blank_lines reflogOutput hb, firstOccurrences]
  · simp only [ne_eq, hb, not_false_eq_true, if_true]
    have := foldl_reflogStep (Split reflogOutput '\n') []
    simpa using this

/-! ## First occurrences -/

theorem firstOccurrences_sublist (l : List Checkpoint) : (firstOccurrences l).Sublist l := by
  induction l with
  | nil => exact List.Sublist.slnil
  | cons a r ih =>
    rw [firstOccurrences]
    exact List.Sublist.cons₂ a ((List.filter_sublist _).trans ih)

theorem firstOccurrences_hash (l : List Checkpoint) (h : String) :
    (∃ c ∈ firstOccurrences l, c.Hash = h) ↔ ∃ c ∈ l, c.Hash = h := by
  constructor
  · rintro ⟨c, hc, rfl⟩
    exact ⟨c, (firstOccurrences_sublist l).subset hc, rfl⟩
  · induction l with
    | nil => simp
    | cons a r ih =>
      rintro ⟨c, hc, rfl⟩
      rw [firstOccurrences]
      by_cases ha : a.Hash = c.Hash
      · exact ⟨a, List.mem_cons_self _ _, ha⟩
      · have hcr : c ∈ r := by
          rcases List.mem_cons.mp hc with rfl | hcr
          · exact absurd rfl ha
          · exact hcr
        obtain ⟨d, hd, hdh⟩ := ih ⟨c, hcr, rfl⟩
        refine ⟨d, List.mem_cons_of_mem _ (List.mem_filter.mpr ⟨hd, ?_⟩), hdh⟩
        simp only [bne_iff_ne, ne_eq, hdh]
        exact fun h => ha h.symm

theorem firstOccurrences_nodup (l : List Checkpoint) :
    ((firstOccurrences l).map Checkpoint.Hash).Nodup := by
  induction l with
  | nil => simp [firstOccurrences]
  | cons a r ih =>
    rw [firstOccurrences, List.map_cons, List.nodup_cons]
    constructor
    · simp only [List.mem_map, List.mem_filter, bne_iff_ne, ne_eq, not_exists, not_and]
      intro c hc heq
      exact hc.2 heq
    · exact ih.sublist ((List.filter_sublist _).map _)

theorem firstOccurrences_find (l : List Checkpoint) (c : Checkpoint)
    (hc : c ∈ firstOccurrences l) : l.find? (fun e => e.Hash == c.Hash) = some c := by
  induction l with
  | nil => simp [firstOccurrences] at hc
  | cons a r ih =>
    rw [firstOccurrences] at hc
    rcases List.mem_cons.mp hc with rfl | hc
    · simp
    · obtain ⟨h1, h2⟩ := List.mem_filter.mp hc
      have hne : ¬ a.Hash = c.Hash := by
        simp only [bne_iff_ne, ne_eq] at h2
        exact fun h => h2 h.symm
      rw [List.find?_cons_of_neg _ (by simpa using hne)]
      exact ih h1

/-- The entries kept stand in the order of the first occurrences of their hashes. -/
theorem firstOccurrences_order (l : List Checkpoint) :
    (firstOccurrences l).Pairwise (fun a b =>
      l.findIdx (fun e => e.Hash == a.Hash) < l.findIdx (fun e => e.Hash == b.Hash)) := by
  induction l with
  | nil => simp [firstOccurrences]
  | cons a r ih =>
    rw [firstOccurrences, List.pairwise_cons]
    constructor
    · intro c hc
      obtain ⟨-, h2⟩ := List.mem_filter.mp hc
      have hne : ¬ a.Hash = c.Hash := by
        simp only [bne_iff_ne, ne_eq] at h2
        exact fun h => h2 h.symm
      have hb : (a.Hash == c.Hash) = false := by simpa using hne
      simp [List.findIdx_cons, hb]
    · have hsub : ((firstOccurrences r).filter (fun c => c.Hash != a.Hash)).Pairwise
          (fun x y => r.findIdx (fun e => e.Hash == x.Hash) <
            r.findIdx (fun e => e.Hash == y.Hash)) := ih.sublist (List.filter_sublist _)
      refine List.Pairwise.imp_of_mem ?_ hsub
      intro x y hx hy hxy
      have hx2 := (List.mem_filter.mp hx).2
      have hy2 := (List.mem_filter.mp hy).2
      have hnx : ¬ a.Hash = x.Hash := by
        simp only [bne_iff_ne, ne_eq] at hx2
        exact fun h => hx2 h.symm
      have hny : ¬ a.Hash = y.Hash := by
        simp only [bne_iff_ne, ne_eq] at hy2
        exact fun h => hy2 h.symm
      have hbx : (a.Hash == x.Hash) = false := by simpa using hnx
      have hby : (a.Hash == y.Hash) = false := by simpa using hny
      simp only [List.findIdx_cons, hbx, hby, cond_false]
      omega

/-! ## The discovered list -/

theorem GetLastNonCheckpointCommit_fst (w : World) :
    (GetLastNonCheckpointCommit w).1 =
      match (RunCommand .logShort w).1 with
      | (_, some e) => .error e
      | (output, none) => .ok (firstUntagged output) := by
  unfold GetLastNonCheckpointCommit firstUntagged
  generalize RunCommand .logShort w = p
  obtain ⟨⟨out, err⟩, w1⟩ := p
  cases err with
  | some e => rfl
  | none => simp [firstNonCheckpoint_eq]

theorem GetCheckpointsFromReflog_fst (w : World) :
    (GetCheckpointsFromReflog w).1 =
      match (RunCommand .reflog w).1 with
      | (_, some e) => .error e
      | (reflogOutput, none) =>
        .ok ((firstOccurrences (taggedEntries reflogOutput)).reverse ++
          appendedEntries ((firstOccurrences (taggedEntries reflogOutput)).map Checkpoint.Hash)
            (GetLastNonCheckpointCommit (RunCommand .reflog w).2).1) := by
  unfold GetCheckpointsFromReflog
  generalize RunCommand .reflog w = p
  obtain ⟨⟨out, err⟩, w1⟩ := p
  cases err with
  | some e => rfl
  | none =>
    dsimp only
    rw [scanReflog_eq]
    generalize GetLastNonCheckpointCommit w1 = q
    obtain ⟨last, w2⟩ := q
    unfold appendedEntries
    rcases last with e | (_ | c)
    · simp
    · simp
    · by_cases hc : c.Hash ∈ (firstOccurrences (taggedEntries out)).map Checkpoint.Hash
      · simp [hc]
      · simp [hc, markLastCommit]

theorem Contains_lastCommit (message : String) :
    Contains ("[LAST COMMIT] " ++ message) checkpointTag = Contains message checkpointTag := by
  unfold Contains
  rw [String.data_append]
  show containsChars ['C', 'H', 'E', 'C', 'K', 'P', 'O', 'I', 'N', 'T', ':']
      (['[', 'L', 'A', 'S', 'T', ' ', 'C', 'O', 'M', 'M', 'I', 'T', ']', ' '] ++ message.data) =
    containsChars ['C', 'H', 'E', 'C', 'K', 'P', 'O', 'I', 'N', 'T', ':'] message.data
  simp [containsChars, startsWith]

theorem markLastCommit_isTagged (cp : Checkpoint) :
    (markLastCommit cp).isTagged = cp.isTagged := by
  simp [markLastCommit, Checkpoint.isTagged, Contains_lastCommit]

theorem discovered_form (w : World) (cps : List Checkpoint)
    (h : (GetCheckpointsFromReflog w).1 = .ok cps) :
    (RunCommand .reflog w).1.2 = none ∧
    cps = (firstOccurrences (taggedEntries (RunCommand .reflog w).1.1)).reverse ++
      appendedEntries
        ((firstOccurrences (taggedEntries (RunCommand .reflog w).1.1)).map Checkpoint.Hash)
        (GetLastNonCheckpointCommit (RunCommand .reflog w).2).1 := by
  rw [GetCheckpointsFromReflog_fst] at h
  generalize (RunCommand .reflog w).1 = p at h ⊢
  obtain ⟨out, err⟩ := p
  cases err with
  | some e => simp at h
  | none =>
    simp only [Except.ok.injEq] at h
    exact ⟨rfl, h.symm⟩

theorem appendedEntries_cases (seen : List String)
    (last : Except String (Option Checkpoint)) :
    appendedEntries seen last = [] ∨
      ∃ c, last = .ok (some c) ∧ c.Hash ∉ seen ∧
        appendedEntries seen last = [markLastCommit c] := by
  unfold appendedEntries
  rcases last with e | (_ | c)
  · exact Or.inl rfl
  · exact Or.inl rfl
  · by_cases hc : c.Hash ∈ seen
    · left
      simp [hc]
    · right
      exact ⟨c, rfl, hc, by simp [hc]⟩

theorem last_found (w : World) (c : Checkpoint)
    (h : (GetLastNonCheckpointCommit w).1 = .ok (some c)) :
    (RunCommand .logShort w).1.2 = none ∧
      firstUntagged (RunCommand .logShort w).1.1 = some c ∧ c.isTagged = false := by
  rw [GetLastNonCheckpointCommit_fst] at h
  generalize (RunCommand .logShort w).1 = p at h ⊢
  obtain ⟨out, err⟩ := p
  cases err with
  | some e => simp at h
  | none =>
    simp only [Except.ok.injEq] at h
    refine ⟨rfl, h, ?_⟩
    have := List.find?_some h
    simpa using this

theorem firstOccurrences_tagged (output : String) :
    ∀ c ∈ firstOccurrences (taggedEntries output), c.isTagged = true := by
  intro c hc
  have := (firstOccurrences_sublist _).subset hc
  exact (List.mem_filter.mp this).2

/-! ## Claims about the discovered list -/

/-- Claim C13: whatever the event log and the linear history print, no two entries of the
list returned by `GetCheckpointsFromReflog` have the same hash, the appended entry for the
last real commit included. -/
theorem C13_discovered_hashes_are_distinct (w : World) (cps : List Checkpoint)
    (h : (GetCheckpointsFromReflog w).1 = .ok cps) :
    (cps.map Checkpoint.Hash).Nodup := by
  obtain ⟨-, hform⟩ := discovered_form w cps h
  rw [hform]
  rcases appendedEntries_cases _ _ with h0 | ⟨c, -, hc, h1⟩
  · rw [h0, List.append_nil, List.map_reverse, List.nodup_reverse]
    exact firstOccurrences_nodup _
  · rw [h1, List.map_append, List.map_reverse, List.nodup_append]
    refine ⟨List.nodup_reverse.mpr (firstOccurrences_nodup _), by simp, ?_⟩
    intro x hx hx2
    simp only [List.map_cons, List.map_nil, List.mem_singleton, markLastCommit] at hx2
    subst hx2
    exact hc (List.mem_reverse.mp hx)

/-- Witness for C13: the store in which the checkpoint `c1` occurs twice in the event
log. -/
theorem C13_discovered_hashes_are_distinct_witness :
    (GetCheckpointsFromReflog revisitedWorld).1 = .ok revisitedList ∧
    (revisitedList.map Checkpoint.Hash).Nodup :=
  ⟨rfl, C13_discovered_hashes_are_distinct revisitedWorld revisitedList rfl⟩

/-- Whatever the event log and the linear history print, the list returned by
`GetCheckpointsFromReflog` has at most one entry whose message lacks "CHECKPOINT:"; such
an entry is the last entry of the list, every entry before it is tagged, and it carries
the hash of the first line of `git log --oneline --format=%h %s` that has a hash and a
subject without the tag, with the message "[LAST COMMIT] " followed by that subject. -/
theorem sentinel_is_last_and_marked (w : World) (cps : List Checkpoint)
    (h : (GetCheckpointsFromReflog w).1 = .ok cps) :
    (cps.filter (fun cp => !cp.isTagged)).length ≤ 1 ∧
    ∀ cp ∈ cps, cp.isTagged = false →
      (∃ front, cps = front ++ [cp] ∧ ∀ c ∈ front, c.isTagged = true) ∧
      ∃ c, (RunCommand .logShort (RunCommand .reflog w).2).1.2 = none ∧
        firstUntagged (RunCommand .logShort (RunCommand .reflog w).2).1.1 = some c ∧
        c.isTagged = false ∧
        cp = ⟨c.Hash, "[LAST COMMIT] " ++ c.Message⟩ := by
  obtain ⟨-, hform⟩ := discovered_form w cps h
  have htag := firstOccurrences_tagged (RunCommand .reflog w).1.1
  generalize firstOccurrences (taggedEntries (RunCommand .reflog w).1.1) = T at hform htag
  have hfront : (T.reverse).filter (fun cp => !cp.isTagged) = [] := by
    rw [List.filter_eq_nil_iff]
    intro a ha
    simp [htag a (List.mem_reverse.mp ha)]
  rcases appendedEntries_cases (T.map Checkpoint.Hash)
      (GetLastNonCheckpointCommit (RunCommand .reflog w).2).1 with h0 | ⟨c, hc, -, h1⟩
  · rw [h0, List.append_nil] at hform
    subst hform
    refine ⟨by simp [hfront], ?_⟩
    intro cp hcp hun
    rw [htag cp (List.mem_reverse.mp hcp)] at hun
    cases hun
  · rw [h1] at hform
    subst hform
    obtain ⟨hl1, hl2, hl3⟩ := last_found _ c hc
    constructor
    · rw [List.filter_append, hfront, List.nil_append]
      exact (List.length_filter_le _ _).trans (by simp)
    · intro cp hcp hun
      rcases List.mem_append.mp hcp with hin | hin
      · rw [htag cp (List.mem_reverse.mp hin)] at hun
        cases hun
      · rw [List.mem_singleton] at hin
        subst hin
        exact ⟨⟨T.reverse, rfl, fun a ha => htag a (List.mem_reverse.mp ha)⟩,
          c, hl1, hl2, hl3, rfl⟩

/-- In the store whose branch is back at the last real commit the list ends with the
entry for `b0b0b0b`, the only untagged one. -/
theorem sentinel_is_last_and_marked_example :
    (GetCheckpointsFromReflog sentinelWorld).1 = .ok sentinelList ∧
    (sentinelList.filter (fun cp => !cp.isTagged)).length ≤ 1 ∧
    (⟨"b0b0b0b", "[LAST COMMIT] init"⟩ : Checkpoint) ∈ sentinelList ∧
    ∃ front, sentinelList = front ++ [⟨"b0b0b0b", "[LAST COMMIT] init"⟩] ∧
      ∀ c ∈ front, c.isTagged = true :=
  ⟨rfl, (sentinel_is_last_and_marked sentinelWorld sentinelList rfl).1, by decide,
    ((sentinel_is_last_and_marked sentinelWorld sentinelList rfl).2
      ⟨"b0b0b0b", "[LAST COMMIT] init"⟩ (by decide) (by decide)).1⟩

/-- Claim C14, evaluated where the code departs from it: the history holds the checkpoint
`1033b24`, below it the commit `1c36bde`, made with an empty message and so printed as a
hash alone, and below that the commit `dc9927e`. The most recent untagged commit is
`1c36bde`, and the scan of the full history in `FinalizeAndPushWithMessage` finds it; but
`GetLastNonCheckpointCommit` skips its line, which has no space once trimmed, and the
list ends with the entry for `dc9927e`, marked "[LAST COMMIT] init". The planner then
takes `dc9927e` as base, below the real commit `1c36bde`. -/
theorem C14_commit_without_subject_is_skipped :
    Split (RunCommand .logShort emptySubjectWorld).1.1 '\n' =
      ["1033b24 CHECKPOINT: x", "1c36bde ", "dc9927e init"] ∧
    Contains "1c36bde " checkpointTag = false ∧
    (GetLastNonCheckpointCommit emptySubjectWorld).1 = .ok (some ⟨"dc9927e", "init"⟩) ∧
    (GetCheckpointsFromReflog emptySubjectWorld).1 =
      .ok [⟨"1033b24", "CHECKPOINT: x"⟩, ⟨"dc9927e", "[LAST COMMIT] init"⟩] ∧
    (GetCheckpointsFromReflog emptySubjectWorld).1 ≠
      .ok [⟨"1033b24", "CHECKPOINT: x"⟩, ⟨"1c36bde", "[LAST COMMIT] "⟩] ∧
    scanBase (Split (RunCommand .logFull emptySubjectWorld).1.1 '\n') = "1c36bdeff" ∧
    (planSquash [⟨"1033b24", "CHECKPOINT: x"⟩, ⟨"dc9927e", "[LAST COMMIT] init"⟩] "1033b24"
      emptySubjectWorld).1 = .ok ⟨[⟨"1033b24", "CHECKPOINT: x"⟩], "dc9927e"⟩ := by
  refine ⟨by decide, by decide, rfl, rfl, ?_, by decide, rfl⟩
  intro h
  have h2 : (Except.ok [⟨"1033b24", "CHECKPOINT: x"⟩, ⟨"dc9927e", "[LAST COMMIT] init"⟩] :
      Except String (List Checkpoint)) =
      .ok [⟨"1033b24", "CHECKPOINT: x"⟩, ⟨"1c36bde", "[LAST COMMIT] "⟩] := h
  simp at h2

/-- The appended entry is never tagged, so the tagged entries of the list are the entries
kept by the scan, reversed. -/
theorem discovered_tagged_part (w : World) (cps : List Checkpoint)
    (h : (GetCheckpointsFromReflog w).1 = .ok cps) :
    cps.filter Checkpoint.isTagged =
      (firstOccurrences (taggedEntries (RunCommand .reflog w).1.1)).reverse := by
  obtain ⟨-, hform⟩ := discovered_form w cps h
  have htag := firstOccurrences_tagged (RunCommand .reflog w).1.1
  generalize firstOccurrences (taggedEntries (RunCommand .reflog w).1.1) = T at hform htag ⊢
  have hfront : (T.reverse).filter Checkpoint.isTagged = T.reverse := by
    rw [List.filter_eq_self]
    intro a ha
    exact htag a (List.mem_reverse.mp ha)
  rcases appendedEntries_cases (T.map Checkpoint.Hash)
      (GetLastNonCheckpointCommit (RunCommand .reflog w).2).1 with h0 | ⟨c, hc, -, h1⟩
  · rw [hform, h0, List.append_nil, hfront]
  · obtain ⟨-, -, hl3⟩ := last_found _ c hc
    have hm : (markLastCommit c).isTagged = false := by
      rw [markLastCommit_isTagged, hl3]
    rw [hform, h1, List.filter_append, hfront]
    simp [hm]

/-- Claim C15: the tagged entries of the list returned by `GetCheckpointsFromReflog` are
the reverse of the list that holds, of every hash, its first occurrence among the tagged
well-formed lines of the event log, in the order of the log; each tagged entry is the
first line of its hash, message included, and an entry stands before another exactly when
its hash first occurs later in the log: for an oldest-first log the list is
newest-first. -/
theorem C15_tagged_entries_reverse_first_occurrences (w : World) (cps : List Checkpoint)
    (h : (GetCheckpointsFromReflog w).1 = .ok cps) :
    cps.filter Checkpoint.isTagged =
      (firstOccurrences (taggedEntries (RunCommand .reflog w).1.1)).reverse ∧
    (∀ cp ∈ cps, cp.isTagged = true →
      (taggedEntries (RunCommand .reflog w).1.1).find? (fun e => e.Hash == cp.Hash) =
        some cp) ∧
    (cps.filter Checkpoint.isTagged).Pairwise (fun a b =>
      (taggedEntries (RunCommand .reflog w).1.1).findIdx (fun e => e.Hash == b.Hash) <
        (taggedEntries (RunCommand .reflog w).1.1).findIdx (fun e => e.Hash == a.Hash)) := by
  have hpart := discovered_tagged_part w cps h
  refine ⟨hpart, ?_, ?_⟩
  · intro cp hcp htag
    have hmem : cp ∈ cps.filter Checkpoint.isTagged := List.mem_filter.mpr ⟨hcp, htag⟩
    rw [hpart] at hmem
    exact firstOccurrences_find _ cp (List.mem_reverse.mp hmem)
  · rw [hpart, List.pairwise_reverse]
    exact firstOccurrences_order _

/-- Witness for C15: the event log of the revisited store lists `c1`, `c2`, `c1`; the
tagged entries discovered are `c2`, `c1`. -/
theorem C15_tagged_entries_reverse_first_occurrences_witness :
    (GetCheckpointsFromReflog revisitedWorld).1 = .ok revisitedList ∧
    revisitedList.filter Checkpoint.isTagged =
      (firstOccurrences (taggedEntries (RunCommand .reflog revisitedWorld).1.1)).reverse ∧
    (firstOccurrences (taggedEntries (RunCommand .reflog revisitedWorld).1.1)).reverse =
      [⟨"c2", "CHECKPOINT: two"⟩, ⟨"c1", "CHECKPOINT: one"⟩] :=
  ⟨rfl, (C15_tagged_entries_reverse_first_occurrences revisitedWorld revisitedList rfl).1,
    by decide⟩

theorem cutAt_eq_none (sep : Char) (s : List Char) (h : sep ∉ s) : cutAt sep s = none := by
  induction s with
  | nil => rfl
  | cons c cs ih =>
    simp only [List.mem_cons, not_or] at h
    have hc : c ≠ sep := fun h1 => h.1 h1.symm
    simp [cutAt, hc, ih h.2]

theorem parseLine_no_space (raw : String) (h : ' ' ∉ (TrimSpace raw).data) :
    parseLine raw = none := by
  unfold parseLine SplitN2
  simp only [cutAt_eq_none _ _ h]
  split <;> rfl

theorem mem_taggedEntries (output : String) (cp : Checkpoint) :
    cp ∈ taggedEntries output ↔
      cp.isTagged = true ∧ ∃ line ∈ Split output '\n', parseLine line = some cp := by
  simp only [taggedEntries, List.mem_filter, List.mem_filterMap]
  exact and_comm

/-- Claim C16: a hash appears as a tagged entry of the list returned by
`GetCheckpointsFromReflog` exactly when some line of the event log, trimmed, is that hash
(the text before the first space), one space, and a text containing "CHECKPOINT:". A
blank line, a line without a space and a line whose text lacks the tag leave the state of
the scan unchanged. -/
theorem C16_tagged_entry_iff_tagged_line (w : World) (cps : List Checkpoint)
    (h : (GetCheckpointsFromReflog w).1 = .ok cps) (hash : String) :
    ((∃ cp ∈ cps, cp.Hash = hash ∧ cp.isTagged = true) ↔
      ' ' ∉ hash.data ∧ ∃ line ∈ Split (RunCommand .reflog w).1.1 '\n', ∃ text,
        TrimSpace line = hash ++ " " ++ text ∧ Contains text checkpointTag = true) ∧
    (∀ st raw, TrimSpace raw = "" → reflogStep st raw = st) ∧
    (∀ st raw, ' ' ∉ (TrimSpace raw).data → reflogStep st raw = st) ∧
    (∀ st raw id text, TrimSpace raw = id ++ " " ++ text → ' ' ∉ id.data →
      Contains text checkpointTag = false → reflogStep st raw = st) := by
  have hpart := discovered_tagged_part w cps h
  refine ⟨⟨?_, ?_⟩, ?_, ?_, ?_⟩
  · rintro ⟨cp, hcp, rfl, htag⟩
    have hmem : cp ∈ cps.filter Checkpoint.isTagged := List.mem_filter.mpr ⟨hcp, htag⟩
    rw [hpart] at hmem
    have hin := (firstOccurrences_sublist _).subset (List.mem_reverse.mp hmem)
    obtain ⟨-, line, hline, hparse⟩ := (mem_taggedEntries _ _).1 hin
    obtain ⟨h1, h2⟩ := (parseLine_eq_some _ _).1 hparse
    exact ⟨h2, line, hline, cp.Message, h1, htag⟩
  · rintro ⟨hsp, line, hline, text, h1, htag⟩
    have hparse : parseLine line = some ⟨hash, text⟩ := (parseLine_eq_some _ _).2 ⟨h1, hsp⟩
    have hin : (⟨hash, text⟩ : Checkpoint) ∈ taggedEntries (RunCommand .reflog w).1.1 :=
      (mem_taggedEntries _ _).2 ⟨htag, line, hline, hparse⟩
    obtain ⟨c, hc, hch⟩ := (firstOccurrences_hash _ hash).2 ⟨_, hin, rfl⟩
    have hmem : c ∈ cps.filter Checkpoint.isTagged := by
      rw [hpart]
      exact List.mem_reverse.mpr hc
    obtain ⟨hc1, hc2⟩ := List.mem_filter.mp hmem
    exact ⟨c, hc1, hch, hc2⟩
  · intro st raw hb
    simp [reflogStep, hb]
  · intro st raw hns
    rw [reflogStep_eq, parseLine_no_space raw hns]
  · intro st raw id text h1 h2 h3
    have hparse : parseLine raw = some ⟨id, text⟩ := (parseLine_eq_some _ _).2 ⟨h1, h2⟩
    rw [reflogStep_eq, hparse]
    simp [Checkpoint.isTagged, h3]

/-- Witness for C16: in the example store the line `c2 CHECKPOINT: two` gives the tagged
entry `c2`. -/
theorem C16_tagged_entry_iff_tagged_line_witness :
    (∃ cp ∈ ([⟨"c3", "CHECKPOINT: three"⟩, ⟨"c2", "CHECKPOINT: two"⟩,
        ⟨"c1", "CHECKPOINT: one"⟩, ⟨"b0", "[LAST COMMIT] init"⟩] : List Checkpoint),
      cp.Hash = "c2" ∧ cp.isTagged = true) ↔
      ' ' ∉ "c2".data ∧ ∃ line ∈ Split (RunCommand .reflog exampleWorld).1.1 '\n', ∃ text,
        TrimSpace line = "c2" ++ " " ++ text ∧ Contains text checkpointTag = true :=
  (C16_tagged_entry_iff_tagged_line exampleWorld _ rfl "c2").1

theorem taggedEntries_empty : taggedEntries "" = [] := by decide

/-- Counterexample for C17: in the store whose event log is empty while the history holds
the commit `b0`, discovery returns the entry for `b0`, not the empty list. -/
theorem C17_empty_log_with_history :
    (RunCommand .reflog detachedWorld).1 = ("", none) ∧
    (GetCheckpointsFromReflog detachedWorld).1 = .ok [⟨"b0", "[LAST COMMIT] init"⟩] ∧
    (GetCheckpointsFromReflog detachedWorld).1 ≠ .ok [] := by
  refine ⟨rfl, rfl, ?_⟩
  intro h
  have h2 : (Except.ok [⟨"b0", "[LAST COMMIT] init"⟩] : Except String (List Checkpoint)) =
      .ok [] := h
  simp at h2

theorem firstUntagged_none_of_lines (lines : List String)
    (h : ∀ l ∈ lines, ∀ cp, parseLine l = some cp → cp.isTagged = true) :
    (lines.filterMap parseLine).find? (fun cp => !cp.isTagged) = none := by
  rw [List.find?_eq_none]
  intro cp hcp
  obtain ⟨l, hl, hparse⟩ := List.mem_filterMap.mp hcp
  simp [h l hl cp hparse]

theorem firstUntagged_of_lines (pre post : List String) (line : String) (c : Checkpoint)
    (hpre : ∀ l ∈ pre, ∀ cp, parseLine l = some cp → cp.isTagged = true)
    (hline : parseLine line = some c) (hc : c.isTagged = false) :
    ((pre ++ line :: post).filterMap parseLine).find? (fun cp => !cp.isTagged) = some c := by
  rw [List.filterMap_append, List.find?_append, firstUntagged_none_of_lines pre hpre,
    List.filterMap_cons, hline]
  simp [hc]

/-- Claim C17, amended: when the event-log query succeeds and the log has no tagged
well-formed line (an empty log in particular), `GetCheckpointsFromReflog` returns no
error. The list holds exactly one entry when the history has a line that, trimmed, is a
hash, a space and a subject without the tag: the entry made of the first such line, its
subject marked "[LAST COMMIT] ". The list is empty when the history has no such line
(every line is blank, a hash without a subject, or tagged) and when the history query
fails. -/
theorem C17_list_without_tagged_entries (w : World)
    (hlog : (RunCommand .reflog w).1.2 = none)
    (hno : taggedEntries (RunCommand .reflog w).1.1 = []) :
    (∀ pre line post c, (RunCommand .logShort (RunCommand .reflog w).2).1.2 = none →
      Split (RunCommand .logShort (RunCommand .reflog w).2).1.1 '\n' = pre ++ line :: post →
      (∀ l ∈ pre, ∀ cp, parseLine l = some cp → cp.isTagged = true) →
      parseLine line = some c → c.isTagged = false →
      (GetCheckpointsFromReflog w).1 = .ok [⟨c.Hash, "[LAST COMMIT] " ++ c.Message⟩]) ∧
    ((RunCommand .logShort (RunCommand .reflog w).2).1.2 = none →
      (∀ l ∈ Split (RunCommand .logShort (RunCommand .reflog w).2).1.1 '\n',
        ∀ cp, parseLine l = some cp → cp.isTagged = true) →
      (GetCheckpointsFromReflog w).1 = .ok []) ∧
    ((RunCommand .logShort (RunCommand .reflog w).2).1.2 ≠ none →
      (GetCheckpointsFromReflog w).1 = .ok []) ∧
    taggedEntries "" = [] := by
  have hG : (GetCheckpointsFromReflog w).1 =
      .ok (appendedEntries [] (GetLastNonCheckpointCommit (RunCommand .reflog w).2).1) := by
    rw [GetCheckpointsFromReflog_fst]
    generalize (RunCommand .reflog w).1 = p at hlog hno ⊢
    obtain ⟨out, err⟩ := p
    simp only at hlog hno
    subst hlog
    simp [hno, firstOccurrences]
  rw [hG, GetLastNonCheckpointCommit_fst]
  generalize (RunCommand .logShort (RunCommand .reflog w).2).1 = q
  obtain ⟨out, err⟩ := q
  refine ⟨?_, ?_, ?_, taggedEntries_empty⟩
  · intro pre line post c he hsplit hpre hline hc
    simp only at he hsplit
    subst he
    have hfirst : firstUntagged out = some c := by
      unfold firstUntagged
      rw [hsplit]
      exact firstUntagged_of_lines pre post line c hpre hline hc
    simp [hfirst, appendedEntries, markLastCommit]
  · intro he hall
    simp only at he hall
    subst he
    have hfirst : firstUntagged out = none := by
      unfold firstUntagged
      exact firstUntagged_none_of_lines _ hall
    simp [hfirst, appendedEntries]
  · intro he
    cases err with
    | none => exact absurd rfl he
    | some e => simp [appendedEntries]

/-- Witness for C17: the empty event log with the history `c3`, `b0` gives the entry for
`b0`; with a history of checkpoints only, and with a history whose only untagged commit
has no subject, it gives the empty list. -/
theorem C17_list_without_tagged_entries_witness :
    (RunCommand .reflog detachedWorld).1.2 = none ∧
    taggedEntries (RunCommand .reflog detachedWorld).1.1 = [] ∧
    Split (RunCommand .logShort (RunCommand .reflog detachedWorld).2).1.1 '\n' =
      ["c3 CHECKPOINT: three"] ++ "b0 init" :: [] ∧
    (GetCheckpointsFromReflog detachedWorld).1 = .ok [⟨"b0", "[LAST COMMIT] init"⟩] ∧
    (GetCheckpointsFromReflog expiredLogWorld).1 = .ok [] ∧
    Split (RunCommand .logShort (RunCommand .reflog noSubjectWorld).2).1.1 '\n' =
      ["1033b24 CHECKPOINT: x", "1c36bde"] ∧
    (GetCheckpointsFromReflog noSubjectWorld).1 = .ok [] :=
  ⟨rfl, by decide, by decide,
    (C17_list_without_tagged_entries detachedWorld rfl (by decide)).1
      ["c3 CHECKPOINT: three"] "b0 init" [] ⟨"b0", "init"⟩ rfl (by decide) (by decide)
      (by decide) (by decide),
    (C17_list_without_tagged_entries expiredLogWorld rfl (by decide)).2.1 rfl (by decide),
    by decide,
    (C17_list_without_tagged_entries noSubjectWorld rfl (by decide)).2.1 rfl (by decide)⟩

/-! ## Claims about the missing base -/

theorem TrimSpace_head (s : String) (c : Char) (rest : List Char)
    (h : (TrimSpace s).data = c :: rest) : isSpace c = false := by
  have hpre : (TrimSpace s).data <+: s.data.dropWhile isSpace :=
    List.rdropWhile_prefix isSpace (s.data.dropWhile isSpace)
  rw [h] at hpre
  obtain ⟨t, ht⟩ := hpre
  have hnot := List.head?_dropWhile_not isSpace s.data
  rw [← ht] at hnot
  simpa using hnot

theorem parseLine_hash_ne_empty (raw : String) (cp : Checkpoint)
    (h : parseLine raw = some cp) : cp.Hash ≠ "" := by
  obtain ⟨h1, -⟩ := (parseLine_eq_some raw cp).1 h
  intro he
  have hdata : (TrimSpace raw).data = ' ' :: cp.Message.data := by
    rw [h1, he]
    simp [String.data_append]
  have := TrimSpace_head raw ' ' _ hdata
  exact absurd this (by decide)

/-- Every entry of a discovered list has a hash that is not empty. -/
theorem discovered_hash_ne_empty (w : World) (cps : List Checkpoint)
    (h : (GetCheckpointsFromReflog w).1 = .ok cps) : ∀ cp ∈ cps, cp.Hash ≠ "" := by
  obtain ⟨-, hform⟩ := discovered_form w cps h
  intro cp hcp
  rw [hform] at hcp
  rcases List.mem_append.mp hcp with hin | hin
  · have hin2 := (firstOccurrences_sublist _).subset (List.mem_reverse.mp hin)
    obtain ⟨-, line, -, hparse⟩ := (mem_taggedEntries _ _).1 hin2
    exact parseLine_hash_ne_empty line cp hparse
  · rcases appendedEntries_cases
        ((firstOccurrences (taggedEntries (RunCommand .reflog w).1.1)).map Checkpoint.Hash)
        (GetLastNonCheckpointCommit (RunCommand .reflog w).2).1 with h0 | ⟨c, hc, -, h1⟩
    · rw [h0] at hin
      cases hin
    · rw [h1, List.mem_singleton] at hin
      subst hin
      obtain ⟨-, hl2, -⟩ := last_found _ c hc
      have hmem := List.mem_of_find?_eq_some hl2
      obtain ⟨line, -, hparse⟩ := List.mem_filterMap.mp hmem
      exact parseLine_hash_ne_empty line c hparse

theorem scanBase_eq_empty (lines : List String)
    (hwf : ∀ l ∈ lines, Contains l checkpointTag = false →
      l ≠ "" ∧ l.data.head? ≠ some ' ') :
    scanBase lines = "" ↔ ∀ l ∈ lines, Contains l checkpointTag = true := by
  induction lines with
  | nil => simp [scanBase]
  | cons l r ih =>
    have ihr := ih (fun x hx => hwf x (List.mem_cons_of_mem _ hx))
    by_cases ht : Contains l checkpointTag = true
    · simp [scanBase, ht, ihr]
    · have ht2 : Contains l checkpointTag = false := by simpa using ht
      obtain ⟨hne, hsp⟩ := hwf l (List.mem_cons_self _ _) ht2
      obtain ⟨id, rest, hsplit, -, hform⟩ := SplitN2_head l
      have hid : id ≠ "" := by
        rintro rfl
        rcases hform with h1 | ⟨subject, h1⟩
        · exact hne h1
        · apply hsp
          rw [h1]
          simp [String.data_append]
      simp [scanBase, ht2, hsplit, hid]

/-- Counterexample for C11: in the store whose history holds checkpoints only and whose
event log is empty, every line of the full history is tagged, yet the run fails with "no
checkpoints found", not with the no-base error. -/
theorem C11_all_tagged_without_no_base :
    (RunCommand .logFull expiredLogWorld).1 =
      ("c2ff CHECKPOINT: two\nc1ff CHECKPOINT: one", none) ∧
    (∀ l ∈ Split "c2ff CHECKPOINT: two\nc1ff CHECKPOINT: one" '\n',
      Contains l checkpointTag = true) ∧
    (FinalizeAndPushWithMessage "" expiredLogWorld).1 = some "no checkpoints found" ∧
    (FinalizeAndPushWithMessage "" expiredLogWorld).1 ≠ some errNoBase := by
  refine ⟨by decide, by decide, by decide, by decide⟩

/-- Claim C11, amended: when the current commit appears in the list, every hash of the
list is non-empty, the query of the full history succeeds, each of its untagged lines
begins with a commit id, and an untagged entry of the list (the last real commit) comes
with an untagged line of the history, the planner fails with the no-base error exactly
when every line of the full linear history is tagged. -/
theorem C11_no_base_iff_history_all_tagged (checkpoints : List Checkpoint)
    (currentCommit : String) (w : World) (i : Nat)
    (hfound : findCurrentIndex checkpoints currentCommit = some i)
    (hhash : ∀ cp ∈ checkpoints, cp.Hash ≠ "")
    (hlog : (RunCommand .logFull w).1.2 = none)
    (hwf : ∀ l ∈ Split (RunCommand .logFull w).1.1 '\n', Contains l checkpointTag = false →
      l ≠ "" ∧ l.data.head? ≠ some ' ')
    (hcoh : (∃ cp ∈ checkpoints, cp.isTagged = false) →
      ∃ l ∈ Split (RunCommand .logFull w).1.1 '\n', Contains l checkpointTag = false) :
    (planSquash checkpoints currentCommit w).1 = .error errNoBase ↔
      ∀ l ∈ Split (RunCommand .logFull w).1.1 '\n', Contains l checkpointTag = true := by
  obtain ⟨j, hj, hij, hjle, -, -, -, hstop⟩ :=
    consecutiveCheckpoints_block checkpoints currentCommit i hfound
  have hlen : checkpoints.length ≠ 0 := by omega
  unfold planSquash
  simp only [hlen, if_false, hfound]
  rw [← hj]
  by_cases hlt : j < checkpoints.length
  · rw [findBase_next checkpoints j w hlt]
    have hmem : checkpoints[j] ∈ checkpoints := List.getElem_mem _
    have hne := hhash _ hmem
    have hun : checkpoints[j].isTagged = false :=
      hstop _ (List.getElem?_eq_getElem hlt)
    obtain ⟨l, hl, hlt2⟩ := hcoh ⟨_, hmem, hun⟩
    simp only [hne, if_false]
    constructor
    · intro h
      cases h
    · intro h
      rw [h l hl] at hlt2
      cases hlt2
  · rw [findBase_history checkpoints j w (by omega) hlog]
    dsimp only
    rw [← scanBase_eq_empty _ hwf]
    split
    · rename_i he
      simp [he]
    · rename_i he
      simp [he]

/-- Witness for C11: in the store whose history holds the checkpoints `c2`, `c1` only, at
`c2`, the planner fails with the no-base error. -/
theorem C11_no_base_iff_history_all_tagged_witness :
    (GetCheckpointsFromReflog onlyCheckpointsWorld).1 =
      .ok [⟨"c2", "CHECKPOINT: two"⟩, ⟨"c1", "CHECKPOINT: one"⟩] ∧
    (∀ l ∈ Split (RunCommand .logFull onlyCheckpointsWorld).1.1 '\n',
      Contains l checkpointTag = true) ∧
    (planSquash [⟨"c2", "CHECKPOINT: two"⟩, ⟨"c1", "CHECKPOINT: one"⟩] "c2"
      onlyCheckpointsWorld).1 = .error errNoBase :=
  ⟨rfl, by decide,
    (C11_no_base_iff_history_all_tagged [⟨"c2", "CHECKPOINT: two"⟩, ⟨"c1", "CHECKPOINT: one"⟩]
      "c2" onlyCheckpointsWorld 0 (by decide) (by decide) (by decide) (by decide)
      (by decide)).2 (by decide)⟩

/-! ## Claims about the commit messages -/

theorem IsRepo_eq (w : World) :
    IsRepo w = ((w.respond w.calls.length .revParseGitDir).err.isNone,
      w.extend [(.revParseGitDir, w.respond w.calls.length .revParseGitDir)]) := rfl

theorem GetTimestamp_eq (w : World) :
    GetTimestamp w = (timestampOf (w.respond w.calls.length .date),
      w.extend [(.date, w.respond w.calls.length .date)]) := rfl

theorem CreateCheckpoint_shape (customNote : String) (w : World) :
    ∃ tr, (CreateCheckpoint customNote w).2 = w.extend tr ∧
      CreateShape customNote tr (CreateCheckpoint customNote w).1 := by
  unfold CreateCheckpoint
  simp only [IsRepo_eq, RunCommand_eq, GetTimestamp_eq]
  generalize w.respond w.calls.length .revParseGitDir = r0
  rcases hr0 : r0.err with _ | e0
  · dsimp only [Option.isNone_none]
    simp only [extend_extend, extend_respond]
    generalize w.respond _ Proc.statusPorcelain = r1
    rcases hr1 : r1.err with _ | e1
    · dsimp only
      by_cases hs : TrimSpace r1.output = ""
      · simp only [hs, if_true]
        exact ⟨_, rfl, .clean r0 r1 hr0 hr1 hs⟩
      · simp only [hs, if_false, extend_extend, extend_respond]
        generalize w.respond _ Proc.addAll = r2
        rcases hr2 : r2.err with _ | e2
        · dsimp only
          simp only [extend_extend, extend_respond]
          generalize w.respond _ Proc.date = rd
          generalize w.respond _ (Proc.commit (checkpointMessage (timestampOf rd) customNote)) = rc
          rcases hrc : rc.err with _ | ec
          · dsimp only
            exact ⟨_, rfl, .created r0 r1 r2 rd rc hr0 hr1 hs hr2 hrc⟩
          · dsimp only
            exact ⟨_, rfl, .commitFailed r0 r1 r2 rd rc ec hr0 hr1 hs hr2 hrc⟩
        · dsimp only
          exact ⟨_, rfl, .addFailed r0 r1 r2 e2 hr0 hr1 hs hr2⟩
    · dsimp only
      exact ⟨_, rfl, .statusFailed r0 r1 e1 hr0 hr1⟩
  · dsimp only [Option.isNone_some]
    exact ⟨_, rfl, .notRepo r0 (by simp [hr0])⟩

/-- Claim C21: the message is "CHECKPOINT: " and the timestamp for the empty note, and
that text, " - " and the note for any other note; every commit `CreateCheckpoint` issues
carries this message for the timestamp it read (the trimmed output of `date`, "unknown"
when `date` fails), it issues at most one, and a run that returns no error has issued
one, which succeeded. -/
theorem C21_checkpoint_message (timestamp customNote : String) (w : World) :
    checkpointMessage timestamp "" = "CHECKPOINT: " ++ timestamp ∧
    (customNote ≠ "" →
      checkpointMessage timestamp customNote =
        "CHECKPOINT: " ++ timestamp ++ " - " ++ customNote) ∧
    (∀ c ∈ issued w (CreateCheckpoint customNote w).2, ∀ m, c.1 = .commit m →
      ∃ rd, (.date, rd) ∈ issued w (CreateCheckpoint customNote w).2 ∧
        m = (if customNote = "" then "CHECKPOINT: " ++ timestampOf rd
          else "CHECKPOINT: " ++ timestampOf rd ++ " - " ++ customNote)) ∧
    ((issued w (CreateCheckpoint customNote w).2).filter
      (fun c => c.1.isCommit)).length ≤ 1 ∧
    ((CreateCheckpoint customNote w).1 = none →
      ∃ c ∈ issued w (CreateCheckpoint customNote w).2,
        c.1.isCommit = true ∧ c.2.err = none) := by
  have hmsg : ∀ ts, checkpointMessage ts customNote =
      (if customNote = "" then "CHECKPOINT: " ++ ts
        else "CHECKPOINT: " ++ ts ++ " - " ++ customNote) := by
    intro ts
    unfold checkpointMessage
    by_cases hn : customNote = "" <;> simp [hn]
  refine ⟨by simp [checkpointMessage], ?_, ?_⟩
  · intro hn
    simp [checkpointMessage, hn]
  · obtain ⟨tr, htr, hshape⟩ := CreateCheckpoint_shape customNote w
    rw [htr, issued_extend]
    generalize (CreateCheckpoint customNote w).1 = res at hshape
    cases hshape with
    | notRepo r0 h0 => simp [Proc.isCommit]
    | statusFailed r0 r1 e h0 h1 => simp [Proc.isCommit]
    | clean r0 r1 h0 h1 hs => simp [Proc.isCommit]
    | addFailed r0 r1 r2 e h0 h1 hs h2 => simp [Proc.isCommit]
    | commitFailed r0 r1 r2 rd rc e h0 h1 hs h2 hc =>
      refine ⟨?_, by simp [Proc.isCommit], by simp⟩
      intro c hc2 m hm
      simp only [List.mem_cons, List.mem_singleton, List.not_mem_nil, or_false] at hc2
      rcases hc2 with rfl | rfl | rfl | rfl | rfl <;> simp only [reduceCtorEq] at hm
      simp only [Proc.commit.injEq] at hm
      exact ⟨rd, by simp, by rw [← hm, hmsg]⟩
    | created r0 r1 r2 rd rc h0 h1 hs h2 hc =>
      refine ⟨?_, by simp [Proc.isCommit], ?_⟩
      · intro c hc2 m hm
        simp only [List.mem_cons, List.mem_singleton, List.not_mem_nil, or_false] at hc2
        rcases hc2 with rfl | rfl | rfl | rfl | rfl <;> simp only [reduceCtorEq] at hm
        simp only [Proc.commit.injEq] at hm
        exact ⟨rd, by simp, by rw [← hm, hmsg]⟩
      · intro _
        exact ⟨_, List.mem_of_mem_getLast? rfl, rfl, hc⟩

/-- Witness for C21: in the store with a changed file, a checkpoint with the note `wip`
commits under "CHECKPOINT: 04/11/2026 10:00 - wip". -/
theorem C21_checkpoint_message_witness :
    (CreateCheckpoint "wip" sentinelWorld).1 = none ∧
    (issued sentinelWorld (CreateCheckpoint "wip" sentinelWorld).2).map Prod.fst =
      [.revParseGitDir, .statusPorcelain, .addAll, .date,
        .commit "CHECKPOINT: 04/11/2026 10:00 - wip"] ∧
    (issued sentinelWorld (CreateCheckpoint "" sentinelWorld).2).map Prod.fst =
      [.revParseGitDir, .statusPorcelain, .addAll, .date,
        .commit "CHECKPOINT: 04/11/2026 10:00"] ∧
    ("wip" ≠ "" → checkpointMessage "04/11/2026 10:00" "wip" =
      "CHECKPOINT: " ++ "04/11/2026 10:00" ++ " - " ++ "wip") ∧
    ∃ c ∈ issued sentinelWorld (CreateCheckpoint "wip" sentinelWorld).2,
      c.1.isCommit = true ∧ c.2.err = none :=
  ⟨by decide, by decide, by decide,
    (C21_checkpoint_message "04/11/2026 10:00" "wip" sentinelWorld).2.1,
    (C21_checkpoint_message "04/11/2026 10:00" "wip" sentinelWorld).2.2.2.2 (by decide)⟩

theorem isCommit_eq_true (p : Proc) : p.isCommit = true ↔ ∃ m, p = .commit m := by
  cases p <;> simp [Proc.isCommit]

theorem PrefixShape.queries_commit_free {tr : List (Proc × CmdResult)} (h : PrefixShape tr) :
    ∀ c ∈ tr, c.1.isCommit = false := by
  intro c hc
  have := h.allowed c hc
  revert this
  cases c.1 <;> simp [Proc.isPrefixProc, Proc.isQuery, Proc.isCommit]

theorem MsgShape.message_commit_free {custom : String} {tm : List (Proc × CmdResult)} {m : String}
    (h : MsgShape custom tm m) : ∀ c ∈ tm, c.1.isCommit = false := by
  intro c hc
  rw [h.only_date c hc]
  rfl

theorem StagedShape.staged_commit_free {b : String} {ts : List (Proc × CmdResult)}
    {res : Option String} (h : StagedShape b ts res) : ∀ c ∈ ts, c.1.isCommit = false := by
  intro c hc
  rcases h.staged_procs c hc with h1 | h1 | h1 | ⟨h1, -⟩ <;> rw [h1] <;> rfl

theorem CommitShape.one_commit {b m : String} {tc : List (Proc × CmdResult)}
    {res : Option String} (h : CommitShape b m tc res) :
    tc.filter (fun c => c.1.isCommit) = tc.take 1 ∧
      (∃ r, tc.take 1 = [(.commit m, r)] ∧ (res = none → r.err = none)) := by
  cases h with
  | commitFailed r r1 r2 e hr =>
    exact ⟨by simp [Proc.isCommit], r, rfl, fun h => by cases h⟩
  | pushFailed r r1 rp r2 br e hr hbr hrp =>
    exact ⟨by simp [Proc.isCommit], r, rfl, fun h => by cases h⟩
  | pushed r r1 rp r2 r3 r4 br hr hbr hrp =>
    exact ⟨by simp [Proc.isCommit], r, rfl, fun _ => hr⟩

theorem filter_eq_nil_of_no_commit (l : List (Proc × CmdResult))
    (h : ∀ c ∈ l, c.1.isCommit = false) : l.filter (fun c => c.1.isCommit) = [] := by
  rw [List.filter_eq_nil_iff]
  intro c hc
  simp [h c hc]

/-- The commits of a run of `FinalizeAndPushWithMessage`: none, or one commit whose
message is the one `chooseCommitMessage` chose. -/
theorem finalize_commits (customMessage : String) (w : World) :
    (issued w (FinalizeAndPushWithMessage customMessage w).2).filter
        (fun c => c.1.isCommit) = [] ∧
      (∃ e, (FinalizeAndPushWithMessage customMessage w).1 = some e) ∨
    ∃ tm m r, MsgShape customMessage tm m ∧
      (∀ c ∈ tm, c ∈ issued w (FinalizeAndPushWithMessage customMessage w).2) ∧
      (issued w (FinalizeAndPushWithMessage customMessage w).2).filter
        (fun c => c.1.isCommit) = [(.commit m, r)] ∧
      ((FinalizeAndPushWithMessage customMessage w).1 = none → r.err = none) := by
  obtain ⟨tr, htr, hshape⟩ := FinalizeAndPushWithMessage_shape customMessage w
  rw [htr, issued_extend]
  rcases hshape with ⟨hpre, he⟩ | ⟨pre, ex, base, rfl, hpre, hex⟩
  · exact Or.inl ⟨filter_eq_nil_of_no_commit _ hpre.queries_commit_free, he⟩
  · have hp := filter_eq_nil_of_no_commit _ hpre.queries_commit_free
    generalize (FinalizeAndPushWithMessage customMessage w).1 = res at hex ⊢
    cases hex with
    | backupFailed r e hr =>
      refine Or.inl ⟨?_, _, rfl⟩
      rw [List.filter_append, hp]
      rfl
    | resetFailed r r1 r2 r3 e hr hr1 =>
      refine Or.inl ⟨?_, _, rfl⟩
      rw [List.filter_append, hp]
      rfl
    | stopped r r1 tm m ts e hr hr1 hm hs =>
      have h1 := filter_eq_nil_of_no_commit _ hm.message_commit_free
      have h2 := filter_eq_nil_of_no_commit _ hs.staged_commit_free
      refine Or.inl ⟨?_, _, rfl⟩
      simp only [List.filter_append, hp, h1, h2, List.append_nil, List.nil_append]
      rfl
    | committing r r1 tm m ts tc res hr hr1 hm hs hc =>
      have h1 := filter_eq_nil_of_no_commit _ hm.message_commit_free
      have h2 := filter_eq_nil_of_no_commit _ hs.staged_commit_free
      obtain ⟨h3, rc, h4, h5⟩ := hc.one_commit
      refine Or.inr ⟨tm, m, rc, hm, ?_, ?_, h5⟩
      · intro c hc2
        simp [hc2]
      · have h0 : List.filter (fun c => c.1.isCommit)
            [(Proc.branchCreate (backupBranchName w), r), (Proc.resetSoft base, r1)] = [] := rfl
        simp only [List.filter_append, hp, h0, h1, h2, h3, h4, List.append_nil,
          List.nil_append]

/-- Claim C22: every commit a run of `FinalizeAndPushWithMessage` issues carries the
custom message itself when that is not empty, and otherwise "Update: " followed by the
timestamp the run read with `date`; the run issues at most one commit, and a run that
returns no error has issued one, which succeeded. -/
theorem C22_final_commit_message (customMessage : String) (w : World) :
    (∀ c ∈ issued w (FinalizeAndPushWithMessage customMessage w).2, ∀ m,
      c.1 = .commit m →
        (customMessage ≠ "" → m = customMessage) ∧
        (customMessage = "" →
          ∃ rd, (.date, rd) ∈ issued w (FinalizeAndPushWithMessage customMessage w).2 ∧
            m = "Update: " ++ timestampOf rd)) ∧
    ((issued w (FinalizeAndPushWithMessage customMessage w).2).filter
      (fun c => c.1.isCommit)).length ≤ 1 ∧
    ((FinalizeAndPushWithMessage customMessage w).1 = none →
      ∃ c ∈ issued w (FinalizeAndPushWithMessage customMessage w).2,
        c.1.isCommit = true ∧ c.2.err = none) := by
  rcases finalize_commits customMessage w with ⟨hnone, e, he⟩ | ⟨tm, m, r, hm, htm, hone, hok⟩
  · refine ⟨?_, by simp [hnone], ?_⟩
    · intro c hc m hcm
      have hmem : c ∈ (issued w (FinalizeAndPushWithMessage customMessage w).2).filter
          (fun c => c.1.isCommit) := List.mem_filter.mpr ⟨hc, by simp [hcm, Proc.isCommit]⟩
      rw [hnone] at hmem
      cases hmem
    · intro h
      rw [he] at h
      cases h
  · refine ⟨?_, by simp [hone], ?_⟩
    · intro c hc m0 hcm
      have hmem : c ∈ (issued w (FinalizeAndPushWithMessage customMessage w).2).filter
          (fun c => c.1.isCommit) := List.mem_filter.mpr ⟨hc, by simp [hcm, Proc.isCommit]⟩
      rw [hone, List.mem_singleton] at hmem
      subst hmem
      simp only [Proc.commit.injEq] at hcm
      subst hcm
      cases hm with
      | given hne => exact ⟨fun _ => rfl, fun h => absurd h hne⟩
      | auto rd hempty =>
        refine ⟨fun h => absurd hempty h, fun _ => ⟨rd, htm _ (by simp), rfl⟩⟩
    · intro h
      have hmem : ((.commit m, r) : Proc × CmdResult) ∈
          (issued w (FinalizeAndPushWithMessage customMessage w).2).filter
            (fun c => c.1.isCommit) := by simp [hone]
      exact ⟨_, (List.mem_filter.mp hmem).1, rfl, hok h⟩

/-- Witness for C22: in the example store the run with the message `release` commits
under `release`, and the run without a message under "Update: 04/11/2026 10:00". -/
theorem C22_final_commit_message_witness :
    (FinalizeAndPushWithMessage "release" exampleWorld).1 = none ∧
    (issued exampleWorld (FinalizeAndPushWithMessage "release" exampleWorld).2).filter
      (fun c => c.1.isCommit) = [(.commit "release", succeeded "")] ∧
    (issued exampleWorld (FinalizeAndPushWithMessage "" exampleWorld).2).filter
      (fun c => c.1.isCommit) = [(.commit "Update: 04/11/2026 10:00", succeeded "")] ∧
    ∃ c ∈ issued exampleWorld (FinalizeAndPushWithMessage "release" exampleWorld).2,
      c.1.isCommit = true ∧ c.2.err = none :=
  ⟨by decide, by decide, by decide,
    (C22_final_commit_message "release" exampleWorld).2.2 (by decide)⟩

/-! ## Claims about the diagnosis -/

theorem diagnosePushError_eq (output err : String) :
    diagnosePushError output err =
      pushAdvice (firstMatching pushOrder pushPatterns .unknown
        (ToLower (output ++ " " ++ err))) := by
  unfold diagnosePushError firstMatching pushOrder
  dsimp only
  generalize ToLower (output ++ " " ++ err) = t
  simp only [List.find?_cons, List.find?_nil, pushPatterns, List.any_cons, List.any_nil,
    Bool.or_false]
  generalize (Contains t "not a full refname" || Contains t "refs/heads") = b1
  generalize (Contains t "permission denied" || Contains t "authentication") = b2
  generalize (Contains t "no such remote" || Contains t "does not exist") = b3
  generalize (Contains t "rejected" || Contains t "non-fast-forward") = b4
  generalize (Contains t "network" || Contains t "timeout") = b5
  cases b1 <;> cases b2 <;> cases b3 <;> cases b4 <;> cases b5 <;> rfl

theorem diagnoseCommitError_eq (output err : String) :
    diagnoseCommitError output err =
      commitAdvice (firstMatching commitOrder commitPatterns .unknown
        (ToLower (output ++ " " ++ err))) := by
  unfold diagnoseCommitError firstMatching commitOrder
  dsimp only
  generalize ToLower (output ++ " " ++ err) = t
  simp only [List.find?_cons, List.find?_nil, commitPatterns, List.any_cons, List.any_nil,
    Bool.or_false]
  generalize (Contains t "nothing to commit" || Contains t "no changes") = b1
  generalize (Contains t "pre-commit" || Contains t "hook") = b2
  generalize (Contains t "index.lock" || Contains t "unable to create") = b3
  generalize (Contains t "pathspec" || Contains t "did not match") = b4
  cases b1 <;> cases b2 <;> cases b3 <;> cases b4 <;> rfl

set_option maxRecDepth 20000 in
theorem pushAdvice_injective : ∀ a b, pushAdvice a = pushAdvice b → a = b := by
  intro a b
  cases a <;> cases b <;>
    first
    | exact fun _ => rfl
    | exact fun h => absurd h (by decide)

set_option maxRecDepth 20000 in
theorem commitAdvice_injective : ∀ a b, commitAdvice a = commitAdvice b → a = b := by
  intro a b
  cases a <;> cases b <;>
    first
    | exact fun _ => rfl
    | exact fun h => absurd h (by decide)

/-- A category that comes first in the order and matches is the one chosen. -/
theorem firstMatching_head {κ : Type} (c : κ) (rest : List κ) (patterns : κ → List String)
    (fallback : κ) (text : String)
    (h : (patterns c).any (fun p => Contains text p) = true) :
    firstMatching (c :: rest) patterns fallback text = c := by
  simp [firstMatching, List.find?_cons, h]

/-- The category chosen matches, and no category before it in the order does; when no
category matches, the fallback is chosen. -/
theorem firstMatching_spec {κ : Type} (order : List κ) (patterns : κ → List String)
    (fallback : κ) (text : String) :
    (∃ pre c post, order = pre ++ c :: post ∧
      firstMatching order patterns fallback text = c ∧
      (patterns c).any (fun p => Contains text p) = true ∧
      ∀ d ∈ pre, (patterns d).any (fun p => Contains text p) = false) ∨
    (firstMatching order patterns fallback text = fallback ∧
      ∀ d ∈ order, (patterns d).any (fun p => Contains text p) = false) := by
  unfold firstMatching
  induction order with
  | nil => exact Or.inr ⟨rfl, by simp⟩
  | cons a r ih =>
    by_cases ha : (patterns a).any (fun p => Contains text p) = true
    · left
      refine ⟨[], a, r, rfl, ?_, ha, by simp⟩
      simp only [List.find?_cons, ha]
    · have ha2 : (patterns a).any (fun p => Contains text p) = false := by simpa using ha
      simp only [List.find?_cons, ha2]
      rcases ih with ⟨pre, c, post, hsplit, hres, hc, hpre⟩ | ⟨hres, hall⟩
      · left
        refine ⟨a :: pre, c, post, by simp [hsplit], hres, hc, ?_⟩
        intro d hd
        rcases List.mem_cons.mp hd with rfl | hd
        · exact ha2
        · exact hpre d hd
      · right
        refine ⟨hres, ?_⟩
        intro d hd
        rcases List.mem_cons.mp hd with rfl | hd
        · exact ha2
        · exact hall d hd

set_option maxRecDepth 20000 in
/-- Counterexample for C23: a commit failure whose text holds both "hook" and "nothing to
commit" gets the nothing-to-commit advice, although the hook category is listed before
it. -/
theorem C23_nothing_to_commit_precedes_hook :
    Contains (ToLower ("pre-commit hook passed\nnothing to commit, working tree clean" ++
      " " ++ "exit status 1")) "hook" = true ∧
    Contains (ToLower ("pre-commit hook passed\nnothing to commit, working tree clean" ++
      " " ++ "exit status 1")) "nothing to commit" = true ∧
    firstMatching listedCommitOrder commitPatterns .unknown
      (ToLower ("pre-commit hook passed\nnothing to commit, working tree clean" ++
        " " ++ "exit status 1")) = .hook ∧
    diagnoseCommitError "pre-commit hook passed\nnothing to commit, working tree clean"
      "exit status 1" = commitAdvice .nothingToCommit ∧
    diagnoseCommitError "pre-commit hook passed\nnothing to commit, working tree clean"
      "exit status 1" ≠ commitAdvice .hook := by
  refine ⟨by decide, by decide, by decide, by decide, by decide⟩

/-- Claim C23, amended: `diagnosePushError` returns the advice of the first category, in
the order ref-name, authentication, remote-not-found, rejection, network, one of whose
patterns occurs in the lowercased text of output, a space and the error, and the unknown
advice when none does; `diagnoseCommitError` does the same in the order nothing-to-commit,
hook, lock, path. The advice texts of distinct categories differ. -/
theorem C23_diagnosis_is_first_match (output err : String) :
    diagnosePushError output err =
      pushAdvice (firstMatching [.refName, .authentication, .remoteNotFound, .rejected,
        .network] pushPatterns .unknown (ToLower (output ++ " " ++ err))) ∧
    diagnoseCommitError output err =
      commitAdvice (firstMatching [.nothingToCommit, .hook, .lock, .path] commitPatterns
        .unknown (ToLower (output ++ " " ++ err))) ∧
    (∀ a b, pushAdvice a = pushAdvice b → a = b) ∧
    (∀ a b, commitAdvice a = commitAdvice b → a = b) :=
  ⟨diagnosePushError_eq output err, diagnoseCommitError_eq output err,
    pushAdvice_injective, commitAdvice_injective⟩

set_option maxRecDepth 20000 in
/-- Witness for C23: a push failure that mentions both `refs/heads` and a denied
permission gets the ref-name advice, in whatever case it is written; a text matching no
pattern gets the unknown advice. -/
theorem C23_diagnosis_is_first_match_witness :
    diagnosePushError "ERROR: Permission denied for refs/heads/main" "exit status 128" =
      pushAdvice .refName ∧
    diagnosePushError "fatal: Authentication failed" "exit status 128" =
      pushAdvice .authentication ∧
    diagnoseCommitError "boom" "exit status 1" = commitAdvice .unknown :=
  ⟨(C23_diagnosis_is_first_match "ERROR: Permission denied for refs/heads/main"
      "exit status 128").1.trans (by decide),
    (C23_diagnosis_is_first_match "fatal: Authentication failed"
      "exit status 128").1.trans (by decide),
    (C23_diagnosis_is_first_match "boom" "exit status 1").2.1.trans (by decide)⟩

/-! ## Claims about the preview -/

theorem countTagged_eq (l : List Checkpoint) : countTagged l = (collectTagged l).length := by
  induction l with
  | nil => rfl
  | cons c cs ih =>
    unfold countTagged collectTagged
    by_cases hc : Contains c.Message checkpointTag = true
    · simp [hc, ih]
    · simp [hc]

theorem listSquashed_eq (cps : List Checkpoint) (currentIndex i left : Nat) :
    listSquashed cps currentIndex i left =
      renderRun i ((cps.drop (currentIndex + i)).take left) := by
  induction left generalizing i with
  | zero => simp [listSquashed, renderRun]
  | succ n ih =>
    unfold listSquashed
    cases h : cps[currentIndex + i]? with
    | none =>
      have : cps.drop (currentIndex + i) = [] :=
        List.drop_eq_nil_of_le (List.getElem?_eq_none_iff.mp h)
      simp [this, renderRun]
    | some cp =>
      have hlt : currentIndex + i < cps.length := by
        by_contra hge
        rw [List.getElem?_eq_none_iff.mpr (by omega)] at h
        cases h
      have hcp : cps[currentIndex + i] = cp := by
        rw [List.getElem?_eq_getElem hlt] at h
        exact Option.some.inj h
      have hdrop : cps.drop (currentIndex + i) = cp :: cps.drop (currentIndex + (i + 1)) := by
        rw [← hcp]
        exact List.drop_eq_getElem_cons hlt
      simp only [hdrop, List.take_succ_cons, renderRun]
      rw [ih (i + 1)]

/-- The text built for a current commit found at index `i`, in terms of the run the
planner builds there. -/
theorem finalizeInfo_found (cps : List Checkpoint) (cur : String) (i : Nat)
    (hfound : findCurrentIndex cps cur = some i) :
    finalizeInfo cps cur = previewOf i (consecutiveCheckpoints cps i) := by
  obtain ⟨pre, cp, rest, rfl, rfl, -, -⟩ := findCurrentIndex_split _ _ _ hfound
  have hrun := consecutiveCheckpoints_split pre cp rest
  have hlen : (pre ++ cp :: rest).length ≠ 0 := by simp
  have hdrop1 : (pre ++ cp :: rest).drop (pre.length + 1) = rest := by
    rw [← List.drop_drop, List.drop_left]; rfl
  have hdrop0 : (pre ++ cp :: rest).drop (pre.length + 0) = cp :: rest := by
    rw [Nat.add_zero, List.drop_left]
  obtain ⟨post, hpost, -, -⟩ := collectTagged_split rest
  have htake : (cp :: rest).take (1 + (collectTagged rest).length) =
      cp :: collectTagged rest := by
    rw [Nat.add_comm, List.take_succ_cons]
    congr 1
    generalize collectTagged rest = t at hpost
    subst hpost
    simp
  unfold finalizeInfo previewOf
  simp only [hlen, if_false, hfound, hdrop1, countTagged_eq, listSquashed_eq, hdrop0, htake,
    hrun, List.length_cons]
  rw [Nat.add_comm 1]

theorem GetFinalizeInfo_ok (w : World) (cps : List Checkpoint) (cur : String)
    (hrepo : (IsRepo w).1 = true)
    (hcur : (GetCurrentCommit (IsRepo w).2).1 = (cur, none))
    (hlist : (GetCheckpointsFromReflog (GetCurrentCommit (IsRepo w).2).2).1 = .ok cps) :
    (GetFinalizeInfo w).1 = .ok (finalizeInfo cps cur) := by
  unfold GetFinalizeInfo
  generalize IsRepo w = p at hrepo hcur hlist ⊢
  obtain ⟨b, w1⟩ := p
  simp only at hrepo hcur hlist
  subst hrepo
  dsimp only
  generalize GetCurrentCommit w1 = q at hcur hlist ⊢
  obtain ⟨⟨c, e⟩, w2⟩ := q
  simp only [Prod.mk.injEq] at hcur
  obtain ⟨rfl, rfl⟩ := hcur
  dsimp only at hlist ⊢
  generalize GetCheckpointsFromReflog w2 = g at hlist ⊢
  obtain ⟨res, w3⟩ := g
  simp only at hlist
  subst hlist
  rfl

/-- Claim C24: for every list and every current commit found in it at index `i`, the
text `GetFinalizeInfo` builds is the preview of the run the planner of
`FinalizeAndPushWithMessage` builds there: "Will squash N consecutive checkpoints" with N
the length of that run, the line "Will remove N newer checkpoints" with N the number `i`
of entries before the current one, left out when that is zero, and under "Checkpoints to
be squashed:" the entries of the run in order; a plan the planner returns carries that
run, and `GetFinalizeInfo` returns this text for the list it discovers. -/
theorem C24_preview_is_the_run (checkpoints : List Checkpoint) (currentCommit : String)
    (i : Nat) (hfound : findCurrentIndex checkpoints currentCommit = some i) :
    finalizeInfo checkpoints currentCommit =
      previewOf i (consecutiveCheckpoints checkpoints i) ∧
    (checkpoints.take i).length = i ∧
    (∀ w plan w1, planSquash checkpoints currentCommit w = (.ok plan, w1) →
      finalizeInfo checkpoints currentCommit = previewOf i plan.run) ∧
    (∀ w, (IsRepo w).1 = true →
      (GetCurrentCommit (IsRepo w).2).1 = (currentCommit, none) →
      (GetCheckpointsFromReflog (GetCurrentCommit (IsRepo w).2).2).1 = .ok checkpoints →
      (GetFinalizeInfo w).1 = .ok (previewOf i (consecutiveCheckpoints checkpoints i))) := by
  have hinfo := finalizeInfo_found checkpoints currentCommit i hfound
  refine ⟨hinfo, ?_, ?_, ?_⟩
  · obtain ⟨pre, cp, rest, rfl, rfl, -, -⟩ := findCurrentIndex_split _ _ _ hfound
    simp
  · intro w plan w1 hp
    obtain ⟨hrun, -, -⟩ := planSquash_run checkpoints currentCommit i hfound w plan w1 hp
    rw [hrun]
    exact hinfo
  · intro w hrepo hcur hlist
    rw [GetFinalizeInfo_ok w checkpoints currentCommit hrepo hcur hlist, hinfo]

set_option maxRecDepth 20000 in
/-- Witness for C24: in the revisited store, at `c1` with the newer checkpoint `c2` before
it, the preview folds `c1` alone and removes one newer checkpoint; in the example store,
at `c3`, it folds the three checkpoints. -/
theorem C24_preview_is_the_run_witness :
    findCurrentIndex revisitedList "c1" = some 1 ∧
    finalizeInfo revisitedList "c1" = previewOf 1 [⟨"c1", "CHECKPOINT: one"⟩] ∧
    previewOf 1 [⟨"c1", "CHECKPOINT: one"⟩] =
      "Will squash 1 consecutive checkpoints\nWill remove 1 newer checkpoints\n" ++
        "\nCheckpoints to be squashed:\n> [c1] CHECKPOINT: one\n" ∧
    (GetFinalizeInfo exampleWorld).1 = .ok
      ("Will squash 3 consecutive checkpoints\n\nCheckpoints to be squashed:\n" ++
        "> [c3] CHECKPOINT: three\n  [c2] CHECKPOINT: two\n  [c1] CHECKPOINT: one\n") :=
  ⟨by decide,
    (C24_preview_is_the_run revisitedList "c1" 1 (by decide)).1.trans (by decide),
    by decide,
    ((C24_preview_is_the_run
      [⟨"c3", "CHECKPOINT: three"⟩, ⟨"c2", "CHECKPOINT: two"⟩, ⟨"c1", "CHECKPOINT: one"⟩,
        ⟨"b0", "[LAST COMMIT] init"⟩] "c3" 0 (by decide)).2.2.2 exampleWorld (by decide)
      (by decide) rfl).trans (congrArg Except.ok (by decide))⟩

/-! ## Claims about the main menu -/

theorem wrapUp_last (disabled : Int → Bool) (n : Nat)
    (h : disabled (n : Int) = false) : wrapUp disabled (n + 1) = n := by
  simp [wrapUp, h]

theorem cursorUp_spec (disabled : Int → Bool) (len : Nat) (hlen : 0 < len)
    (hlast : disabled ((len : Int) - 1) = false) (n : Nat) (hn : n < len) :
    0 ≤ cursorUp disabled len n ∧ cursorUp disabled len n < len ∧
      disabled (cursorUp disabled len n) = false := by
  induction n with
  | zero =>
    obtain ⟨m, rfl⟩ : ∃ m, len = m + 1 := ⟨len - 1, by omega⟩
    have hm : disabled (m : Int) = false := by
      have : ((m + 1 : Nat) : Int) - 1 = (m : Int) := by omega
      rw [← this]; exact hlast
    rw [cursorUp, wrapUp_last disabled m hm]
    exact ⟨by omega, by omega, hm⟩
  | succ k ih =>
    unfold cursorUp
    by_cases hk : disabled (k : Int) = true
    · simp only [hk, Bool.not_true, Bool.false_eq_true, if_false]
      exact ih (by omega)
    · have hk2 : disabled (k : Int) = false := by simpa using hk
      simp only [hk2, Bool.not_false, if_true]
      exact ⟨by omega, by omega, trivial⟩

theorem wrapDown_spec (disabled : Int → Bool) (len : Nat)
    (hlast : disabled ((len : Int) - 1) = false) (left : Nat) (c : Int) (hc : 0 ≤ c)
    (hleft : 0 < left) (hsum : c + left = len) :
    0 ≤ wrapDown disabled c left ∧ wrapDown disabled c left < len ∧
      disabled (wrapDown disabled c left) = false := by
  induction left generalizing c with
  | zero => omega
  | succ k ih =>
    unfold wrapDown
    by_cases hd : disabled c = true
    · simp only [hd, if_true]
      have hk : 0 < k := by
        by_contra h0
        have hk0 : k = 0 := by omega
        have hcl : c = (len : Int) - 1 := by
          subst hk0
          push_cast at hsum
          omega
        rw [hcl, hlast] at hd
        cases hd
      exact ih (c + 1) (by omega) hk (by push_cast at hsum ⊢; omega)
    · have hd2 : disabled c = false := by simpa using hd
      simp only [hd2, Bool.false_eq_true, if_false]
      exact ⟨hc, by push_cast at hsum; omega, trivial⟩

theorem cursorDown_spec (disabled : Int → Bool) (len : Nat) (hlen : 0 < len)
    (hlast : disabled ((len : Int) - 1) = false) (left : Nat) (c : Int) (hc : 0 ≤ c)
    (hsum : c + 1 + left = len) :
    0 ≤ cursorDown disabled len c left ∧ cursorDown disabled len c left < len ∧
      disabled (cursorDown disabled len c left) = false := by
  induction left generalizing c with
  | zero =>
    unfold cursorDown
    exact wrapDown_spec disabled len hlast len 0 (le_refl _) hlen (by omega)
  | succ k ih =>
    unfold cursorDown
    by_cases hd : disabled (c + 1) = true
    · simp only [hd, Bool.not_true, Bool.false_eq_true, if_false]
      exact ih (c + 1) (by omega) (by push_cast at hsum ⊢; omega)
    · have hd2 : disabled (c + 1) = false := by simpa using hd
      simp only [hd2, Bool.not_false, if_true]
      exact ⟨by omega, by push_cast at hsum; omega, trivial⟩

theorem executeMenuAction_isSome (a : AppModel)
    (h : 0 ≤ a.MenuCursor ∧ a.MenuCursor < a.MenuChoices.length) :
    (executeMenuAction a).isSome = true := by
  unfold executeMenuAction
  split
  · rfl
  · have hlt : a.MenuCursor.toNat < a.MenuChoices.length := by omega
    simp only [h.1, if_true, List.getElem?_eq_getElem hlt]
    split <;> (try split) <;> (try split) <;> (try split) <;> rfl

theorem updateItem_other (hc hch : Bool) (a : AppModel) (i : Nat) (choice : String)
    (k : Int) (hk : k ≠ i) :
    (updateItem hc hch a i choice).DisabledMenuItems k = a.DisabledMenuItems k := by
  unfold updateItem
  split
  · split <;> simp [setDisabled, hk]
  · split
    · simp [setDisabled, hk]
    · split <;> simp [setDisabled, hk]

theorem updateItem_choices (hc hch : Bool) (a : AppModel) (i : Nat) (choice : String) :
    (updateItem hc hch a i choice).MenuChoices = a.MenuChoices := by
  unfold updateItem
  split
  · split <;> rfl
  · split
    · rfl
    · split <;> rfl

theorem updateItems_before (hc hch : Bool) (choices : List String) (a : AppModel) (i : Nat)
    (k : Int) (hk : k < i) :
    (updateItems hc hch a i choices).DisabledMenuItems k = a.DisabledMenuItems k := by
  induction choices generalizing a i with
  | nil => rfl
  | cons c cs ih =>
    rw [updateItems, ih _ (i + 1) (by push_cast; omega),
      updateItem_other hc hch a i c k (by omega)]

theorem updateItems_choices (hc hch : Bool) (choices : List String) (a : AppModel) (i : Nat) :
    (updateItems hc hch a i choices).MenuChoices = a.MenuChoices := by
  induction choices generalizing a i with
  | nil => rfl
  | cons c cs ih => rw [updateItems, ih, updateItem_choices]

/-- After the loop an item whose text is none of the three guarded choices is enabled. -/
theorem updateItems_default (hc hch : Bool) (choices : List String) (a : AppModel) (i : Nat)
    (j : Nat) (choice : String) (hj : choices[j]? = some choice)
    (h1 : choice ≠ "Create Checkpoint") (h2 : choice ≠ "Change Checkpoint")
    (h3 : choice ≠ "Finalize and Push") :
    (updateItems hc hch a i choices).DisabledMenuItems ((i + j : Nat) : Int) = false := by
  induction choices generalizing a i j with
  | nil => simp at hj
  | cons c cs ih =>
    rw [updateItems]
    cases j with
    | zero =>
      simp only [List.getElem?_cons_zero, Option.some.injEq] at hj
      subst hj
      rw [updateItems_before hc hch cs _ (i + 1) _ (by push_cast; omega)]
      simp [updateItem, h1, h2, h3, setDisabled]
    | succ m =>
      simp only [List.getElem?_cons_succ] at hj
      have := ih (updateItem hc hch a i c) (i + 1) m hj
      have hidx : i + 1 + m = i + (m + 1) := by omega
      rw [hidx] at this
      exact this

/-- Claim C25: in a main menu whose cursor is in range and whose last item is enabled,
`moveCursorUp` and `moveCursorDown` (total functions: each loop steps a bounded counter)
leave the cursor in range on an item that is not disabled, so that `executeMenuAction`
finds `MenuChoices[MenuCursor]`; and `updateDisabledItems` leaves the last item, `Exit`,
of the menu enabled, whatever the store answers. -/
theorem C25_cursor_stays_on_enabled_item (a : AppModel)
    (hrange : 0 ≤ a.MenuCursor ∧ a.MenuCursor < a.MenuChoices.length)
    (hexit : a.DisabledMenuItems ((a.MenuChoices.length : Int) - 1) = false) :
    (0 ≤ (moveCursorUp a).MenuCursor ∧
      (moveCursorUp a).MenuCursor < (moveCursorUp a).MenuChoices.length ∧
      (moveCursorUp a).DisabledMenuItems (moveCursorUp a).MenuCursor = false ∧
      (executeMenuAction (moveCursorUp a)).isSome = true) ∧
    (0 ≤ (moveCursorDown a).MenuCursor ∧
      (moveCursorDown a).MenuCursor < (moveCursorDown a).MenuChoices.length ∧
      (moveCursorDown a).DisabledMenuItems (moveCursorDown a).MenuCursor = false ∧
      (executeMenuAction (moveCursorDown a)).isSome = true) ∧
    (∀ w, a.MenuChoices = MenuOptions →
      (updateDisabledItems a w).1.MenuChoices = MenuOptions ∧
      (updateDisabledItems a w).1.DisabledMenuItems
        (((updateDisabledItems a w).1.MenuChoices.length : Int) - 1) = false) := by
  have hlen : 0 < a.MenuChoices.length := by omega
  have hup : 0 ≤ (moveCursorUp a).MenuCursor ∧
      (moveCursorUp a).MenuCursor < a.MenuChoices.length ∧
      a.DisabledMenuItems (moveCursorUp a).MenuCursor = false := by
    unfold moveCursorUp
    dsimp only
    by_cases hpos : a.MenuCursor > 0
    · simp only [hpos, if_true]
      exact cursorUp_spec _ _ hlen hexit _ (by omega)
    · simp only [hpos, if_false]
      have := cursorUp_spec a.DisabledMenuItems _ hlen hexit 0 hlen
      rwa [cursorUp] at this
  have hdown : 0 ≤ (moveCursorDown a).MenuCursor ∧
      (moveCursorDown a).MenuCursor < a.MenuChoices.length ∧
      a.DisabledMenuItems (moveCursorDown a).MenuCursor = false := by
    unfold moveCursorDown
    dsimp only
    exact cursorDown_spec _ _ hlen hexit _ _ hrange.1 (by omega)
  refine ⟨⟨hup.1, hup.2.1, hup.2.2, ?_⟩, ⟨hdown.1, hdown.2.1, hdown.2.2, ?_⟩, ?_⟩
  · exact executeMenuAction_isSome _ ⟨hup.1, hup.2.1⟩
  · exact executeMenuAction_isSome _ ⟨hdown.1, hdown.2.1⟩
  · intro w hmenu
    unfold updateDisabledItems
    dsimp only
    generalize (HasCheckpoints w).1 = hc
    generalize (HasUncommittedChanges (HasCheckpoints w).2).1 = hch
    rw [updateItems_choices]
    refine ⟨hmenu, ?_⟩
    rw [hmenu]
    exact updateItems_default hc hch MenuOptions a 0 3 "Exit" rfl (by decide) (by decide)
      (by decide)

/-- Witness for C25: with the first three items disabled and the cursor on `Exit`, both
moves wrap around and come back to `Exit`. -/
theorem C25_cursor_stays_on_enabled_item_witness :
    (moveCursorUp exampleMenu).MenuCursor = 3 ∧
    (moveCursorDown exampleMenu).MenuCursor = 3 ∧
    (executeMenuAction (moveCursorUp exampleMenu)).isSome = true ∧
    (executeMenuAction (moveCursorDown exampleMenu)).isSome = true :=
  ⟨by decide, by decide,
    (C25_cursor_stays_on_enabled_item exampleMenu (by decide) (by decide)).1.2.2.2,
    (C25_cursor_stays_on_enabled_item exampleMenu (by decide) (by decide)).2.1.2.2.2⟩

/-! ## Claims about the text inputs -/

/-- What holds of the note input: a key other than `ctrl+c`, `q`, `esc`, `enter` and
`backspace` whose text is one byte long is appended to a note of fewer than 50 bytes, and
the state stays the same. -/
theorem handleNoteInputKeys_appends (a : AppModel) (key : String)
    (hkey : key ≠ "ctrl+c" ∧ key ≠ "q" ∧ key ≠ "esc" ∧ key ≠ "enter" ∧ key ≠ "backspace")
    (hone : key.utf8ByteSize = 1) (hroom : a.CustomNote.utf8ByteSize < 50) :
    (handleNoteInputKeys a key).1.CustomNote = a.CustomNote ++ key ∧
    (handleNoteInputKeys a key).1.CurrentState = a.CurrentState ∧
    (handleNoteInputKeys a key).2 = .none := by
  obtain ⟨h1, h2, h3, h4, h5⟩ := hkey
  simp [handleNoteInputKeys, h1, h2, h3, h4, h5, hone, hroom]

/-- What holds of the finalize-message input: a key other than `ctrl+c`, `q`, `esc`,
`enter` and `backspace` whose text is one byte long is appended to a message of fewer than
100 bytes, and the state stays the same. -/
theorem handleFinalizeMessageInputKeys_appends (a : AppModel) (key : String)
    (hkey : key ≠ "ctrl+c" ∧ key ≠ "q" ∧ key ≠ "esc" ∧ key ≠ "enter" ∧ key ≠ "backspace")
    (hone : key.utf8ByteSize = 1) (hroom : a.CustomCommitMessage.utf8ByteSize < 100) :
    (handleFinalizeMessageInputKeys a key).1.CustomCommitMessage =
      a.CustomCommitMessage ++ key ∧
    (handleFinalizeMessageInputKeys a key).1.CurrentState = a.CurrentState ∧
    (handleFinalizeMessageInputKeys a key).2 = .none := by
  obtain ⟨h1, h2, h3, h4, h5⟩ := hkey
  simp [handleFinalizeMessageInputKeys, h1, h2, h3, h4, h5, hone, hroom]

/-- Claim C26 fails at the key `q`: its text is a single printable character and the
texts `fi` and `fix` are under their limits, yet in the note input the key cancels the
input and clears the note, and in the finalize-message input it cancels the input, where
the letter should have been appended with the state unchanged; the key `x` is appended.
A single printable character of more than one byte, such as `é`, is not appended
either. -/
theorem C26_q_cancels_the_input :
    "q".utf8ByteSize = 1 ∧ "fi".utf8ByteSize < 50 ∧ "fix".utf8ByteSize < 100 ∧
    (handleNoteInputKeys (noteInput "fi") "q").1.CurrentState = .StateCheckpointCreation ∧
    (handleNoteInputKeys (noteInput "fi") "q").1.CustomNote = "" ∧
    (handleFinalizeMessageInputKeys (messageInput "fix") "q").1.CurrentState =
      .StateFinalizeOptions ∧
    (handleFinalizeMessageInputKeys (messageInput "fix") "q").1.CustomCommitMessage = "fix" ∧
    (handleNoteInputKeys (noteInput "fi") "x").1.CurrentState = .StateCheckpointNoteInput ∧
    (handleNoteInputKeys (noteInput "fi") "x").1.CustomNote = "fix" ∧
    (handleNoteInputKeys (noteInput "caf") "é").1.CustomNote = "caf" := by
  refine ⟨by decide, by decide, by decide, by decide, by decide, by decide, by decide,
    by decide, by decide, by decide⟩

end VibeCheck
